import Mathlib

/-!
Verification development for the openclaw governed memory store.

This file embeds, as executable Lean definitions, the components of the
repository that the verified properties concern:

* the workspace path sandbox (resolveWorkspacePath, resolveAllowedMemorySourcePath,
  isPathWithin) over a model of the Node path module for POSIX paths;
* the unique-file allocator (writeUniqueFile) over an explicit filesystem state;
* the provenance and metadata codec (buildFrontMatter, parseFrontMatter,
  parseYamlValue, formatYamlValue), including the JSON string escaping used
  for values;
* the governed memory store writers (writeThreadbornEntry, writeBridgeThreadEntry,
  writeVaultEntry, writeLabyrinthSnapshot);
* the Vault sealing policy gate (resolveSaniVaultSealingEnabled and the
  vault_seal tool execution path with its denial audit);
* the session mode state machine (resolveSaniModeTtlMs, readSaniSessionFlags);
* the trigger matcher (hasStandaloneTriggerLine and the trigger line tests);
* the injection pattern detector (detectInjectionPatterns).

Effects are made explicit: the filesystem is a value threaded through the
operations, clock readings and generated identifiers are parameters, and
thrown JavaScript errors become an error sum type. Each operation returns
the final filesystem together with an Except value, so state left behind by
a failing operation is visible to the theorems.
-/

namespace OpenClaw

/-! ## Character and string helpers -/

/-- Whitespace as matched by the JavaScript regex class backslash-s and by
String.prototype.trim: space, tab, LF, CR, vertical tab, form feed,
no-break space and the BOM. -/
def jsWhitespaceChar (c : Char) : Bool :=
  c = ' ' || c = '\t' || c = '\n' || c = '\r' || c = '\x0b' || c = '\x0c' ||
    c = '\xa0' || c = '\ufeff'

def trimStartList (cs : List Char) : List Char :=
  cs.dropWhile jsWhitespaceChar

def trimEndList (cs : List Char) : List Char :=
  (cs.reverse.dropWhile jsWhitespaceChar).reverse

def trimList (cs : List Char) : List Char :=
  trimEndList (trimStartList cs)

/-- Model of JavaScript String.prototype.trim. -/
def trimStr (s : String) : String :=
  String.mk (trimList s.data)

/-- Model of JavaScript String.prototype.trimStart. -/
def trimStartStr (s : String) : String :=
  String.mk (trimStartList s.data)

/-- Model of JavaScript String.prototype.startsWith. -/
def strStartsWith (s pre : String) : Bool :=
  pre.data.isPrefixOf s.data

/-- Containment of one character list in another. -/
def listContainsRun (needle : List Char) : List Char → Bool
  | [] => needle.isEmpty
  | c :: rest => needle.isPrefixOf (c :: rest) || listContainsRun needle rest

/-- Model of JavaScript String.prototype.includes. -/
def strContains (s sub : String) : Bool :=
  listContainsRun sub.data s.data

/-- Model of JavaScript String.prototype.toLowerCase (ASCII range suffices here). -/
def lowerStr (s : String) : String :=
  String.mk (s.data.map Char.toLower)

/-- Model of JavaScript String.prototype.toUpperCase (ASCII range suffices here). -/
def upperStr (s : String) : String :=
  String.mk (s.data.map Char.toUpper)

/-- Split a character list at every occurrence of a separator character.
The result always has one more piece than there are separators. -/
def splitCharList (sep : Char) : List Char → List (List Char)
  | [] => [[]]
  | c :: rest =>
    if c = sep then
      [] :: splitCharList sep rest
    else
      match splitCharList sep rest with
      | [] => [[c]]
      | piece :: more => (c :: piece) :: more

/-- Split at newlines the way the JavaScript regex split on an optional CR
followed by LF does: a break at every LF, absorbing one CR directly before it. -/
def splitLinesList : List Char → List (List Char)
  | [] => [[]]
  | [c] =>
    if c = '\n' then [[], []] else [[c]]
  | c :: d :: rest =>
    if c = '\n' then [] :: splitLinesList (d :: rest)
    else if c = '\r' && d = '\n' then [] :: splitLinesList rest
    else
      match splitLinesList (d :: rest) with
      | [] => [[c]]
      | piece :: more => (c :: piece) :: more

/-- Model of content.split on the regex matching an optional CR followed by LF. -/
def splitLines (s : String) : List String :=
  (splitLinesList s.data).map String.mk

/-- Join a list of strings with a separator, as Array.prototype.join does. -/
def joinWith (sep : String) : List String → String
  | [] => ""
  | [x] => x
  | x :: y :: xs => x ++ sep ++ joinWith sep (y :: xs)

/-- Character-level counterpart of joining lines with a newline. -/
def joinLinesChars : List (List Char) → List Char
  | [] => []
  | [p] => p
  | p :: q :: rs => p ++ '\n' :: joinLinesChars (q :: rs)

/-! ## JSON string codec

formatYamlValue uses JSON.stringify on strings and parseYamlValue uses
JSON.parse on quoted values; both are modelled here at the level of JSON
string literals. -/

/-- Lowercase hexadecimal digit for a value below 16. -/
def hexDigitChar (n : Nat) : Char :=
  if n < 10 then Char.ofNat (48 + n) else Char.ofNat (87 + n)

/-- Value of a hexadecimal digit character, if it is one. -/
def hexCharVal (c : Char) : Option Nat :=
  if '0' ≤ c && c ≤ '9' then some (c.toNat - 48)
  else if 'a' ≤ c && c ≤ 'f' then some (c.toNat - 87)
  else if 'A' ≤ c && c ≤ 'F' then some (c.toNat - 55)
  else none

/-- Escaping of one character inside a JSON string literal, as produced by
JSON.stringify: quote, backslash and the named control escapes, a
backslash-u escape for the remaining control characters, and every other
character verbatim. -/
def jsonEscapeChar (c : Char) : List Char :=
  if c = '"' then ['\\', '"']
  else if c = '\\' then ['\\', '\\']
  else if c = '\x08' then ['\\', 'b']
  else if c = '\x09' then ['\\', 't']
  else if c = '\x0a' then ['\\', 'n']
  else if c = '\x0c' then ['\\', 'f']
  else if c = '\x0d' then ['\\', 'r']
  else if c.toNat < 32 then
    ['\\', 'u', '0', '0', hexDigitChar (c.toNat / 16), hexDigitChar (c.toNat % 16)]
  else [c]

/-- Model of JSON.stringify applied to a string. -/
def jsonStringify (s : String) : String :=
  String.mk ('"' :: ((s.data.map jsonEscapeChar).flatten ++ ['"']))

/-- Parse the remainder of a JSON string literal after the opening quote,
requiring the closing quote to end the input, as JSON.parse does on a
document consisting of a single string. -/
def jsonUnescapeChars : List Char → Option (List Char)
  | [] => none
  | c :: rest =>
    if c = '"' then (if rest.isEmpty then some [] else none)
    else if c = '\\' then
      match rest with
      | [] => none
      | e :: rest2 =>
        if e = '"' then (jsonUnescapeChars rest2).map (('"') :: ·)
        else if e = '\\' then (jsonUnescapeChars rest2).map (('\\') :: ·)
        else if e = '/' then (jsonUnescapeChars rest2).map (('/') :: ·)
        else if e = 'b' then (jsonUnescapeChars rest2).map (('\x08') :: ·)
        else if e = 'f' then (jsonUnescapeChars rest2).map (('\x0c') :: ·)
        else if e = 'n' then (jsonUnescapeChars rest2).map (('\x0a') :: ·)
        else if e = 'r' then (jsonUnescapeChars rest2).map (('\x0d') :: ·)
        else if e = 't' then (jsonUnescapeChars rest2).map (('\x09') :: ·)
        else if e = 'u' then
          match rest2 with
          | h1 :: h2 :: h3 :: h4 :: rest3 =>
            match hexCharVal h1, hexCharVal h2, hexCharVal h3, hexCharVal h4 with
            | some a, some b, some v3, some v4 =>
              (jsonUnescapeChars rest3).map
                ((Char.ofNat (((a * 16 + b) * 16 + v3) * 16 + v4)) :: ·)
            | _, _, _, _ => none
          | _ => none
        else none
    else if c.toNat < 32 then none
    else (jsonUnescapeChars rest).map (c :: ·)

/-- Model of JSON.parse applied to a document that must be exactly one
JSON string literal, returning none where JSON.parse throws. -/
def jsonParseString (s : String) : Option String :=
  match s.data with
  | '"' :: rest => (jsonUnescapeChars rest).map String.mk
  | _ => none

/-! ## Path model

The repository manipulates POSIX paths through the Node path module.
Paths are strings; the model works on the slash-separated components. -/

/-- Components of a path string, split at every slash. -/
def splitSlash (s : String) : List String :=
  (splitCharList '/' s.data).map String.mk

/-- Join path components with slashes. -/
def joinComps : List String → String
  | [] => ""
  | [x] => x
  | x :: y :: xs => x ++ "/" ++ joinComps (y :: xs)

/-- Normalization of the component list of an absolute path: empty and dot
components vanish, a dot-dot component removes the preceding component and
at the root is dropped. This is the normalization performed by path.resolve. -/
def normAbsGo (acc : List String) : List String → List String
  | [] => acc.reverse
  | c :: rest =>
    if c = "" || c = "." then normAbsGo acc rest
    else if c = ".." then
      match acc with
      | [] => normAbsGo [] rest
      | _ :: acc' => normAbsGo acc' rest
    else normAbsGo (c :: acc) rest

def normAbsComps (l : List String) : List String :=
  normAbsGo [] l

/-- Model of path.isAbsolute for POSIX paths. -/
def isAbsolutePath (s : String) : Bool :=
  match s.data with
  | '/' :: _ => true
  | _ => false

/-- Absolute path string for a normalized component list. -/
def absString (comps : List String) : String :=
  "/" ++ joinComps comps

/-- Normalized components of a path string, resolving it as absolute. -/
def pathCompsOf (s : String) : List String :=
  normAbsComps (splitSlash s)

/-- Model of path.resolve(base, p) where the base is an absolute path: an
absolute second argument wins, otherwise the concatenation is normalized.
The repository always passes an absolute workspace directory as the base,
so resolution against the process working directory is out of scope. -/
def resolvePath (base p : String) : String :=
  if isAbsolutePath p then
    absString (normAbsComps (splitSlash p))
  else
    absString (normAbsComps (splitSlash base ++ splitSlash p))

/-- Length of the longest common prefix of two component lists. -/
def commonPrefixLen : List String → List String → Nat
  | a :: as, b :: bs => if a = b then commonPrefixLen as bs + 1 else 0
  | _, _ => 0

/-- Model of path.relative(from, to) for absolute POSIX inputs: both sides
are resolved, the common prefix is dropped, and one dot-dot component is
produced for every remaining component of the from side. -/
def relativePath (f t : String) : String :=
  let fc := pathCompsOf f
  let tc := pathCompsOf t
  let n := commonPrefixLen fc tc
  joinComps (List.replicate (fc.length - n) ".." ++ tc.drop n)

/-- Model of path.join for the segment shapes the repository uses: the
joined segments are nonempty and contain no dot or dot-dot components, so
joining is plain concatenation with a slash. -/
def joinPath (a b : String) : String :=
  a ++ "/" ++ b

/-- Model of path.basename for POSIX paths. -/
def basenamePath (s : String) : String :=
  match (splitSlash s).reverse with
  | [] => ""
  | last :: _ => last

/-- A path is strictly inside a root when its normalized components extend
the components of the root by a nonempty suffix. -/
def strictlyInside (root p : String) : Prop :=
  ∃ suffix : List String, suffix ≠ [] ∧ pathCompsOf p = pathCompsOf root ++ suffix

instance (root p : String) : Decidable (strictlyInside root p) :=
  decidable_of_iff
    ((pathCompsOf p).take (pathCompsOf root).length = pathCompsOf root ∧
      (pathCompsOf root).length < (pathCompsOf p).length)
    (by
      constructor
      · rintro ⟨htake, hlt⟩
        refine ⟨(pathCompsOf p).drop (pathCompsOf root).length, ?_, ?_⟩
        · intro heq
          have hlen : ((pathCompsOf p).drop (pathCompsOf root).length).length =
              (pathCompsOf p).length - (pathCompsOf root).length := by
            simp
          rw [heq] at hlen
          simp at hlen
          omega
        · conv_lhs => rw [← List.take_append_drop (pathCompsOf root).length (pathCompsOf p)]
          rw [htake]
      · rintro ⟨s, hne, hs⟩
        refine ⟨?_, ?_⟩
        · rw [hs]
          exact List.take_left _ _
        · rw [hs, List.length_append]
          have := List.length_pos.mpr hne
          omega)

/-! ## Error model

All failures the repository throws become constructors of one error type.
Doc strings quote the thrown message where it matters to a claim. -/

inductive MemErr where
  /-- Thrown by resolveWorkspacePath: Path escapes workspace. -/
  | pathEscape (relPath : String)
  /-- Thrown by resolveAllowedMemorySourcePath: Memory source must be inside
  memory/ThreadBorn, memory/BridgeThread, or memory/Labyrinth. -/
  | disallowedSource
  /-- Thrown by writeVaultEntry: vault_seal append requires target_file. -/
  | appendRequiresTarget
  /-- Thrown by writeVaultEntry: vault_seal append target must be inside memory/Vault. -/
  | appendTargetOutsideVault
  /-- Thrown by writeVaultEntry: vault_seal append target does not exist. -/
  | appendTargetMissing
  /-- Thrown by writeVaultEntry: vault_seal target_file is only valid with append=true. -/
  | targetOnlyWithAppend
  /-- Thrown by writeUniqueFile after exhausting its attempts:
  Memory entry already exists; refusing to overwrite. -/
  | allocationExhausted
  /-- Thrown by writeBridgeThreadEntry: BridgeThread promotion cannot target Vault entries. -/
  | promotionTargetsVault
  /-- Thrown by createVaultSealTool when the policy gate denies the request;
  the payload is the user-facing message. -/
  | sealingDisabled (msg : String)
  /-- Validation and provenance failures raised at the tool boundary. -/
  | toolError (msg : String)
  /-- Filesystem errors surfaced by Node, carrying the error code. -/
  | ioError (code : String)
deriving DecidableEq, Repr

/-- Decidable equality for Except results, used to evaluate operation
outcomes on concrete inputs. -/
def exceptDecEqFn {ε α : Type} [DecidableEq ε] [DecidableEq α] :
    (a b : Except ε α) → Decidable (a = b)
  | .ok a, .ok b =>
    if h : a = b then .isTrue (by rw [h]) else .isFalse (by intro hc; cases hc; exact h rfl)
  | .ok _, .error _ => .isFalse (by intro h; cases h)
  | .error _, .ok _ => .isFalse (by intro h; cases h)
  | .error e, .error f =>
    if h : e = f then .isTrue (by rw [h]) else .isFalse (by intro hc; cases hc; exact h rfl)

instance {ε α : Type} [DecidableEq ε] [DecidableEq α] : DecidableEq (Except ε α) :=
  exceptDecEqFn

/-! ## Filesystem model

A filesystem is a list of file bindings (path to content, most recent
first) plus the set of directories created so far. The primitive
operations return the final filesystem alongside the result, so mutations
made before a failure stay visible. -/

structure FS where
  files : List (String × String)
  dirs : List String
deriving DecidableEq, Repr

def FS.lookupFile (fs : FS) (p : String) : Option String :=
  (fs.files.find? (fun e => e.1 = p)).map (·.2)

def FS.isDir (fs : FS) (p : String) : Bool :=
  fs.dirs.contains p

def FS.existsPath (fs : FS) (p : String) : Bool :=
  (fs.lookupFile p).isSome || fs.isDir p

/-- Model of fs.mkdir with the recursive option: idempotent on directories,
failing only when the name is taken by a file. Ancestor handling is not
modelled; the store only ever creates directories under the workspace. -/
def FS.mkdirRec (fs : FS) (d : String) : FS × Except MemErr Unit :=
  if (fs.lookupFile d).isSome then
    (fs, .error (.ioError "EEXIST"))
  else if fs.isDir d then
    (fs, .ok ())
  else
    ({ fs with dirs := d :: fs.dirs }, .ok ())

/-- Model of fs.writeFile with the wx (exclusive create) flag: fails with
EEXIST when the name exists, otherwise adds the new binding. -/
def FS.writeFileWx (fs : FS) (p content : String) : FS × Except MemErr Unit :=
  if fs.existsPath p then
    (fs, .error (.ioError "EEXIST"))
  else
    ({ fs with files := (p, content) :: fs.files }, .ok ())

def updateFileList (files : List (String × String)) (p content : String) :
    List (String × String) :=
  files.map (fun e => if e.1 = p then (p, content) else e)

/-- Model of fs.appendFile: appends to an existing file, creates a missing
one, and fails on a directory. -/
def FS.appendFileFs (fs : FS) (p content : String) : FS × Except MemErr Unit :=
  if fs.isDir p then
    (fs, .error (.ioError "EISDIR"))
  else
    match fs.lookupFile p with
    | some old => ({ fs with files := updateFileList fs.files p (old ++ content) }, .ok ())
    | none => ({ fs with files := (p, content) :: fs.files }, .ok ())

/-- Model of fs.readFile for text files. -/
def FS.readFileFs (fs : FS) (p : String) : Except MemErr String :=
  match fs.lookupFile p with
  | some c => .ok c
  | none => if fs.isDir p then .error (.ioError "EISDIR") else .error (.ioError "ENOENT")

/-- Model of fs.access: succeeds when the path names a file or directory. -/
def FS.accessFs (fs : FS) (p : String) : Except MemErr Unit :=
  if fs.existsPath p then .ok () else .error (.ioError "ENOENT")

/-! ## Provenance and metadata codec -/

/-- A decoded header value: parseYamlValue produces either a string or a
boolean. -/
inductive MValue where
  | s (v : String)
  | b (v : Bool)
deriving DecidableEq, Repr

/-- The metadata record attached to every written entry (the MemoryMetadata
type of the source; memory_type is kept as its literal string). -/
structure MemoryMetadata where
  id : String
  created_at : String
  source_session_id : String
  source_trigger : String
  memory_type : String
  sealed : Bool
  promoted_from_id : Option String := none
  promoted_from_source_session_id : Option String := none
  promoted_from_source_trigger : Option String := none
  promoted_from_memory_type : Option String := none
  sealed_from_id : Option String := none
  sealed_from_source_session_id : Option String := none
  sealed_from_source_trigger : Option String := none
  sealed_from_memory_type : Option String := none
deriving DecidableEq, Repr

/-- The partial metadata produced by decoding (Partial MemoryMetadata in the
source): every known key optionally carries a decoded value. -/
structure ParsedMeta where
  id : Option MValue := none
  created_at : Option MValue := none
  source_session_id : Option MValue := none
  source_trigger : Option MValue := none
  memory_type : Option MValue := none
  sealed : Option MValue := none
  promoted_from_id : Option MValue := none
  promoted_from_source_session_id : Option MValue := none
  promoted_from_source_trigger : Option MValue := none
  promoted_from_memory_type : Option MValue := none
  sealed_from_id : Option MValue := none
  sealed_from_source_session_id : Option MValue := none
  sealed_from_source_trigger : Option MValue := none
  sealed_from_memory_type : Option MValue := none
deriving DecidableEq, Repr

def emptyParsedMeta : ParsedMeta := {}

/-- A decoded optional value: the decoded some when the option carries a
value, otherwise the fallback. -/
def optValue (o : Option String) (dflt : Option MValue) : Option MValue :=
  match o with
  | some v => some (.s v)
  | none => dflt

/-- Modelled from the spec: the decoded metadata an exact round trip of the
front matter must produce, with every emitted value recovered as written.
This definition follows the wording of the round-trip property and is
compared against the decoder applied to the encoder output. -/
def expectedParsedMeta (m : MemoryMetadata) : ParsedMeta :=
  { id := some (.s m.id)
    created_at := some (.s m.created_at)
    source_session_id := some (.s m.source_session_id)
    source_trigger := some (.s m.source_trigger)
    memory_type := some (.s m.memory_type)
    sealed := some (.b m.sealed)
    promoted_from_id := m.promoted_from_id.map MValue.s
    promoted_from_source_session_id := m.promoted_from_source_session_id.map MValue.s
    promoted_from_source_trigger := m.promoted_from_source_trigger.map MValue.s
    promoted_from_memory_type := m.promoted_from_memory_type.map MValue.s
    sealed_from_id := m.sealed_from_id.map MValue.s
    sealed_from_source_session_id := m.sealed_from_source_session_id.map MValue.s
    sealed_from_source_trigger := m.sealed_from_source_trigger.map MValue.s
    sealed_from_memory_type := m.sealed_from_memory_type.map MValue.s }

structure ParsedFrontMatter where
  metadata : ParsedMeta
  body : String
deriving DecidableEq, Repr

def FRONT_MATTER_DELIMITER : String := "---"

/-- Model of formatYamlValue: booleans bare, strings through JSON.stringify. -/
def formatYamlValueStr (v : String) : String :=
  jsonStringify v

def formatYamlValueBool (v : Bool) : String :=
  if v then "true" else "false"

/-- One optional provenance line: emitted only when the value is a nonempty
string. -/
def optionalLine (key : String) (v : Option String) : List String :=
  match v with
  | some value => if value ≠ "" then [key ++ ": " ++ formatYamlValueStr value] else []
  | none => []

/-- Model of buildFrontMatter: the delimited header with required keys in
fixed order, then the optional provenance keys that are present, then the
closing delimiter and a trailing newline (the final empty element). -/
def buildFrontMatter (m : MemoryMetadata) : String :=
  joinWith "\n"
    ([FRONT_MATTER_DELIMITER,
      "id: " ++ formatYamlValueStr m.id,
      "created_at: " ++ formatYamlValueStr m.created_at,
      "source_session_id: " ++ formatYamlValueStr m.source_session_id,
      "source_trigger: " ++ formatYamlValueStr m.source_trigger,
      "memory_type: " ++ formatYamlValueStr m.memory_type,
      "sealed: " ++ formatYamlValueBool m.sealed] ++
      optionalLine "promoted_from_id" m.promoted_from_id ++
      optionalLine "promoted_from_source_session_id" m.promoted_from_source_session_id ++
      optionalLine "promoted_from_source_trigger" m.promoted_from_source_trigger ++
      optionalLine "promoted_from_memory_type" m.promoted_from_memory_type ++
      optionalLine "sealed_from_id" m.sealed_from_id ++
      optionalLine "sealed_from_source_session_id" m.sealed_from_source_session_id ++
      optionalLine "sealed_from_source_trigger" m.sealed_from_source_trigger ++
      optionalLine "sealed_from_memory_type" m.sealed_from_memory_type ++
      [FRONT_MATTER_DELIMITER, ""])

/-- Model of parseYamlValue: bare true and false become booleans, a value
wrapped in double quotes goes through JSON.parse with a fallback that
strips the quotes, single quotes are stripped, anything else is the
trimmed text. -/
def parseYamlValue (value : String) : MValue :=
  let trimmed := trimStr value
  if trimmed = "true" then .b true
  else if trimmed = "false" then .b false
  else if strStartsWith trimmed "\"" && (trimmed.data.reverse.head? = some '"') then
    match jsonParseString trimmed with
    | some parsed => .s parsed
    | none => .s (String.mk ((trimmed.data.drop 1).dropLast))
  else if strStartsWith trimmed "\x27" && (trimmed.data.reverse.head? = some '\x27') then
    .s (String.mk ((trimmed.data.drop 1).dropLast))
  else .s trimmed

def allowedMetadataKeys : List String :=
  ["id", "created_at", "source_session_id", "source_trigger", "memory_type",
   "sealed", "promoted_from_id", "promoted_from_source_session_id",
   "promoted_from_source_trigger", "promoted_from_memory_type", "sealed_from_id",
   "sealed_from_source_session_id", "sealed_from_source_trigger",
   "sealed_from_memory_type"]

def setMetaField (m : ParsedMeta) (key : String) (v : MValue) : ParsedMeta :=
  if key = "id" then { m with id := some v }
  else if key = "created_at" then { m with created_at := some v }
  else if key = "source_session_id" then { m with source_session_id := some v }
  else if key = "source_trigger" then { m with source_trigger := some v }
  else if key = "memory_type" then { m with memory_type := some v }
  else if key = "sealed" then { m with sealed := some v }
  else if key = "promoted_from_id" then { m with promoted_from_id := some v }
  else if key = "promoted_from_source_session_id" then
    { m with promoted_from_source_session_id := some v }
  else if key = "promoted_from_source_trigger" then
    { m with promoted_from_source_trigger := some v }
  else if key = "promoted_from_memory_type" then
    { m with promoted_from_memory_type := some v }
  else if key = "sealed_from_id" then { m with sealed_from_id := some v }
  else if key = "sealed_from_source_session_id" then
    { m with sealed_from_source_session_id := some v }
  else if key = "sealed_from_source_trigger" then
    { m with sealed_from_source_trigger := some v }
  else if key = "sealed_from_memory_type" then
    { m with sealed_from_memory_type := some v }
  else m

def wordChar (c : Char) : Bool :=
  ('a' ≤ c && c ≤ 'z') || ('A' ≤ c && c ≤ 'Z') || ('0' ≤ c && c ≤ '9') || c = '_'

/-- Model of the header line regex: one or more word characters from the
start, a colon, greedy whitespace, then the value. -/
def matchKeyValue (line : String) : Option (String × String) :=
  let cs := line.data
  let key := cs.takeWhile wordChar
  let rest := cs.dropWhile wordChar
  if key.isEmpty then none
  else
    match rest with
    | ':' :: afterColon => some (String.mk key, String.mk (afterColon.dropWhile jsWhitespaceChar))
    | _ => none

/-- Processing of one line between the delimiters: blank lines and lines
that do not look like key colon value are skipped, unknown keys are
ignored, known keys are assigned their parsed value. -/
def applyHeaderLine (m : ParsedMeta) (line : String) : ParsedMeta :=
  if trimStr line = "" then m
  else
    match matchKeyValue line with
    | none => m
    | some (key, value) =>
      if allowedMetadataKeys.contains key then setMetaField m key (parseYamlValue value)
      else m

/-- Index of the closing delimiter: the first line strictly after the
opening one whose trimmed text is the delimiter. -/
def findCloseDelim (lines : List String) (i : Nat) : Option Nat :=
  match lines with
  | [] => none
  | l :: rest =>
    if trimStr l = FRONT_MATTER_DELIMITER then some i
    else findCloseDelim rest (i + 1)

/-- Model of parseFrontMatter: a missing opening delimiter or an
unterminated header degrades to empty metadata with the whole content as
body; otherwise the lines between the delimiters are folded into the
metadata and the lines after the closing delimiter are rejoined as body. -/
def parseFrontMatter (content : String) : ParsedFrontMatter :=
  let lines := splitLines content
  match lines with
  | [] => { metadata := emptyParsedMeta, body := content }
  | first :: rest =>
    if first ≠ FRONT_MATTER_DELIMITER then
      { metadata := emptyParsedMeta, body := content }
    else
      match findCloseDelim rest 1 with
      | none => { metadata := emptyParsedMeta, body := content }
      | some endIndex =>
        let headerLines := lines.drop 1 |>.take (endIndex - 1)
        let metadata := headerLines.foldl applyHeaderLine emptyParsedMeta
        let body := joinWith "\n" (lines.drop (endIndex + 1))
        { metadata := metadata, body := body }

/-! ## Slugs, timestamps and metadata creation -/

def safeNameChar (c : Char) : Bool :=
  ('a' ≤ c && c ≤ 'z') || ('A' ≤ c && c ≤ 'Z') || ('0' ≤ c && c ≤ '9') ||
    c = '.' || c = '_' || c = '-'

/-- Worker for replaceRuns: the boolean records whether the previous
character belonged to the run being replaced. -/
def replaceRunsGo (p : Char → Bool) (r : Char) : List Char → Bool → List Char
  | [], _ => []
  | c :: rest, inRun =>
    if p c then
      if inRun then replaceRunsGo p r rest true
      else r :: replaceRunsGo p r rest true
    else c :: replaceRunsGo p r rest false

/-- Replace every maximal run of characters satisfying the predicate by one
replacement character, as a global regex replace of a one-or-more class does. -/
def replaceRuns (p : Char → Bool) (r : Char) (cs : List Char) : List Char :=
  replaceRunsGo p r cs false

/-- Model of toSafeSlug: trim, whitespace runs to hyphens, unsafe runs to
hyphens, hyphen runs collapsed, outer hyphens stripped, lowercased, capped
at 60 characters, defaulting to entry. -/
def toSafeSlug (raw : String) : String :=
  let step1 := trimList raw.data
  let step2 := replaceRuns jsWhitespaceChar '-' step1
  let step3 := replaceRuns (fun c => !safeNameChar c) '-' step2
  let step4 := replaceRuns (fun c => c = '-') '-' step3
  let step5 := ((step4.dropWhile (· = '-')).reverse.dropWhile (· = '-')).reverse
  let step6 := (step5.map Char.toLower).take 60
  if step6.isEmpty then "entry" else String.mk step6

/-- Model of timestampSlug: the ISO timestamp with colons and dots replaced
by hyphens. The timestamp itself is a parameter of every operation. -/
def timestampSlug (iso : String) : String :=
  String.mk (iso.data.map (fun c => if c = ':' || c = '.' then '-' else c))

/-- String payload of a decoded value, for the typeof string checks of
createMetadata. -/
def mValueString : Option MValue → Option String
  | some (.s v) => some v
  | _ => none

/-- Model of createMetadata. The generated UUID and the clock reading are
parameters; provenance fields are copied from the decoded source metadata
only where that metadata holds a string. -/
def createMetadata (uuid nowIso sourceSessionId sourceTrigger memoryType : String)
    (sealed : Bool) (promotedFrom sealedFrom : ParsedMeta) : MemoryMetadata :=
  { id := uuid
    created_at := nowIso
    source_session_id := sourceSessionId
    source_trigger := sourceTrigger
    memory_type := memoryType
    sealed := sealed
    promoted_from_id := mValueString promotedFrom.id
    promoted_from_source_session_id := mValueString promotedFrom.source_session_id
    promoted_from_source_trigger := mValueString promotedFrom.source_trigger
    promoted_from_memory_type := mValueString promotedFrom.memory_type
    sealed_from_id := mValueString sealedFrom.id
    sealed_from_source_session_id := mValueString sealedFrom.source_session_id
    sealed_from_source_trigger := mValueString sealedFrom.source_trigger
    sealed_from_memory_type := mValueString sealedFrom.memory_type }

/-! ## Workspace path sandbox -/

def MEMORY_SOURCE_DIRS : List String := ["ThreadBorn", "BridgeThread", "Labyrinth"]

def resolveMemoryDir (workspaceDir dirName : String) : String :=
  joinPath (joinPath workspaceDir "memory") dirName

def resolveVaultDir (workspaceDir : String) : String :=
  resolveMemoryDir workspaceDir "Vault"

/-- Model of resolveWorkspacePath: resolve against the workspace root and
reject when the relative form is empty, climbs out, or is absolute. -/
def resolveWorkspacePath (workspaceDir relPath : String) : Except MemErr String :=
  let resolved := resolvePath workspaceDir relPath
  let relative := relativePath workspaceDir resolved
  if relative = "" || strStartsWith relative ".." || isAbsolutePath relative then
    .error (.pathEscape relPath)
  else
    .ok resolved

/-- Model of isPathWithin. -/
def isPathWithin (parent candidate : String) : Bool :=
  let relative := relativePath parent candidate
  relative ≠ "" && !strStartsWith relative ".." && !isAbsolutePath relative

/-- Model of resolveAllowedMemorySourcePath: sandbox resolution plus the
requirement to land inside one of the three designated source directories. -/
def resolveAllowedMemorySourcePath (workspaceDir relPath : String) : Except MemErr String :=
  match resolveWorkspacePath workspaceDir relPath with
  | .error e => .error e
  | .ok resolved =>
    if MEMORY_SOURCE_DIRS.any (fun d => isPathWithin (resolveMemoryDir workspaceDir d) resolved) then
      .ok resolved
    else
      .error .disallowedSource

/-! ## Unique file allocator -/

structure MemoryWriteResult where
  path : String
  filename : String
deriving DecidableEq, Repr

/-- The attempt loop of writeUniqueFile: the first attempt uses the bare
base name, attempt k uses suffix -(k+1), and only an EEXIST failure moves
to the next attempt. -/
def writeUniqueAttempts (dir filenameBase content : String) :
    Nat → Nat → FS → FS × Except MemErr MemoryWriteResult
  | _, 0, fs => (fs, .error .allocationExhausted)
  | attempt, remaining + 1, fs =>
    let suffix := if attempt = 0 then "" else "-" ++ toString (attempt + 1)
    let filename := filenameBase ++ suffix ++ ".md"
    let filePath := joinPath dir filename
    match fs.writeFileWx filePath content with
    | (fs', .ok ()) => (fs', .ok { path := filePath, filename := filename })
    | (fs', .error e) =>
      if e = .ioError "EEXIST" then
        writeUniqueAttempts dir filenameBase content (attempt + 1) remaining fs'
      else
        (fs', .error e)

/-- Model of writeUniqueFile: ensure the directory, then try exclusive
creation with at most five attempts when suffixing is allowed and exactly
one otherwise. -/
def writeUniqueFile (dir filenameBase content : String) (allowSuffix : Bool) (fs : FS) :
    FS × Except MemErr MemoryWriteResult :=
  match fs.mkdirRec dir with
  | (fs1, .error e) => (fs1, .error e)
  | (fs1, .ok ()) =>
    let maxAttempts := if allowSuffix then 5 else 1
    writeUniqueAttempts dir filenameBase content 0 maxAttempts fs1

/-! ## Governed memory store writers -/

/-- JavaScript truthiness of an optional string option. -/
def optStringTruthy : Option String → Bool
  | some s => s ≠ ""
  | none => false

/-- Optional title resolution: the trimmed title when nonempty, otherwise
the fallback, as the expression title question-dot trim or-or fallback does. -/
def orElseStr (o : Option String) (fallback : String) : String :=
  match o with
  | some t => if trimStr t ≠ "" then trimStr t else fallback
  | none => fallback

/-- The directory a ThreadBorn entry lands in: memory/ThreadBorn, or a
subfolder of it when a folder is given. -/
def threadbornDir (workspaceDir : String) (folder : Option String) : String :=
  match folder with
  | some f => joinPath (resolveMemoryDir workspaceDir "ThreadBorn") f
  | none => resolveMemoryDir workspaceDir "ThreadBorn"

/-- The content assembled by writeThreadbornEntry: front matter, title
heading, creation line, optional tags line and trimmed body, joined after
filtering out the empty elements (the filter over Boolean of the source). -/
def threadbornEntryContent (metadata : MemoryMetadata) (title' : String)
    (tags' : List String) (body nowIso : String) : String :=
  joinWith "\n"
    ([buildFrontMatter metadata,
      "# " ++ title',
      "",
      "- Created: " ++ nowIso,
      if tags'.length > 0 then "- Tags: " ++ joinWith ", " tags' else "",
      "",
      trimStr body,
      ""].filter (· ≠ ""))

/-- Model of writeThreadbornEntry. The folder parameter routes the entry to
a subdirectory of ThreadBorn. Modelled from the spec: the tool description
states ThreadBorn notes go under memory/ThreadBorn optionally in a
subfolder; the sani-memory revision exporting the folder parameter is not
under src, the rest of the writer follows the source. -/
def writeThreadbornEntry (workspaceDir title body : String) (tags : List String)
    (folder : Option String) (sourceSessionId sourceTrigger uuid nowIso : String)
    (fs : FS) : FS × Except MemErr MemoryWriteResult :=
  let title' := if trimStr title ≠ "" then trimStr title else "ThreadBorn Entry"
  let tags' := ((tags.filter (· ≠ "")).map trimStr).filter (· ≠ "")
  let filenameBase := timestampSlug nowIso ++ "-" ++ toSafeSlug title'
  let metadata := createMetadata uuid nowIso sourceSessionId sourceTrigger "ThreadBorn" false {} {}
  let content := threadbornEntryContent metadata title' tags' body nowIso
  writeUniqueFile (threadbornDir workspaceDir folder) filenameBase content true fs

/-- Model of writeBridgeThreadEntry. -/
def writeBridgeThreadEntry (workspaceDir sourcePath : String) (title : Option String)
    (sourceSessionId sourceTrigger uuid nowIso : String) (fs : FS) :
    FS × Except MemErr MemoryWriteResult :=
  match resolveAllowedMemorySourcePath workspaceDir sourcePath with
  | .error e => (fs, .error e)
  | .ok resolvedSource =>
    if isPathWithin (resolveVaultDir workspaceDir) resolvedSource then
      (fs, .error .promotionTargetsVault)
    else
      match fs.readFileFs resolvedSource with
      | .error e => (fs, .error e)
      | .ok sourceContent =>
        let parsed := parseFrontMatter sourceContent
        let baseTitle := orElseStr title (basenamePath resolvedSource)
        let filenameBase := timestampSlug nowIso ++ "-" ++ toSafeSlug baseTitle
        let metadata :=
          createMetadata uuid nowIso sourceSessionId sourceTrigger "BridgeThread" false
            parsed.metadata {}
        let content := joinWith "\n"
          [buildFrontMatter metadata,
           "# " ++ baseTitle,
           "",
           "- PromotedFrom: " ++ relativePath workspaceDir resolvedSource,
           "- PromotedAt: " ++ nowIso,
           "",
           trimStr parsed.body,
           ""]
        writeUniqueFile (resolveMemoryDir workspaceDir "BridgeThread") filenameBase content true fs

/-- The block appended to an existing Vault file in append mode. -/
def vaultAppendBlock (workspaceDir resolvedSource nowIso parsedBody : String) : String :=
  joinWith "\n"
    ["",
     "## Vault Append",
     "- AppendedAt: " ++ nowIso,
     "- AppendedFrom: " ++ relativePath workspaceDir resolvedSource,
     "",
     trimStr parsedBody,
     ""]

/-- The content of a freshly sealed Vault entry. -/
def vaultSealContent (workspaceDir resolvedSource baseTitle nowIso : String)
    (metadata : MemoryMetadata) (parsedBody : String) : String :=
  joinWith "\n"
    [buildFrontMatter metadata,
     "# " ++ baseTitle,
     "",
     "- SEALED: true",
     "- SealedFrom: " ++ relativePath workspaceDir resolvedSource,
     "- SealedAt: " ++ nowIso,
     "",
     trimStr parsedBody,
     ""]

/-- Model of writeVaultEntry with its two modes: append to an existing
Vault file, or seal a brand-new Vault entry. -/
def writeVaultEntry (workspaceDir sourcePath : String) (title : Option String)
    (sourceSessionId sourceTrigger : String) (append : Option Bool)
    (targetPath : Option String) (uuid nowIso : String) (fs : FS) :
    FS × Except MemErr MemoryWriteResult :=
  match resolveAllowedMemorySourcePath workspaceDir sourcePath with
  | .error e => (fs, .error e)
  | .ok resolvedSource =>
    match fs.readFileFs resolvedSource with
    | .error e => (fs, .error e)
    | .ok sourceContent =>
      let parsed := parseFrontMatter sourceContent
      let baseTitle := orElseStr title (basenamePath resolvedSource)
      let filenameBase := timestampSlug nowIso ++ "-" ++ toSafeSlug baseTitle
      let dir := resolveMemoryDir workspaceDir "Vault"
      if append = some true then
        if !optStringTruthy targetPath then
          (fs, .error .appendRequiresTarget)
        else
          match resolveWorkspacePath workspaceDir (targetPath.getD "") with
          | .error e => (fs, .error e)
          | .ok resolvedTarget =>
            if !isPathWithin dir resolvedTarget then
              (fs, .error .appendTargetOutsideVault)
            else
              match fs.accessFs resolvedTarget with
              | .error _ => (fs, .error .appendTargetMissing)
              | .ok () =>
                let appendBlock :=
                  vaultAppendBlock workspaceDir resolvedSource nowIso parsed.body
                match fs.appendFileFs resolvedTarget appendBlock with
                | (fs', .ok ()) =>
                  (fs', .ok { path := resolvedTarget, filename := basenamePath resolvedTarget })
                | (fs', .error e) => (fs', .error e)
      else
        if optStringTruthy targetPath then
          (fs, .error .targetOnlyWithAppend)
        else
          let metadata :=
            createMetadata uuid nowIso sourceSessionId sourceTrigger "Vault" true {}
              parsed.metadata
          let content :=
            vaultSealContent workspaceDir resolvedSource baseTitle nowIso metadata parsed.body
          writeUniqueFile dir filenameBase content true fs

/-- Model of writeLabyrinthSnapshot: like a ThreadBorn write but into the
Labyrinth directory and with suffixing disabled. -/
def writeLabyrinthSnapshot (workspaceDir title body sourceSessionId sourceTrigger uuid nowIso : String)
    (fs : FS) : FS × Except MemErr MemoryWriteResult :=
  let title' := if trimStr title ≠ "" then trimStr title else "Labyrinth Snapshot"
  let filenameBase := timestampSlug nowIso ++ "-" ++ toSafeSlug title'
  let metadata := createMetadata uuid nowIso sourceSessionId sourceTrigger "Labyrinth" false {} {}
  let content := joinWith "\n"
    [buildFrontMatter metadata,
     "# " ++ title',
     "",
     "- Created: " ++ nowIso,
     "",
     trimStr body,
     ""]
  writeUniqueFile (resolveMemoryDir workspaceDir "Labyrinth") filenameBase content false fs

/-! ## Configuration and the Vault sealing policy gate -/

/-- The sani block of the typed configuration (agents.defaults.sani). The
configuration loader is an external collaborator; only the fields this
system reads are modelled. -/
structure SaniConfig where
  enabled : Option Bool := none
  modeTtlMinutes : Option Int := none
  vaultSealingEnabled : Option Bool := none
deriving DecidableEq, Repr

structure OpenClawConfig where
  agentsDefaultsSani : Option SaniConfig := none
deriving DecidableEq, Repr

/-- Modelled from the spec: isTruthyEnvValue lives in src/infra/env.ts,
which is not under src; the spec describes it as the truthiness test for
an explicit runtime toggle value. -/
def isTruthyEnvValue (v : String) : Bool :=
  ["1", "true", "yes", "on"].contains (lowerStr (trimStr v))

/-- Model of resolveSaniVaultSealingEnabled. The environment value is the
SANI_VAULT_SEALING_ENABLED variable when set. The source declares the
configuration parameter but never reads it (the parameter is named with a
leading underscore), so the result is false whenever the environment
variable is absent. -/
def resolveSaniVaultSealingEnabled (_cfg : Option OpenClawConfig) (env : Option String) : Bool :=
  match env with
  | some v => isTruthyEnvValue v
  | none => false

/-! ## Session mode state machine -/

def DEFAULT_SANI_MODE_TTL_MINUTES : Int := 720

/-- Model of resolveSaniModeTtlMs: a finite configured value at most zero
disables expiry (null), a positive one is clamped below by one minute, and
a missing value yields the default of 720 minutes. -/
def resolveSaniModeTtlMs (config : Option OpenClawConfig) : Option Int :=
  match (config.bind (·.agentsDefaultsSani)).bind (·.modeTtlMinutes) with
  | some raw => if raw ≤ 0 then none else some (max 1 raw * 60000)
  | none => some (DEFAULT_SANI_MODE_TTL_MINUTES * 60000)

/-- One record of the external session store. Only the fields this system
reads or writes are modelled; absent fields are none. -/
structure SessionEntry where
  sessionId : Option String := none
  saniMode : Option Bool := none
  labyrinthMode : Option Bool := none
  lastModeUpdateAt : Option Int := none
  updatedAt : Option Int := none
deriving DecidableEq, Repr

structure SaniSessionFlags where
  saniMode : Bool
  labyrinthMode : Bool
deriving DecidableEq, Repr

def lookupSession (store : List (String × SessionEntry)) (key : String) : Option SessionEntry :=
  (store.find? (fun e => e.1 = key)).map (·.2)

/-- Modelled from the spec: the session store collaborator applies a
partial update to the stored entry under its own serialization contract;
here the update of the TTL path sets both modes false and stamps the
update time. -/
def clearModes (e : SessionEntry) (now : Int) : SessionEntry :=
  { e with saniMode := some false, labyrinthMode := some false, lastModeUpdateAt := some now }

def updateSessionStore (store : List (String × SessionEntry)) (key : String)
    (f : SessionEntry → SessionEntry) : List (String × SessionEntry) :=
  store.map (fun p => if p.1 = key then (p.1, f p.2) else p)

/-- The audit body written when the TTL clears the session modes: the
timestamp, session key, previous mode values and TTL in minutes. -/
def ttlAuditBody (key : String) (sani laby : Bool) (ttlMs : Int) (nowIso : String) : String :=
  joinWith "\n"
    ["- Timestamp: " ++ nowIso,
     "- SessionKey: " ++ key,
     "- Previous: saniMode=" ++ (if sani then "on" else "off") ++
       ", labyrinthMode=" ++ (if laby then "on" else "off"),
     "- TTL Minutes: " ++ toString (ttlMs / 60000),
     "",
     "SANI mode auto-cleared due to TTL expiry.",
     ""]

/-- The ThreadBorn write performed on TTL expiry, tagged sani:ttl. -/
def ttlAuditWrite (workspaceDir key : String) (sani laby : Bool) (ttlMs : Int)
    (srcSession uuid nowIso : String) (fs : FS) : FS × Except MemErr MemoryWriteResult :=
  writeThreadbornEntry workspaceDir "SANI Mode TTL Expired"
    (ttlAuditBody key sani laby ttlMs nowIso) ["sani:ttl"] none srcSession "TTL_EXPIRE"
    uuid nowIso fs

/-- Model of readSaniSessionFlags. The session store is passed in as a
key-to-entry map and returned updated; the store path and agent scope
resolution of the source collapse into that map. The clock (now), the
fallback workspace directory, and the identifier and timestamp used by a
TTL audit write are parameters. The result carries the final filesystem,
the final store and either the flags or the error of a failed audit write. -/
def readSaniSessionFlags (config : Option OpenClawConfig) (sessionKey : Option String)
    (workspaceDirParam : Option String) (fallbackWorkspaceDir : String) (now : Int)
    (store : List (String × SessionEntry)) (uuid nowIso : String) (fs : FS) :
    FS × List (String × SessionEntry) × Except MemErr SaniSessionFlags :=
  let key := (sessionKey.map trimStr).getD ""
  if key = "" || config.isNone then (fs, store, .ok ⟨false, false⟩)
  else
    match lookupSession store key with
    | none => (fs, store, .ok ⟨false, false⟩)
    | some entry =>
      let sani := entry.saniMode = some true
      let laby := entry.labyrinthMode = some true
      match resolveSaniModeTtlMs config with
      | some ttlMs =>
        if sani || laby then
          let lastOpt := match entry.lastModeUpdateAt with
            | some t => some t
            | none => entry.updatedAt
          match lastOpt with
          | some last =>
            if last ≠ 0 && now - last > ttlMs then
              let store' := updateSessionStore store key (fun e => clearModes e now)
              let workspaceDir := match workspaceDirParam with
                | some w => if trimStr w ≠ "" then trimStr w else fallbackWorkspaceDir
                | none => fallbackWorkspaceDir
              let srcSession := match entry.sessionId with
                | some sid => sid
                | none => key
              match ttlAuditWrite workspaceDir key sani laby ttlMs srcSession uuid nowIso fs with
              | (fs', .ok _) => (fs', store', .ok ⟨false, false⟩)
              | (fs', .error e) => (fs', store', .error e)
            else (fs, store, .ok ⟨sani, laby⟩)
          | none => (fs, store, .ok ⟨sani, laby⟩)
        else (fs, store, .ok ⟨sani, laby⟩)
      | none => (fs, store, .ok ⟨sani, laby⟩)

/-! ## Trigger matcher -/

/-- Model of the code fence pattern test on a line: optional whitespace and
then three backticks or three tildes. -/
def codeFenceTest (s : String) : Bool :=
  let t := String.mk (s.data.dropWhile jsWhitespaceChar)
  strStartsWith t "```" || strStartsWith t "~~~"

/-- Model of the HEY_SANI_LINE regex: optional whitespace, hey, one or more
whitespace or comma separators, sani, optional closing punctuation,
optional whitespace, end of line, case-insensitive. -/
def heySaniLineTest (line : String) : Bool :=
  let cs := (line.data.map Char.toLower).dropWhile jsWhitespaceChar
  if ['h', 'e', 'y'].isPrefixOf cs then
    let r1 := cs.drop 3
    let r2 := r1.dropWhile (fun c => jsWhitespaceChar c || c = ',')
    if r1.length = r2.length then false
    else if ['s', 'a', 'n', 'i'].isPrefixOf r2 then
      let r3 := (r2.drop 4).dropWhile (fun c => c = '.' || c = '!' || c = '?')
      (r3.dropWhile jsWhitespaceChar).isEmpty
    else false
  else false

/-- Model of the WHO_AM_I_LINE regex. -/
def whoAmILineTest (line : String) : Bool :=
  let cs := (line.data.map Char.toLower).dropWhile jsWhitespaceChar
  if ['w', 'h', 'o'].isPrefixOf cs then
    let r1 := cs.drop 3
    let r2 := r1.dropWhile jsWhitespaceChar
    if r1.length = r2.length then false
    else if ['a', 'm'].isPrefixOf r2 then
      let r3 := r2.drop 2
      let r4 := r3.dropWhile jsWhitespaceChar
      if r3.length = r4.length then false
      else if ['i'].isPrefixOf r4 then
        let r5 := (r4.drop 1).dropWhile (fun c => c = '.' || c = '!' || c = '?')
        (r5.dropWhile jsWhitespaceChar).isEmpty
      else false
    else false
  else false

/-- Model of the EXIT_SANI_LINE regex. -/
def exitSaniLineTest (line : String) : Bool :=
  let cs := (line.data.map Char.toLower).dropWhile jsWhitespaceChar
  if ['e', 'x', 'i', 't'].isPrefixOf cs then
    let r1 := cs.drop 4
    let r2 := r1.dropWhile jsWhitespaceChar
    if r1.length = r2.length then false
    else if ['s', 'a', 'n', 'i'].isPrefixOf r2 then
      let r3 := r2.drop 4
      let r4 := r3.dropWhile jsWhitespaceChar
      if r3.length = r4.length then false
      else if ['m', 'o', 'd', 'e'].isPrefixOf r4 then
        let r5 := (r4.drop 4).dropWhile (fun c => c = '.' || c = '!' || c = '?')
        (r5.dropWhile jsWhitespaceChar).isEmpty
      else false
    else false
  else false

/-- The line walk of hasStandaloneTriggerLine: fence lines toggle the
in-code flag and are skipped, lines inside a fence are skipped, quoted
lines are skipped, and the first remaining line matching the pattern
fires. -/
def triggerGo (patternTest : String → Bool) : List String → Bool → Bool
  | [], _ => false
  | line :: rest, inCode =>
    let ts := trimStartStr line
    if codeFenceTest ts then triggerGo patternTest rest (!inCode)
    else if inCode then triggerGo patternTest rest inCode
    else if strStartsWith ts ">" then triggerGo patternTest rest inCode
    else if patternTest line then true
    else triggerGo patternTest rest inCode

/-- Model of hasStandaloneTriggerLine. -/
def hasStandaloneTriggerLine (text : String) (patternTest : String → Bool) : Bool :=
  triggerGo patternTest (splitLines text) false

def matchesHeySaniTrigger (text : String) : Bool :=
  hasStandaloneTriggerLine text heySaniLineTest

def matchesWhoAmITrigger (text : String) : Bool :=
  hasStandaloneTriggerLine text whoAmILineTest

def matchesExitSaniTrigger (text : String) : Bool :=
  hasStandaloneTriggerLine text exitSaniLineTest

/-! ## Memory governance tool: vault_seal -/

/-- Modelled from the spec: readStringParam of tools/common.ts is not under
src; a required parameter must be present, an optional one is passed
through. -/
def readStringParamRequired (o : Option String) (name : String) : Except MemErr String :=
  match o with
  | some s => .ok s
  | none => .error (.toolError (name ++ " required"))

/-- JavaScript value or-or undefined: the empty string collapses to absent. -/
def orUndefined : Option String → Option String
  | some "" => none
  | x => x

/-- Parameters of the vault_seal tool. -/
structure VaultSealParams where
  source_file : Option String := none
  title : Option String := none
  source_session_id : Option String := none
  source_trigger : Option String := none
  append : Option Bool := none
  target_file : Option String := none
deriving DecidableEq, Repr

/-- Model of formatPathOutput: workspace-relative with forward slashes. -/
def formatPathOutput (workspaceDir filePath : String) : String :=
  String.mk ((relativePath workspaceDir filePath).data.map (fun c => if c = '\\' then '/' else c))

/-- The body of a denial audit entry: the denied request described by its
source file, title, append flag state, target path if any, and session
provenance, with empty elements filtered out. -/
def vaultSealDeniedBody (source : String) (title : Option String) (append : Option Bool)
    (targetPath : Option String) (sourceSessionId sourceTrigger nowIso : String) : String :=
  let appendState := match append with
    | some true => "true"
    | some false => "false"
    | none => "unset"
  joinWith "\n"
    ((["- Timestamp: " ++ nowIso,
       "- SourceFile: " ++ source,
       (if optStringTruthy title then "- Title: " ++ title.getD "" else ""),
       "- Append: " ++ appendState,
       (if optStringTruthy targetPath then "- TargetFile: " ++ targetPath.getD "" else ""),
       "- SourceSessionId: " ++ sourceSessionId,
       "- SourceTrigger: " ++ sourceTrigger,
       "",
       "Vault sealing request denied (SANI_VAULT_SEALING_ENABLED is disabled).",
       ""]).filter (· ≠ ""))

/-- Model of logVaultSealDenied: a ThreadBorn audit entry under the
admin-denied folder, tagged vault:denied and admin-denied, describing the
denied request. -/
def logVaultSealDenied (workspaceDir source : String) (title : Option String)
    (append : Option Bool) (targetPath : Option String)
    (sourceSessionId sourceTrigger uuid nowIso : String) (fs : FS) :
    FS × Except MemErr MemoryWriteResult :=
  writeThreadbornEntry workspaceDir "Vault Seal Denied"
    (vaultSealDeniedBody source title append targetPath sourceSessionId sourceTrigger nowIso)
    ["vault:denied", "admin-denied"]
    (some "admin-denied") sourceSessionId sourceTrigger uuid nowIso fs

/-- Model of resolveToolProvenance: the session entry for the key must
exist and carry a session identifier; the trigger is the uppercased tool
name. -/
def resolveToolProvenance (config : Option OpenClawConfig) (sessionKey : Option String)
    (toolName : String) (store : List (String × SessionEntry)) :
    Except MemErr (String × String) :=
  let key := (sessionKey.map trimStr).getD ""
  if config.isNone || key = "" then
    .error (.toolError (toolName ++ " requires active session context for provenance."))
  else
    match lookupSession store key with
    | none => .error (.toolError (toolName ++ " could not resolve session provenance."))
    | some entry =>
      match entry.sessionId with
      | some sid =>
        if sid ≠ "" then .ok (sid, upperStr toolName)
        else .error (.toolError (toolName ++ " could not resolve session provenance."))
      | none => .error (.toolError (toolName ++ " could not resolve session provenance."))

/-- The message thrown by the vault_seal tool when the policy gate denies
sealing; it names both enabling mechanisms. -/
def vaultSealDisabledMsg : String :=
  "Vault sealing is disabled. Enable it via config (agents.defaults.sani.vaultSealingEnabled) or the SANI_VAULT_SEALING_ENABLED environment variable."

/-- Model of the execute function of createVaultSealTool. The environment
value of SANI_VAULT_SEALING_ENABLED is a parameter, as are the session
store, the generated identifier and the clock reading. On denial the
audit write runs first and its outcome is discarded (the try-catch around
logVaultSealDenied), then the SealingDisabled error is raised. -/
def vaultSealExecute (workspaceDir : String) (config : Option OpenClawConfig)
    (sessionKey : Option String) (envSealing : Option String)
    (store : List (String × SessionEntry)) (params : VaultSealParams)
    (uuid nowIso : String) (fs : FS) : FS × Except MemErr MemoryWriteResult :=
  if trimStr workspaceDir = "" then (fs, .error (.toolError "workspaceDir required"))
  else
    match readStringParamRequired params.source_file "source_file" with
    | .error e => (fs, .error e)
    | .ok source =>
      match readStringParamRequired params.source_session_id "source_session_id" with
      | .error e => (fs, .error e)
      | .ok sourceSessionId =>
        match readStringParamRequired params.source_trigger "source_trigger" with
        | .error e => (fs, .error e)
        | .ok sourceTrigger =>
          if !resolveSaniVaultSealingEnabled config envSealing then
            let logged := logVaultSealDenied workspaceDir source (orUndefined params.title)
              params.append (orUndefined params.target_file) sourceSessionId sourceTrigger
              uuid nowIso fs
            (logged.1, .error (.sealingDisabled vaultSealDisabledMsg))
          else
            match resolveAllowedMemorySourcePath workspaceDir source with
            | .error _ =>
              (fs, .error (.toolError "vault_seal source must be inside memory/ThreadBorn, memory/BridgeThread, or memory/Labyrinth."))
            | .ok _ =>
              match resolveToolProvenance config sessionKey "vault_seal" store with
              | .error e => (fs, .error e)
              | .ok (provSessionId, provTrigger) =>
                match writeVaultEntry workspaceDir source (orUndefined params.title)
                    provSessionId provTrigger params.append (orUndefined params.target_file)
                    uuid nowIso fs with
                | (fs', .ok r) =>
                  (fs', .ok { path := formatPathOutput workspaceDir r.path, filename := r.filename })
                | (fs', .error e) => (fs', .error e)

/-! ## Injection pattern detector -/

inductive PatternScope where
  | all
  | nonAgentChannel
deriving DecidableEq, Repr

structure InjectionPattern where
  id : String
  label : String
  patternSource : String
  scope : PatternScope
deriving DecidableEq, Repr

/-- The fixed, ordered pattern registry of injection-audit.ts. The
patternSource field is the source text of each regex; matching itself is
abstracted as a boolean test over that source text, supplied to the
detector. -/
def INJECTION_PATTERNS : List InjectionPattern :=
  [{ id := "tool_override_syntax"
     label := "JSON tool call payload"
     patternSource := "\\\x7b\\s*\"tool\"\\s*:\\s*[\"\x27][^\"\x27]+[\"\x27]"
     scope := .all },
   { id := "tool_key_raw"
     label := "Raw tool key"
     patternSource := "\"tool\"\\s*:"
     scope := .all },
   { id := "markdown_system_block"
     label := "Markdown system prompt block"
     patternSource := "```(?:system|prompt|instructions?)\\b[\\s\\S]*?```"
     scope := .all },
   { id := "system_prompt_header"
     label := "Manual system prompt header"
     patternSource := "(?:^|\\n)\\s\x7b0,3\x7d#\x7b2,6\x7d\\s*system\\s+prompt\\b"
     scope := .all },
   { id := "system_prompt_override"
     label := "System prompt override attempts"
     patternSource := "\\b(system\\s+prompt|override\\s+system|ignore\\s+system|replace\\s+system|ignore\\s+(?:all|any|previous)\\s+instructions|disregard\\s+(?:all|any|previous)\\s+instructions|you\\s+are\\s+now|act\\s+as)\\b"
     scope := .all },
   { id := "tool_block_mimicry"
     label := "Tool block mimicry"
     patternSource := "\\brun_tool\\s*\\(\\s*name\\s*=\\s*[^)\\s]+"
     scope := .all },
   { id := "fake_memory_block"
     label := "Fake memory block"
     patternSource := "\\b(memory\\s+block|begin\\s+memory|end\\s+memory|threadborn)\\b"
     scope := .all },
   { id := "embedded_agent_command"
     label := "Embedded agent commands in non-agent channels"
     patternSource := "\\b(openclaw(?:-mac)?\\s+agent|threadborn_write|vault_query|bridge_promote|session_log_entry)\\b"
     scope := .nonAgentChannel }]

structure InjectionMatch where
  id : String
  label : String
  pattern : String
deriving DecidableEq, Repr

/-- Model of detectInjectionPatterns. The regex engine and the internal
channel classifier are abstracted as function parameters: regexTest takes
a pattern source and the content, isInternalChannel classifies a channel
name (its implementation lives outside src). -/
def detectInjectionPatterns (regexTest : String → String → Bool)
    (isInternalChannel : String → Bool) (content : String) (channel : Option String) :
    List InjectionMatch :=
  let ch := (channel.map trimStr).getD ""
  let isNonAgentChannel := if ch ≠ "" then !isInternalChannel ch else false
  INJECTION_PATTERNS.foldl
    (fun acc p =>
      if p.scope = .nonAgentChannel && !isNonAgentChannel then acc
      else if regexTest p.patternSource content then
        acc ++ [{ id := p.id, label := p.label, pattern := p.patternSource }]
      else acc)
    []

/-! ## Specification helper definitions

Definitions used only to state the verified properties, never by the
embedded operations themselves. -/

/-- The channel classification computed by the detector: a nonempty trimmed
channel that the internal classifier rejects. -/
def channelIsNonAgent (isInternalChannel : String → Bool) (channel : Option String) : Bool :=
  let ch := (channel.map trimStr).getD ""
  if ch ≠ "" then !isInternalChannel ch else false

/-- Candidate filename tried at a given attempt index of the allocator. -/
def uniqueCandidateName (filenameBase : String) (attempt : Nat) : String :=
  filenameBase ++ (if attempt = 0 then "" else "-" ++ toString (attempt + 1)) ++ ".md"

/-- A clean path component: nonempty, not a dot or dot-dot, and free of
slashes. Every component produced by path normalization is clean. -/
def cleanComp (c : String) : Prop :=
  c ≠ "" ∧ c ≠ "." ∧ c ≠ ".." ∧ '/' ∉ c.data

/-- Each line of the input paired with the in-fence state holding when the
line is reached; fence lines toggle the state for the following lines. -/
def annotateFence : List String → Bool → List (String × Bool)
  | [], _ => []
  | l :: rest, st =>
    (l, st) :: annotateFence rest (if codeFenceTest (trimStartStr l) then !st else st)

/-! ## General helper lemmas -/

theorem strEq_iff_data {s t : String} : s = t ↔ s.data = t.data :=
  ⟨fun h => h ▸ rfl, fun h => by cases s; cases t; exact congrArg String.mk h⟩

theorem strData_append (a b : String) : (a ++ b).data = a.data ++ b.data :=
  String.data_append a b

theorem strAppend_right_inj {a : String} {x y : String} : a ++ x = a ++ y ↔ x = y := by
  constructor
  · intro h
    have hd : a.data ++ x.data = a.data ++ y.data := by
      simpa [strData_append] using strEq_iff_data.mp h
    exact strEq_iff_data.mpr (List.append_cancel_left hd)
  · intro h
    rw [h]

theorem joinPath_inj_right {dir : String} {f1 f2 : String} :
    joinPath dir f1 = joinPath dir f2 ↔ f1 = f2 := by
  unfold joinPath
  rw [String.append_assoc]
  rw [String.append_assoc]
  exact strAppend_right_inj.trans strAppend_right_inj

theorem joinPath_ne_dir (dir f : String) : joinPath dir f ≠ dir := by
  intro h
  have hlen := congrArg String.length h
  have hone : ("/" : String).length = 1 := rfl
  rw [joinPath] at hlen
  rw [String.length_append, String.length_append, hone] at hlen
  omega

/-! ## C1: the Vault sealing enablement check -/

/-- C1 (code bug evidence): the claim states the sealing enablement check
falls back to the configuration flag, so a configuration with the flag
enabled and no runtime toggle present must yield true. The source ignores
its configuration parameter entirely: with no environment value the result
is false for every configuration, in particular for one with
vaultSealingEnabled set to true. -/
theorem resolveSaniVaultSealingEnabled_config_flag_ignored :
    (∀ cfg : Option OpenClawConfig, resolveSaniVaultSealingEnabled cfg none = false) ∧
    resolveSaniVaultSealingEnabled
      (some { agentsDefaultsSani := some { enabled := some true, modeTtlMinutes := none,
                                           vaultSealingEnabled := some true } })
      none = false :=
  ⟨fun _ => rfl, rfl⟩

/-! ## C9: the injection pattern detector -/

theorem foldl_filter_map {α β : Type} (g : α → Bool) (h : α → β) :
    ∀ (l : List α) (acc : List β),
      l.foldl (fun acc x => if g x then acc ++ [h x] else acc) acc =
        acc ++ (l.filter g).map h := by
  intro l
  induction l with
  | nil =>
    intro acc
    rw [List.foldl_nil, List.filter_nil, List.map_nil, List.append_nil]
  | cons x rest ih =>
    intro acc
    rw [List.foldl_cons, List.filter_cons]
    by_cases hg : g x = true
    · rw [if_pos hg, if_pos hg, ih, List.map_cons, List.append_assoc, List.singleton_append]
    · rw [if_neg hg, if_neg hg, ih]

theorem detect_foldl_filter (regexTest : String → String → Bool) (content : String)
    (isNonAgentChannel : Bool) (l : List InjectionPattern) (acc : List InjectionMatch) :
    l.foldl
      (fun acc p =>
        if p.scope = .nonAgentChannel && !isNonAgentChannel then acc
        else if regexTest p.patternSource content then
          acc ++ [{ id := p.id, label := p.label, pattern := p.patternSource }]
        else acc)
      acc =
    acc ++ (l.filter (fun p =>
        !(p.scope = .nonAgentChannel && !isNonAgentChannel) &&
          regexTest p.patternSource content)).map
      (fun p => { id := p.id, label := p.label, pattern := p.patternSource }) := by
  have hfun :
      (fun (acc : List InjectionMatch) (p : InjectionPattern) =>
        if p.scope = .nonAgentChannel && !isNonAgentChannel then acc
        else if regexTest p.patternSource content then
          acc ++ [{ id := p.id, label := p.label, pattern := p.patternSource }]
        else acc) =
      (fun (acc : List InjectionMatch) (p : InjectionPattern) =>
        if (!(p.scope = .nonAgentChannel && !isNonAgentChannel) &&
            regexTest p.patternSource content : Bool) then
          acc ++ [({ id := p.id, label := p.label, pattern := p.patternSource } : InjectionMatch)]
        else acc) := by
    funext acc p
    cases hs : (decide (p.scope = PatternScope.nonAgentChannel) && !isNonAgentChannel) <;>
      cases ht : regexTest p.patternSource content <;>
        simp [hs, ht]
  rw [hfun]
  exact foldl_filter_map _ _ l acc

/-- C9: detection returns exactly the applicable, matching registry entries
in registry order, carrying the registry id, label and pattern source; a
pattern scoped to non-agent channels contributes only when the channel is
present, nonempty after trimming and not internal; every returned match
comes from a matching pattern, so an unmatched pattern is absent. The
detector is a pure total function of its inputs (no state, no failure),
with the regex engine and the internal channel classifier abstracted as
boolean-valued parameters. -/
theorem detectInjectionPatterns_spec (regexTest : String → String → Bool)
    (isInternalChannel : String → Bool) (content : String) (channel : Option String) :
    detectInjectionPatterns regexTest isInternalChannel content channel =
      (INJECTION_PATTERNS.filter (fun p =>
          !(p.scope = .nonAgentChannel && !channelIsNonAgent isInternalChannel channel) &&
            regexTest p.patternSource content)).map
        (fun p => { id := p.id, label := p.label, pattern := p.patternSource }) ∧
    (∀ m ∈ detectInjectionPatterns regexTest isInternalChannel content channel,
      (∃ p ∈ INJECTION_PATTERNS, m = { id := p.id, label := p.label, pattern := p.patternSource } ∧
        regexTest p.patternSource content = true) ∧
      (m.id = "embedded_agent_command" →
        ∃ ch, channel = some ch ∧ trimStr ch ≠ "" ∧ isInternalChannel (trimStr ch) = false)) := by
  have hmain :
      detectInjectionPatterns regexTest isInternalChannel content channel =
        (INJECTION_PATTERNS.filter (fun p =>
            !(p.scope = .nonAgentChannel && !channelIsNonAgent isInternalChannel channel) &&
              regexTest p.patternSource content)).map
          (fun p => { id := p.id, label := p.label, pattern := p.patternSource }) := by
    unfold detectInjectionPatterns channelIsNonAgent
    exact detect_foldl_filter regexTest content _ INJECTION_PATTERNS []
  refine ⟨hmain, ?_⟩
  intro m hm
  rw [hmain] at hm
  obtain ⟨p, hp, hpm⟩ := List.mem_map.mp hm
  have hpfilter := List.mem_filter.mp hp
  have hcond := hpfilter.2
  simp only [Bool.and_eq_true] at hcond
  obtain ⟨hscope, htest⟩ := hcond
  refine ⟨⟨p, hpfilter.1, hpm.symm, htest⟩, ?_⟩
  intro hid
  have hpscope : p.scope = PatternScope.nonAgentChannel := by
    have hidp : p.id = "embedded_agent_command" := by rw [← hpm] at hid; exact hid
    have hkey : ∀ q ∈ INJECTION_PATTERNS,
        q.id = "embedded_agent_command" → q.scope = PatternScope.nonAgentChannel := by decide
    exact hkey p hpfilter.1 hidp
  have hnon : channelIsNonAgent isInternalChannel channel = true := by
    rw [hpscope] at hscope
    simp at hscope
    exact hscope
  unfold channelIsNonAgent at hnon
  cases channel with
  | none => simp at hnon
  | some ch =>
    simp only [Option.map_some', Option.getD_some] at hnon
    by_cases he : trimStr ch = ""
    · rw [if_neg (by simp [he])] at hnon
      exact absurd hnon (by simp)
    · refine ⟨ch, rfl, he, ?_⟩
      rw [if_pos he] at hnon
      simpa using hnon

/-! ## Filesystem lemmas -/

theorem FS.mkdirRec_files (fs : FS) (d : String) : ((fs.mkdirRec d).1).files = fs.files := by
  unfold FS.mkdirRec
  split
  · rfl
  · split <;> rfl

theorem FS.lookupFile_mkdirRec (fs : FS) (d p : String) :
    ((fs.mkdirRec d).1).lookupFile p = fs.lookupFile p := by
  unfold FS.lookupFile
  rw [FS.mkdirRec_files]

theorem lookupFile_cons_file (fs : FS) (q c p : String) :
    (({ fs with files := (q, c) :: fs.files } : FS)).lookupFile p =
      if q = p then some c else fs.lookupFile p := by
  unfold FS.lookupFile
  by_cases h : q = p <;> simp [List.find?_cons, h]

theorem existsPath_cons_file (fs : FS) (q c p : String) :
    (({ fs with files := (q, c) :: fs.files } : FS)).existsPath p =
      ((q = p) || fs.existsPath p) := by
  unfold FS.existsPath FS.isDir
  rw [lookupFile_cons_file]
  by_cases h : q = p <;> simp [h]

theorem existsPath_cons_dir (fs : FS) (d p : String) :
    (({ fs with dirs := d :: fs.dirs } : FS)).existsPath p = ((p = d) || fs.existsPath p) := by
  unfold FS.existsPath FS.isDir FS.lookupFile
  by_cases h : p = d <;> simp [h, List.contains_cons]

theorem existsPath_mkdirRec (fs : FS) (d p : String) :
    ((fs.mkdirRec d).1).existsPath p =
      (fs.existsPath p || ((fs.lookupFile d).isNone && p = d)) := by
  unfold FS.mkdirRec
  by_cases hf : (fs.lookupFile d).isSome
  · rw [if_pos hf]
    have : (fs.lookupFile d).isNone = false := by
      cases h : fs.lookupFile d
      · rw [h] at hf; simp at hf
      · simp
    simp [this]
  · rw [if_neg hf]
    have hnone : (fs.lookupFile d).isNone = true := by
      cases h : fs.lookupFile d
      · simp
      · rw [h] at hf; simp at hf
    by_cases hd : fs.isDir d
    · rw [if_pos hd]
      by_cases hpd : p = d
      · subst hpd
        have : fs.existsPath p = true := by
          unfold FS.existsPath
          simp [hd]
        simp [this]
      · simp [hnone, hpd]
    · rw [if_neg hd]
      simp only [existsPath_cons_dir]
      by_cases hpd : p = d <;> simp [hnone, hpd, Bool.or_comm]

theorem lookupFile_none_of_not_exists {fs : FS} {p : String}
    (h : fs.existsPath p = false) : fs.lookupFile p = none := by
  unfold FS.existsPath at h
  cases hl : fs.lookupFile p
  · rfl
  · rw [hl] at h; simp at h

/-! ## Unique file allocator lemmas -/

theorem strAppend_empty (a : String) : a ++ "" = a :=
  strEq_iff_data.mpr (by simp [strData_append])

theorem uniqueCandidateName_zero (base : String) : uniqueCandidateName base 0 = base ++ ".md" := by
  unfold uniqueCandidateName
  rw [if_pos rfl, strAppend_empty]

theorem uniqueCandidateName_one (base : String) : uniqueCandidateName base 1 = base ++ "-2.md" := by
  apply strEq_iff_data.mpr
  simp only [uniqueCandidateName, strData_append]
  simp only [List.append_assoc, List.append_cancel_left_eq]
  decide

theorem uniqueCandidateName_two (base : String) : uniqueCandidateName base 2 = base ++ "-3.md" := by
  apply strEq_iff_data.mpr
  simp only [uniqueCandidateName, strData_append]
  simp only [List.append_assoc, List.append_cancel_left_eq]
  decide

theorem wua_step_taken {dir base content : String} {attempt rem : Nat} {fs : FS}
    (h : fs.existsPath (joinPath dir (uniqueCandidateName base attempt)) = true) :
    writeUniqueAttempts dir base content attempt (rem + 1) fs =
      writeUniqueAttempts dir base content (attempt + 1) rem fs := by
  unfold uniqueCandidateName at h
  simp [writeUniqueAttempts, FS.writeFileWx, h]

theorem wua_step_free {dir base content : String} {attempt rem : Nat} {fs : FS}
    (h : fs.existsPath (joinPath dir (uniqueCandidateName base attempt)) = false) :
    writeUniqueAttempts dir base content attempt (rem + 1) fs =
      ({ fs with files := (joinPath dir (uniqueCandidateName base attempt), content) :: fs.files },
       .ok { path := joinPath dir (uniqueCandidateName base attempt),
             filename := uniqueCandidateName base attempt }) := by
  unfold uniqueCandidateName at h ⊢
  simp [writeUniqueAttempts, FS.writeFileWx, h]

theorem wua_exhaust {dir base content : String} :
    ∀ (rem attempt : Nat) (fs : FS),
      (∀ k, k < rem → fs.existsPath (joinPath dir (uniqueCandidateName base (attempt + k))) = true) →
      writeUniqueAttempts dir base content attempt rem fs = (fs, .error .allocationExhausted) := by
  intro rem
  induction rem with
  | zero => intro attempt fs _; rfl
  | succ r ih =>
    intro attempt fs h
    have h0 : fs.existsPath (joinPath dir (uniqueCandidateName base attempt)) = true := by
      have := h 0 (Nat.succ_pos r)
      simpa using this
    rw [wua_step_taken h0]
    apply ih
    intro k hk
    have := h (k + 1) (by omega)
    have harith : attempt + (k + 1) = attempt + 1 + k := by omega
    rwa [harith] at this

theorem wua_preserves {dir base content : String} :
    ∀ (rem attempt : Nat) (fs : FS) (p old : String),
      fs.lookupFile p = some old →
      ((writeUniqueAttempts dir base content attempt rem fs).1).lookupFile p = some old := by
  intro rem
  induction rem with
  | zero => intro attempt fs p old h; exact h
  | succ r ih =>
    intro attempt fs p old h
    by_cases he : fs.existsPath (joinPath dir (uniqueCandidateName base attempt)) = true
    · rw [wua_step_taken he]
      exact ih (attempt + 1) fs p old h
    · have he' : fs.existsPath (joinPath dir (uniqueCandidateName base attempt)) = false :=
        Bool.eq_false_iff.mpr he
      rw [wua_step_free he']
      have hne : joinPath dir (uniqueCandidateName base attempt) ≠ p := by
        intro hcontra
        have hnone := lookupFile_none_of_not_exists he'
        rw [hcontra, h] at hnone
        exact Option.some_ne_none old hnone
      rw [lookupFile_cons_file]
      rw [if_neg hne]
      exact h

theorem wua_ok {dir base content : String} :
    ∀ (rem attempt : Nat) (fs fs' : FS) (r : MemoryWriteResult),
      writeUniqueAttempts dir base content attempt rem fs = (fs', .ok r) →
      ∃ k, k < rem ∧
        r.filename = uniqueCandidateName base (attempt + k) ∧
        r.path = joinPath dir r.filename ∧
        fs.existsPath r.path = false ∧
        fs'.files = (r.path, content) :: fs.files ∧
        fs'.dirs = fs.dirs := by
  intro rem
  induction rem with
  | zero =>
    intro attempt fs fs' r h
    exact absurd (congrArg Prod.snd h) (by simp [writeUniqueAttempts])
  | succ rem ih =>
    intro attempt fs fs' r h
    by_cases he : fs.existsPath (joinPath dir (uniqueCandidateName base attempt)) = true
    · rw [wua_step_taken he] at h
      obtain ⟨k, hk, hfn, hp, hex, hfiles, hdirs⟩ := ih (attempt + 1) fs fs' r h
      refine ⟨k + 1, by omega, ?_, hp, hex, hfiles, hdirs⟩
      have harith : attempt + (k + 1) = attempt + 1 + k := by omega
      rw [harith]
      exact hfn
    · have he' : fs.existsPath (joinPath dir (uniqueCandidateName base attempt)) = false :=
        Bool.eq_false_iff.mpr he
      rw [wua_step_free he'] at h
      have hfs' : fs' = { fs with
          files := (joinPath dir (uniqueCandidateName base attempt), content) :: fs.files } :=
        (congrArg Prod.fst h).symm
      have hr : r = { path := joinPath dir (uniqueCandidateName base attempt),
                      filename := uniqueCandidateName base attempt } := by
        have := congrArg Prod.snd h
        simpa using this.symm
      refine ⟨0, Nat.succ_pos rem, ?_, ?_, ?_, ?_, ?_⟩
      · rw [hr]; simp
      · rw [hr]
      · rw [hr]; exact he'
      · rw [hfs', hr]
      · rw [hfs']

theorem mkdirRec_snd_ok {fs : FS} {d : String} (h : fs.lookupFile d = none) :
    (fs.mkdirRec d).2 = Except.ok () := by
  unfold FS.mkdirRec
  rw [h]
  simp only [Option.isSome_none, Bool.false_eq_true, if_false]
  split <;> rfl

theorem writeUniqueFile_eq_wua {dir base content : String} {allow : Bool} {fs : FS}
    (h : fs.lookupFile dir = none) :
    writeUniqueFile dir base content allow fs =
      writeUniqueAttempts dir base content 0 (if allow then 5 else 1) (fs.mkdirRec dir).1 := by
  have hpair : fs.mkdirRec dir = ((fs.mkdirRec dir).1, Except.ok ()) := by
    rw [← mkdirRec_snd_ok h]
  unfold writeUniqueFile
  rw [hpair]

theorem lookupFile_eq_of_files_eq {f1 f2 : FS} (h : f1.files = f2.files) (p : String) :
    f1.lookupFile p = f2.lookupFile p := by
  unfold FS.lookupFile
  rw [h]

theorem wua_kth {dir base content : String} :
    ∀ (k attempt rem : Nat) (fs : FS), k < rem →
      (∀ j, j < k → fs.existsPath (joinPath dir (uniqueCandidateName base (attempt + j))) = true) →
      fs.existsPath (joinPath dir (uniqueCandidateName base (attempt + k))) = false →
      writeUniqueAttempts dir base content attempt rem fs =
        ({ fs with files :=
            (joinPath dir (uniqueCandidateName base (attempt + k)), content) :: fs.files },
         .ok { path := joinPath dir (uniqueCandidateName base (attempt + k)),
               filename := uniqueCandidateName base (attempt + k) }) := by
  intro k
  induction k with
  | zero =>
    intro attempt rem fs hrem _ hfree
    cases rem with
    | zero => omega
    | succ r =>
      have := @wua_step_free dir base content attempt r fs
        (by simpa using hfree)
      simpa using this
  | succ k ih =>
    intro attempt rem fs hrem htaken hfree
    cases rem with
    | zero => omega
    | succ r =>
      have h0 : fs.existsPath (joinPath dir (uniqueCandidateName base attempt)) = true := by
        simpa using htaken 0 (Nat.succ_pos k)
      rw [wua_step_taken h0]
      have harith : attempt + (k + 1) = attempt + 1 + k := by omega
      have hres := ih (attempt + 1) r fs (by omega)
        (fun j hj => by
          have := htaken (j + 1) (by omega)
          rwa [show attempt + (j + 1) = attempt + 1 + j by omega] at this)
        (by rwa [harith] at hfree)
      rw [harith]
      exact hres

theorem writeUniqueFile_kth {dir base content : String} {fs : FS} (k : Nat) (hk : k < 5)
    (hdir : fs.lookupFile dir = none)
    (htaken : ∀ j, j < k → fs.existsPath (joinPath dir (uniqueCandidateName base j)) = true)
    (hfree : fs.existsPath (joinPath dir (uniqueCandidateName base k)) = false) :
    writeUniqueFile dir base content true fs =
      ({ (fs.mkdirRec dir).1 with files :=
          (joinPath dir (uniqueCandidateName base k), content) :: ((fs.mkdirRec dir).1).files },
       .ok { path := joinPath dir (uniqueCandidateName base k),
             filename := uniqueCandidateName base k }) := by
  rw [writeUniqueFile_eq_wua hdir]
  have hmkex : ∀ p, ((fs.mkdirRec dir).1).existsPath p =
      (fs.existsPath p || ((fs.lookupFile dir).isNone && p = dir)) :=
    fun p => existsPath_mkdirRec fs dir p
  have hres := @wua_kth dir base content k 0 5 (fs.mkdirRec dir).1
    hk
    (fun j hj => by
      rw [hmkex, Nat.zero_add]
      rw [htaken j hj]
      rfl)
    (by
      rw [hmkex, Nat.zero_add, hfree]
      have : (decide (joinPath dir (uniqueCandidateName base k) = dir)) = false := by
        simp [joinPath_ne_dir dir (uniqueCandidateName base k)]
      simp [this])
  rw [if_pos rfl]
  rw [Nat.zero_add] at hres
  exact hres

theorem candidates_pairwise_ne (base : String) :
    uniqueCandidateName base 0 ≠ uniqueCandidateName base 1 ∧
    uniqueCandidateName base 0 ≠ uniqueCandidateName base 2 ∧
    uniqueCandidateName base 1 ≠ uniqueCandidateName base 2 := by
  rw [uniqueCandidateName_zero, uniqueCandidateName_one, uniqueCandidateName_two]
  refine ⟨?_, ?_, ?_⟩ <;> (intro h; exact absurd (strAppend_right_inj.mp h) (by decide))

theorem uniqueCandidateName_three (base : String) :
    uniqueCandidateName base 3 = base ++ "-4.md" := by
  apply strEq_iff_data.mpr
  simp only [uniqueCandidateName, strData_append]
  simp only [List.append_assoc, List.append_cancel_left_eq]
  decide

theorem uniqueCandidateName_four (base : String) :
    uniqueCandidateName base 4 = base ++ "-5.md" := by
  apply strEq_iff_data.mpr
  simp only [uniqueCandidateName, strData_append]
  simp only [List.append_assoc, List.append_cancel_left_eq]
  decide

/-! ## C5: the unique file allocator -/

/-- C5: the allocator has exclusive-create semantics. Part one: an existing
file binding is never overwritten by any allocator call. Part two: with
suffixing allowed, when the base name and all four suffixed names
(base-2.md through base-5.md, a bound of five attempts) are taken the call
fails with the allocation-exhausted error. Part three: against a store
where the first three candidate names are free, a first write creates
base.md, a second write of the same base creates base-2.md, and a third
creates base-3.md. Part four: with suffixing disallowed, a collision on
base.md alone fails outright with the same error and writes no file, even
though base-2.md may be free. Part five: writeLabyrinthSnapshot disallows
suffixing, so a collision on its computed filename fails outright. -/
theorem writeUniqueFile_allocator_spec :
    (∀ dir base content allow fs p old,
      FS.lookupFile fs p = some old →
      ((writeUniqueFile dir base content allow fs).1).lookupFile p = some old) ∧
    (∀ dir base content fs,
      FS.lookupFile fs dir = none →
      fs.existsPath (joinPath dir (base ++ ".md")) = true →
      fs.existsPath (joinPath dir (base ++ "-2.md")) = true →
      fs.existsPath (joinPath dir (base ++ "-3.md")) = true →
      fs.existsPath (joinPath dir (base ++ "-4.md")) = true →
      fs.existsPath (joinPath dir (base ++ "-5.md")) = true →
      (writeUniqueFile dir base content true fs).2 = .error .allocationExhausted) ∧
    (∀ dir base c1 c2 c3 fs,
      FS.lookupFile fs dir = none →
      fs.existsPath (joinPath dir (base ++ ".md")) = false →
      fs.existsPath (joinPath dir (base ++ "-2.md")) = false →
      fs.existsPath (joinPath dir (base ++ "-3.md")) = false →
      (writeUniqueFile dir base c1 true fs).2 =
        .ok { path := joinPath dir (base ++ ".md"), filename := base ++ ".md" } ∧
      (writeUniqueFile dir base c2 true ((writeUniqueFile dir base c1 true fs).1)).2 =
        .ok { path := joinPath dir (base ++ "-2.md"), filename := base ++ "-2.md" } ∧
      (writeUniqueFile dir base c3 true
          ((writeUniqueFile dir base c2 true ((writeUniqueFile dir base c1 true fs).1)).1)).2 =
        .ok { path := joinPath dir (base ++ "-3.md"), filename := base ++ "-3.md" }) ∧
    (∀ dir base content fs,
      FS.lookupFile fs dir = none →
      fs.existsPath (joinPath dir (base ++ ".md")) = true →
      (writeUniqueFile dir base content false fs).2 = .error .allocationExhausted ∧
      ((writeUniqueFile dir base content false fs).1).files = fs.files) ∧
    (∀ ws title body ssid strig uuid nowIso fs,
      FS.lookupFile fs (resolveMemoryDir ws "Labyrinth") = none →
      fs.existsPath (joinPath (resolveMemoryDir ws "Labyrinth")
        (timestampSlug nowIso ++ "-" ++
          toSafeSlug (if trimStr title ≠ "" then trimStr title else "Labyrinth Snapshot") ++
          ".md")) = true →
      (writeLabyrinthSnapshot ws title body ssid strig uuid nowIso fs).2 =
        .error .allocationExhausted) := by
  have hnosuffix : ∀ dir base content fs,
      FS.lookupFile fs dir = none →
      fs.existsPath (joinPath dir (base ++ ".md")) = true →
      (writeUniqueFile dir base content false fs).2 = .error .allocationExhausted ∧
      ((writeUniqueFile dir base content false fs).1).files = fs.files := by
    intro dir base content fs hdir hex
    rw [writeUniqueFile_eq_wua hdir]
    have hone : (if (false : Bool) then 5 else 1) = 1 := rfl
    rw [hone]
    rw [wua_exhaust 1 0 (fs.mkdirRec dir).1 (fun k hk => by
      have hk0 : k = 0 := by omega
      subst hk0
      rw [Nat.add_zero, existsPath_mkdirRec, uniqueCandidateName_zero, hex]
      rfl)]
    exact ⟨rfl, FS.mkdirRec_files fs dir⟩
  refine ⟨?_, ?_, ?_, hnosuffix, ?_⟩
  · intro dir base content allow fs p old h
    rcases hmk : fs.mkdirRec dir with ⟨fs1, res⟩
    have hfiles1 : fs1.files = fs.files := by
      have := FS.mkdirRec_files fs dir
      rw [hmk] at this
      exact this
    have h1 : fs1.lookupFile p = some old := by
      rw [lookupFile_eq_of_files_eq hfiles1 p]
      exact h
    unfold writeUniqueFile
    rw [hmk]
    cases res with
    | error e => exact h1
    | ok u =>
      cases u
      exact wua_preserves (if allow then 5 else 1) 0 fs1 p old h1
  · intro dir base content fs hdir h0 h1 h2 h3 h4
    rw [writeUniqueFile_eq_wua hdir]
    have hfive : (if (true : Bool) then 5 else 1) = 5 := rfl
    rw [hfive]
    rw [wua_exhaust 5 0 (fs.mkdirRec dir).1 (fun k hk => by
      rw [Nat.zero_add, existsPath_mkdirRec]
      interval_cases k
      · rw [uniqueCandidateName_zero, h0]; rfl
      · rw [uniqueCandidateName_one, h1]; rfl
      · rw [uniqueCandidateName_two, h2]; rfl
      · rw [uniqueCandidateName_three, h3]; rfl
      · rw [uniqueCandidateName_four, h4]; rfl)]
  · intro dir base c1 c2 c3 fs hdir hf0 hf1 hf2
    obtain ⟨hne01, hne02, hne12⟩ := candidates_pairwise_ne base
    have hP0 : joinPath dir (uniqueCandidateName base 0) = joinPath dir (base ++ ".md") := by
      rw [uniqueCandidateName_zero]
    have hP1 : joinPath dir (uniqueCandidateName base 1) = joinPath dir (base ++ "-2.md") := by
      rw [uniqueCandidateName_one]
    have hP2 : joinPath dir (uniqueCandidateName base 2) = joinPath dir (base ++ "-3.md") := by
      rw [uniqueCandidateName_two]
    have hf0' : fs.existsPath (joinPath dir (uniqueCandidateName base 0)) = false := by
      rw [hP0]; exact hf0
    have hf1' : fs.existsPath (joinPath dir (uniqueCandidateName base 1)) = false := by
      rw [hP1]; exact hf1
    have hf2' : fs.existsPath (joinPath dir (uniqueCandidateName base 2)) = false := by
      rw [hP2]; exact hf2
    have hw1 := @writeUniqueFile_kth dir base c1 fs 0 (by omega) hdir
      (fun j hj => absurd hj (by omega)) hf0'
    set fs1 := (fs.mkdirRec dir).1 with hfs1
    set fsA : FS := { fs1 with files :=
      (joinPath dir (uniqueCandidateName base 0), c1) :: fs1.files } with hfsA
    have hw1fst : (writeUniqueFile dir base c1 true fs).1 = fsA := by rw [hw1]
    have hw1snd : (writeUniqueFile dir base c1 true fs).2 =
        .ok { path := joinPath dir (base ++ ".md"), filename := base ++ ".md" } := by
      rw [hw1, uniqueCandidateName_zero]
    -- second write
    have hdirA : fsA.lookupFile dir = none := by
      rw [hfsA, lookupFile_cons_file]
      rw [if_neg (joinPath_ne_dir dir (uniqueCandidateName base 0))]
      rw [FS.lookupFile_mkdirRec]
      exact hdir
    have htakenA0 : fsA.existsPath (joinPath dir (uniqueCandidateName base 0)) = true := by
      rw [hfsA, existsPath_cons_file]
      simp
    have hfreeA : fsA.existsPath (joinPath dir (uniqueCandidateName base 1)) = false := by
      rw [hfsA, existsPath_cons_file]
      have hne : joinPath dir (uniqueCandidateName base 0) ≠
          joinPath dir (uniqueCandidateName base 1) := by
        intro hcontra
        exact hne01 (joinPath_inj_right.mp hcontra)
      rw [existsPath_mkdirRec]
      have hnd : (decide (joinPath dir (uniqueCandidateName base 1) = dir)) = false := by
        simp [joinPath_ne_dir dir (uniqueCandidateName base 1)]
      rw [hf1']
      simp [hne, hnd]
    have hw2 := @writeUniqueFile_kth dir base c2 fsA 1 (by omega) hdirA
      (fun j hj => by
        have hj0 : j = 0 := by omega
        subst hj0
        exact htakenA0) hfreeA
    set fs2 := (fsA.mkdirRec dir).1 with hfs2
    set fsB : FS := { fs2 with files :=
      (joinPath dir (uniqueCandidateName base 1), c2) :: fs2.files } with hfsB
    have hw2fst : (writeUniqueFile dir base c2 true fsA).1 = fsB := by rw [hw2]
    have hw2snd : (writeUniqueFile dir base c2 true fsA).2 =
        .ok { path := joinPath dir (base ++ "-2.md"), filename := base ++ "-2.md" } := by
      rw [hw2, uniqueCandidateName_one]
    -- third write
    have hdirB : fsB.lookupFile dir = none := by
      rw [hfsB, lookupFile_cons_file]
      rw [if_neg (joinPath_ne_dir dir (uniqueCandidateName base 1))]
      rw [FS.lookupFile_mkdirRec]
      exact hdirA
    have htakenB0 : fsB.existsPath (joinPath dir (uniqueCandidateName base 0)) = true := by
      rw [hfsB, existsPath_cons_file]
      rw [existsPath_mkdirRec, htakenA0]
      simp
    have htakenB1 : fsB.existsPath (joinPath dir (uniqueCandidateName base 1)) = true := by
      rw [hfsB, existsPath_cons_file]
      simp
    have hfreeB : fsB.existsPath (joinPath dir (uniqueCandidateName base 2)) = false := by
      rw [hfsB, existsPath_cons_file]
      have hne : joinPath dir (uniqueCandidateName base 1) ≠
          joinPath dir (uniqueCandidateName base 2) := by
        intro hcontra
        exact hne12 (joinPath_inj_right.mp hcontra)
      rw [existsPath_mkdirRec]
      have hnd : (decide (joinPath dir (uniqueCandidateName base 2) = dir)) = false := by
        simp [joinPath_ne_dir dir (uniqueCandidateName base 2)]
      have hA2 : fsA.existsPath (joinPath dir (uniqueCandidateName base 2)) = false := by
        rw [hfsA, existsPath_cons_file]
        have hne' : joinPath dir (uniqueCandidateName base 0) ≠
            joinPath dir (uniqueCandidateName base 2) := by
          intro hcontra
          exact hne02 (joinPath_inj_right.mp hcontra)
        rw [existsPath_mkdirRec, hf2']
        simp [hne', hnd]
      rw [hA2]
      simp [hne, hnd]
    have hw3 := @writeUniqueFile_kth dir base c3 fsB 2 (by omega) hdirB
      (fun j hj => by
        interval_cases j
        · exact htakenB0
        · exact htakenB1) hfreeB
    have hw3snd : (writeUniqueFile dir base c3 true fsB).2 =
        .ok { path := joinPath dir (base ++ "-3.md"), filename := base ++ "-3.md" } := by
      rw [hw3, uniqueCandidateName_two]
    refine ⟨hw1snd, ?_, ?_⟩
    · rw [hw1fst]
      exact hw2snd
    · rw [hw1fst, hw2fst]
      exact hw3snd
  · intro ws title body ssid strig uuid nowIso fs hdir hex
    exact (hnosuffix (resolveMemoryDir ws "Labyrinth")
      (timestampSlug nowIso ++ "-" ++
        toSafeSlug (if trimStr title ≠ "" then trimStr title else "Labyrinth Snapshot"))
      (joinWith "\n"
        [buildFrontMatter (createMetadata uuid nowIso ssid strig "Labyrinth" false {} {}),
         "# " ++ (if trimStr title ≠ "" then trimStr title else "Labyrinth Snapshot"),
         "",
         "- Created: " ++ nowIso,
         "",
         trimStr body,
         ""]) fs hdir hex).1

/-- Witness for C5 at concrete inputs: preservation of an unrelated file,
exhaustion with all five names taken, the base.md then base-2.md sequence,
the immediate no-suffix failure, and the Labyrinth collision failure. -/
theorem writeUniqueFile_allocator_spec_witness :
    ((writeUniqueFile "/w" "b" "c" true ⟨[("q", "old")], []⟩).1).lookupFile "q" = some "old" ∧
    (writeUniqueFile "/w" "b" "x" true
      ⟨[("/w/b.md", "x"), ("/w/b-2.md", "x"), ("/w/b-3.md", "x"), ("/w/b-4.md", "x"),
        ("/w/b-5.md", "x")], []⟩).2 = .error .allocationExhausted ∧
    (writeUniqueFile "/w" "b" "1" true (⟨[], []⟩ : FS)).2 =
      .ok { path := joinPath "/w" ("b" ++ ".md"), filename := "b" ++ ".md" } ∧
    (writeUniqueFile "/w" "b" "2" true
      ((writeUniqueFile "/w" "b" "1" true (⟨[], []⟩ : FS)).1)).2 =
      .ok { path := joinPath "/w" ("b" ++ "-2.md"), filename := "b" ++ "-2.md" } ∧
    (writeUniqueFile "/w" "b" "n" false ⟨[("/w/b.md", "x")], []⟩).2 =
      .error .allocationExhausted ∧
    (writeLabyrinthSnapshot "/w" "t" "body" "s" "TRIG" "u" "T"
      ⟨[("/w/memory/Labyrinth/T-t.md", "x")], []⟩).2 = .error .allocationExhausted := by
  obtain ⟨ha, hb, hc, hd, he⟩ := writeUniqueFile_allocator_spec
  refine ⟨ha "/w" "b" "c" true _ "q" "old" (by decide),
    hb "/w" "b" "x" _ (by decide) (by decide) (by decide) (by decide) (by decide) (by decide),
    ?_, ?_,
    (hd "/w" "b" "n" _ (by decide) (by decide)).1,
    he "/w" "t" "body" "s" "TRIG" "u" "T" _ (by decide) (by decide)⟩
  · exact (hc "/w" "b" "1" "2" "3" _ (by decide) (by decide) (by decide) (by decide)).1
  · exact (hc "/w" "b" "1" "2" "3" _ (by decide) (by decide) (by decide) (by decide)).2.1

/-! ## C7: the trigger matcher -/

theorem triggerGo_iff (pt : String → Bool) :
    ∀ (lines : List String) (st : Bool),
      triggerGo pt lines st = true ↔
        ∃ p ∈ annotateFence lines st,
          codeFenceTest (trimStartStr p.1) = false ∧ p.2 = false ∧
          strStartsWith (trimStartStr p.1) ">" = false ∧ pt p.1 = true := by
  intro lines
  induction lines with
  | nil =>
    intro st
    simp [triggerGo, annotateFence]
  | cons l rest ih =>
    intro st
    by_cases hf : codeFenceTest (trimStartStr l) = true
    · rw [show triggerGo pt (l :: rest) st = triggerGo pt rest (!st) by
        simp [triggerGo, hf]]
      rw [ih (!st)]
      constructor
      · rintro ⟨p, hp, hcond⟩
        exact ⟨p, by simp [annotateFence, hf, List.mem_cons]; right; exact hp, hcond⟩
      · rintro ⟨p, hp, hcond⟩
        simp only [annotateFence, hf, if_true, List.mem_cons] at hp
        rcases hp with hp | hp
        · rw [hp] at hcond
          rw [hf] at hcond
          exact absurd hcond.1 (by simp)
        · exact ⟨p, hp, hcond⟩
    · have hf' : codeFenceTest (trimStartStr l) = false := Bool.eq_false_iff.mpr hf
      cases st with
      | true =>
        rw [show triggerGo pt (l :: rest) true = triggerGo pt rest true by
          simp [triggerGo, hf']]
        rw [ih true]
        constructor
        · rintro ⟨p, hp, hcond⟩
          exact ⟨p, by simp [annotateFence, hf', List.mem_cons]; right; exact hp, hcond⟩
        · rintro ⟨p, hp, hcond⟩
          simp only [annotateFence, hf', Bool.false_eq_true, if_false, List.mem_cons] at hp
          rcases hp with hp | hp
          · rw [hp] at hcond
            exact absurd hcond.2.1 (by simp)
          · exact ⟨p, hp, hcond⟩
      | false =>
        by_cases hq : strStartsWith (trimStartStr l) ">" = true
        · rw [show triggerGo pt (l :: rest) false = triggerGo pt rest false by
            simp [triggerGo, hf', hq]]
          rw [ih false]
          constructor
          · rintro ⟨p, hp, hcond⟩
            exact ⟨p, by simp [annotateFence, hf', List.mem_cons]; right; exact hp, hcond⟩
          · rintro ⟨p, hp, hcond⟩
            simp only [annotateFence, hf', Bool.false_eq_true, if_false, List.mem_cons] at hp
            rcases hp with hp | hp
            · rw [hp] at hcond
              rw [hq] at hcond
              exact absurd hcond.2.2.1 (by simp)
            · exact ⟨p, hp, hcond⟩
        · have hq' : strStartsWith (trimStartStr l) ">" = false := Bool.eq_false_iff.mpr hq
          by_cases hm : pt l = true
          · constructor
            · intro _
              refine ⟨(l, false), by simp [annotateFence, List.mem_cons], hf', rfl, hq', hm⟩
            · intro _
              simp [triggerGo, hf', hq', hm]
          · have hm' : pt l = false := Bool.eq_false_iff.mpr hm
            rw [show triggerGo pt (l :: rest) false = triggerGo pt rest false by
              simp [triggerGo, hf', hq', hm']]
            rw [ih false]
            constructor
            · rintro ⟨p, hp, hcond⟩
              exact ⟨p, by simp [annotateFence, hf', List.mem_cons]; right; exact hp, hcond⟩
            · rintro ⟨p, hp, hcond⟩
              simp only [annotateFence, hf', Bool.false_eq_true, if_false, List.mem_cons] at hp
              rcases hp with hp | hp
              · rw [hp] at hcond
                rw [hm'] at hcond
                exact absurd hcond.2.2.2 (by simp)
              · exact ⟨p, hp, hcond⟩

/-- C7: a trigger fires exactly when some line outside every fenced block
(the fence state toggling at every fence line, fence lines themselves
never matching) and not starting with a quote marker matches the pattern;
concretely, a standalone hey-sani line activates, a block-quoted one does
not, and the trigger text inside a fenced code block does not. -/
theorem hasStandaloneTriggerLine_spec :
    (∀ (text : String) (patternTest : String → Bool),
      hasStandaloneTriggerLine text patternTest = true ↔
        ∃ p ∈ annotateFence (splitLines text) false,
          codeFenceTest (trimStartStr p.1) = false ∧ p.2 = false ∧
          strStartsWith (trimStartStr p.1) ">" = false ∧ patternTest p.1 = true) ∧
    matchesHeySaniTrigger "hey sani" = true ∧
    matchesHeySaniTrigger "> hey sani" = false ∧
    matchesHeySaniTrigger "```\nhey sani\n```" = false :=
  ⟨fun text pt => triggerGo_iff pt (splitLines text) false, by decide, by decide, by decide⟩

/-! ## C8: the metadata decoder degrades gracefully -/

theorem findCloseDelim_none :
    ∀ (rest : List String) (i : Nat),
      (∀ l ∈ rest, trimStr l ≠ FRONT_MATTER_DELIMITER) → findCloseDelim rest i = none := by
  intro rest
  induction rest with
  | nil => intro i _; rfl
  | cons l ls ih =>
    intro i h
    unfold findCloseDelim
    rw [if_neg (h l (List.mem_cons_self l ls))]
    exact ih (i + 1) (fun x hx => h x (List.mem_cons_of_mem l hx))

/-- C8: decoding is a total function (it is defined for every input string
and, being a Lean function, cannot throw). A content whose first line is
not the delimiter decodes to empty metadata with the original content as
body; so does a content that opens the delimiter but never closes it; a
header line whose key is not one of the allowed metadata keys leaves the
accumulated metadata untouched; and the bare words true and false are
decoded as booleans, as the concrete parse of a sealed header shows. -/
theorem parseFrontMatter_degrade_spec :
    (∀ (content : String) (first : String) (rest : List String),
      splitLines content = first :: rest →
      first ≠ FRONT_MATTER_DELIMITER →
      parseFrontMatter content = { metadata := emptyParsedMeta, body := content }) ∧
    (∀ (content : String) (rest : List String),
      splitLines content = FRONT_MATTER_DELIMITER :: rest →
      (∀ l ∈ rest, trimStr l ≠ FRONT_MATTER_DELIMITER) →
      parseFrontMatter content = { metadata := emptyParsedMeta, body := content }) ∧
    (∀ (m : ParsedMeta) (line k v : String),
      matchKeyValue line = some (k, v) →
      allowedMetadataKeys.contains k = false →
      applyHeaderLine m line = m) ∧
    parseYamlValue "true" = .b true ∧
    parseYamlValue "false" = .b false ∧
    parseFrontMatter "---\nsealed: true\nunknown_key: 1\n---\nbody" =
      { metadata := { sealed := some (.b true) }, body := "body" } := by
  refine ⟨?_, ?_, ?_, by decide, by decide, by decide⟩
  · intro content first rest hsplit hne
    unfold parseFrontMatter
    rw [hsplit]
    dsimp only
    rw [if_pos hne]
  · intro content rest hsplit hno
    unfold parseFrontMatter
    rw [hsplit]
    dsimp only
    rw [if_neg (by simp)]
    rw [findCloseDelim_none rest 1 hno]
  · intro m line k v hkv hnk
    unfold applyHeaderLine
    by_cases ht : trimStr line = ""
    · rw [if_pos ht]
    · rw [if_neg ht, hkv]
      dsimp only
      rw [hnk]
      simp

/-- Witness for C8 at concrete inputs: a content without a header, an
unterminated header, and an unknown-key header line. -/
theorem parseFrontMatter_degrade_spec_witness :
    parseFrontMatter "x\ny" = { metadata := emptyParsedMeta, body := "x\ny" } ∧
    parseFrontMatter "---\nid: \"a\"" =
      { metadata := emptyParsedMeta, body := "---\nid: \"a\"" } ∧
    applyHeaderLine emptyParsedMeta "foo: 1" = emptyParsedMeta := by
  obtain ⟨ha, hb, hc, _, _, _⟩ := parseFrontMatter_degrade_spec
  refine ⟨ha "x\ny" "x" ["y"] (by decide) (by decide),
    hb "---\nid: \"a\"" ["id: \"a\""] (by decide) (by decide),
    hc emptyParsedMeta "foo: 1" "foo" "1" (by decide) (by decide)⟩

/-! ## Success characterization of the allocator and the ThreadBorn writer -/

theorem writeUniqueFile_ok {dir base content : String} {allow : Bool} {fs fs' : FS}
    {r : MemoryWriteResult}
    (h : writeUniqueFile dir base content allow fs = (fs', .ok r)) :
    fs'.files = (r.path, content) :: fs.files ∧ fs.lookupFile r.path = none ∧
      r.path = joinPath dir r.filename := by
  unfold writeUniqueFile at h
  rcases hmk : fs.mkdirRec dir with ⟨fs1, res⟩
  rw [hmk] at h
  cases res with
  | error e => exact absurd (congrArg Prod.snd h) (by simp)
  | ok u =>
    cases u
    obtain ⟨k, _, _, hp, hex, hfiles, _⟩ := wua_ok (if allow then 5 else 1) 0 fs1 fs' r h
    have hfileseq : fs1.files = fs.files := by
      have := FS.mkdirRec_files fs dir
      rw [hmk] at this
      exact this
    refine ⟨by rw [hfiles, hfileseq], ?_, hp⟩
    have hnone : fs1.lookupFile r.path = none := lookupFile_none_of_not_exists hex
    rw [← lookupFile_eq_of_files_eq hfileseq r.path]
    exact hnone

theorem writeThreadbornEntry_ok {workspaceDir title body : String} {tags : List String}
    {folder : Option String} {ssid strig uuid nowIso : String} {fs fs' : FS}
    {r : MemoryWriteResult}
    (h : writeThreadbornEntry workspaceDir title body tags folder ssid strig uuid nowIso fs =
      (fs', .ok r)) :
    fs'.files =
      (r.path, threadbornEntryContent
        (createMetadata uuid nowIso ssid strig "ThreadBorn" false {} {})
        (if trimStr title ≠ "" then trimStr title else "ThreadBorn Entry")
        (((tags.filter (· ≠ "")).map trimStr).filter (· ≠ "")) body nowIso) :: fs.files ∧
    fs.lookupFile r.path = none ∧
    r.path = joinPath (threadbornDir workspaceDir folder) r.filename := by
  unfold writeThreadbornEntry at h
  dsimp only at h
  exact writeUniqueFile_ok h

theorem ttlAuditWrite_ok {wd key : String} {sani laby : Bool} {ttlMs : Int}
    {srcSession uuid nowIso : String} {fs fs' : FS} {r : MemoryWriteResult}
    (h : ttlAuditWrite wd key sani laby ttlMs srcSession uuid nowIso fs = (fs', .ok r)) :
    fs'.files = (r.path, threadbornEntryContent
        (createMetadata uuid nowIso srcSession "TTL_EXPIRE" "ThreadBorn" false {} {})
        "SANI Mode TTL Expired" ["sani:ttl"]
        (ttlAuditBody key sani laby ttlMs nowIso) nowIso) :: fs.files ∧
    fs.lookupFile r.path = none ∧
    r.path = joinPath (resolveMemoryDir wd "ThreadBorn") r.filename := by
  unfold ttlAuditWrite at h
  have hres := writeThreadbornEntry_ok h
  have htitle : (if trimStr "SANI Mode TTL Expired" ≠ "" then trimStr "SANI Mode TTL Expired"
      else "ThreadBorn Entry") = "SANI Mode TTL Expired" := by decide
  have htags : (((["sani:ttl"].filter (· ≠ "")).map trimStr).filter (· ≠ "")) =
      ["sani:ttl"] := by decide
  rw [htitle, htags] at hres
  exact hres

/-! ## C6: TTL expiry of session modes -/

/-- C6: resolveSaniModeTtlMs defaults to 720 minutes and a configured value
at most zero disables expiry; with expiry disabled a flag read returns the
stored modes and touches neither the store nor the filesystem; when either
mode is set, the last update time is present and nonzero, and now minus
that time exceeds the TTL, the read clears both modes in the store
(stamping the update time) and performs the sani:ttl ThreadBorn audit
write, returning the cleared flags only when that write succeeded (the
write happens before the return, so a failed write means the flags are
never returned); and a successful audit write creates exactly one new
ThreadBorn file whose content carries the sani:ttl tag and the audit body
recording the previous state and the TTL in minutes. -/
theorem readSaniSessionFlags_ttl_spec :
    (∀ config : Option OpenClawConfig,
      (config.bind (fun c => c.agentsDefaultsSani)).bind (fun s => s.modeTtlMinutes) = none →
      resolveSaniModeTtlMs config = some (720 * 60000)) ∧
    (∀ (config : Option OpenClawConfig) (raw : Int),
      (config.bind (fun c => c.agentsDefaultsSani)).bind (fun s => s.modeTtlMinutes) = some raw →
      raw ≤ 0 →
      resolveSaniModeTtlMs config = none) ∧
    (∀ (cfg : OpenClawConfig) (rawKey : String) (wdp : Option String) (fwd : String)
        (now : Int) (store : List (String × SessionEntry)) (entry : SessionEntry)
        (uuid nowIso : String) (fs : FS),
      trimStr rawKey ≠ "" →
      lookupSession store (trimStr rawKey) = some entry →
      resolveSaniModeTtlMs (some cfg) = none →
      readSaniSessionFlags (some cfg) (some rawKey) wdp fwd now store uuid nowIso fs =
        (fs, store, .ok { saniMode := entry.saniMode = some true,
                          labyrinthMode := entry.labyrinthMode = some true })) ∧
    (∀ (wd key : String) (sani laby : Bool) (ttlMs : Int) (srcSession uuid nowIso : String)
        (fs fs' : FS) (r : MemoryWriteResult),
      ttlAuditWrite wd key sani laby ttlMs srcSession uuid nowIso fs = (fs', .ok r) →
      fs'.files = (r.path, threadbornEntryContent
          (createMetadata uuid nowIso srcSession "TTL_EXPIRE" "ThreadBorn" false {} {})
          "SANI Mode TTL Expired" ["sani:ttl"]
          (ttlAuditBody key sani laby ttlMs nowIso) nowIso) :: fs.files ∧
        fs.lookupFile r.path = none ∧
        r.path = joinPath (resolveMemoryDir wd "ThreadBorn") r.filename) ∧
    (∀ (cfg : OpenClawConfig) (rawKey w fwd : String) (now : Int)
        (store : List (String × SessionEntry)) (entry : SessionEntry) (ttlMs last : Int)
        (uuid nowIso : String) (fs : FS),
      trimStr rawKey ≠ "" →
      lookupSession store (trimStr rawKey) = some entry →
      resolveSaniModeTtlMs (some cfg) = some ttlMs →
      (entry.saniMode = some true ∨ entry.labyrinthMode = some true) →
      entry.lastModeUpdateAt = some last →
      last ≠ 0 →
      now - last > ttlMs →
      trimStr w ≠ "" →
      readSaniSessionFlags (some cfg) (some rawKey) (some w) fwd now store uuid nowIso fs =
        ((ttlAuditWrite (trimStr w) (trimStr rawKey) (entry.saniMode = some true)
            (entry.labyrinthMode = some true) ttlMs
            (match entry.sessionId with | some sid => sid | none => trimStr rawKey)
            uuid nowIso fs).1,
         updateSessionStore store (trimStr rawKey) (fun e => clearModes e now),
         match (ttlAuditWrite (trimStr w) (trimStr rawKey) (entry.saniMode = some true)
            (entry.labyrinthMode = some true) ttlMs
            (match entry.sessionId with | some sid => sid | none => trimStr rawKey)
            uuid nowIso fs).2 with
         | .ok _ => .ok { saniMode := false, labyrinthMode := false }
         | .error e => .error e)) := by
  refine ⟨?_, ?_, ?_, ?_, ?_⟩
  · intro config h
    unfold resolveSaniModeTtlMs
    rw [h]
    rfl
  · intro config raw h hle
    unfold resolveSaniModeTtlMs
    rw [h]
    dsimp only
    rw [if_pos hle]
  · intro cfg rawKey wdp fwd now store entry uuid nowIso fs hkey hlook httl
    unfold readSaniSessionFlags
    simp only [Option.map_some', Option.getD_some]
    rw [if_neg (by simp [hkey])]
    rw [hlook]
    dsimp only
    rw [httl]
  · intro wd key sani laby ttlMs srcSession uuid nowIso fs fs' r h
    exact ttlAuditWrite_ok h
  · intro cfg rawKey w fwd now store entry ttlMs last uuid nowIso fs
      hkey hlook httl hdisj hlast hlast0 hgt hw
    unfold readSaniSessionFlags
    simp only [Option.map_some', Option.getD_some]
    rw [if_neg (by simp [hkey])]
    rw [hlook]
    dsimp only
    rw [httl]
    dsimp only
    have hsl : (decide (entry.saniMode = some true) ||
        decide (entry.labyrinthMode = some true)) = true := by
      rcases hdisj with h | h <;> simp [h]
    rw [if_pos hsl]
    rw [hlast]
    dsimp only
    have hcond : (decide (last ≠ 0) && decide (now - last > ttlMs)) = true := by
      simp [hlast0, hgt]
    rw [if_pos hcond]
    rw [if_pos hw]
    split <;> rename_i x y heq <;> rw [heq]

set_option maxRecDepth 40000 in
/-- Witness for C6 at concrete inputs: the default TTL, a nonpositive TTL
disabling expiry, a read under disabled expiry that changes nothing, a
successful audit write, and a full expiry read with TTL one minute and a
two-minute-stale session. -/
theorem readSaniSessionFlags_ttl_spec_witness :
    resolveSaniModeTtlMs none = some (720 * 60000) ∧
    resolveSaniModeTtlMs (some ⟨some ⟨none, some (-5), none⟩⟩) = none ∧
    readSaniSessionFlags (some ⟨some ⟨none, some (-5), none⟩⟩) (some "k") none "/f" 130000
      [("k", ⟨some "sid", some true, some true, some 1000, none⟩)] "u" "T" (⟨[], []⟩ : FS) =
      ((⟨[], []⟩ : FS), [("k", ⟨some "sid", some true, some true, some 1000, none⟩)],
       .ok ⟨true, true⟩) ∧
    (∃ fs' r, ttlAuditWrite "/w" "k" true true 60000 "sid" "u" "T" (⟨[], []⟩ : FS) =
        (fs', .ok r) ∧
      fs'.files = [(r.path, threadbornEntryContent
        (createMetadata "u" "T" "sid" "TTL_EXPIRE" "ThreadBorn" false {} {})
        "SANI Mode TTL Expired" ["sani:ttl"] (ttlAuditBody "k" true true 60000 "T") "T")] ∧
      r.path = joinPath (resolveMemoryDir "/w" "ThreadBorn") r.filename) ∧
    readSaniSessionFlags (some ⟨some ⟨none, some 1, none⟩⟩) (some "k") (some "/w") "/f" 130000
      [("k", ⟨some "sid", some true, some true, some 1000, none⟩)] "u" "T" (⟨[], []⟩ : FS) =
      ((ttlAuditWrite "/w" "k" true true 60000 "sid" "u" "T" (⟨[], []⟩ : FS)).1,
       [("k", ⟨some "sid", some false, some false, some 130000, none⟩)],
       .ok ⟨false, false⟩) := by
  obtain ⟨h1, h2, h3, h4, h5⟩ := readSaniSessionFlags_ttl_spec
  refine ⟨h1 none rfl, h2 _ (-5) rfl (by decide), ?_, ?_, ?_⟩
  · exact (h3 _ "k" none "/f" 130000 _ ⟨some "sid", some true, some true, some 1000, none⟩
      "u" "T" _ (by decide) (by decide) (by decide)).trans (by decide)
  · have heq : ttlAuditWrite "/w" "k" true true 60000 "sid" "u" "T" (⟨[], []⟩ : FS) =
        ((ttlAuditWrite "/w" "k" true true 60000 "sid" "u" "T" (⟨[], []⟩ : FS)).1,
         .ok ⟨"/w/memory/ThreadBorn/T-sani-mode-ttl-expired.md",
              "T-sani-mode-ttl-expired.md"⟩) := by decide
    obtain ⟨hfiles, _, hpath⟩ := h4 "/w" "k" true true 60000 "sid" "u" "T" _ _ _ heq
    exact ⟨_, _, heq, hfiles, hpath⟩
  · exact (h5 _ "k" "/w" "/f" 130000 _ ⟨some "sid", some true, some true, some 1000, none⟩
      60000 1000 "u" "T" _ (by decide) (by decide) (by decide) (by decide) rfl (by decide)
      (by decide) (by decide)).trans (by decide)

/-! ## C4: denial path of the vault_seal tool -/

theorem logVaultSealDenied_ok {workspaceDir src : String} {title : Option String}
    {append : Option Bool} {targetPath : Option String} {ssid strig uuid nowIso : String}
    {fs fs' : FS} {r : MemoryWriteResult}
    (h : logVaultSealDenied workspaceDir src title append targetPath ssid strig uuid nowIso fs =
      (fs', .ok r)) :
    fs'.files = (r.path, threadbornEntryContent
        (createMetadata uuid nowIso ssid strig "ThreadBorn" false {} {})
        "Vault Seal Denied" ["vault:denied", "admin-denied"]
        (vaultSealDeniedBody src title append targetPath ssid strig nowIso) nowIso) :: fs.files ∧
    fs.lookupFile r.path = none ∧
    r.path = joinPath (threadbornDir workspaceDir (some "admin-denied")) r.filename := by
  unfold logVaultSealDenied at h
  have hres := writeThreadbornEntry_ok h
  have htitle : (if trimStr "Vault Seal Denied" ≠ "" then trimStr "Vault Seal Denied"
      else "ThreadBorn Entry") = "Vault Seal Denied" := by decide
  have htags : ((["vault:denied", "admin-denied"].filter (· ≠ "")).map trimStr).filter (· ≠ "") =
      ["vault:denied", "admin-denied"] := by decide
  rw [htitle, htags] at hres
  exact hres

/-- C4: with sealing disabled, the vault_seal execute path always raises
the SealingDisabled error carrying the message that names both enabling
mechanisms, and the filesystem it leaves behind is exactly the one the
denial audit write produced, whether or not that write succeeded — so an
audit failure can neither mask nor replace the error. When the audit write
succeeds it creates exactly one new ThreadBorn file, under the admin-denied
subfolder of memory/ThreadBorn, tagged vault:denied and admin-denied and
describing the denied request. -/
theorem vaultSealExecute_disabled_spec :
    (∀ (workspaceDir : String) (config : Option OpenClawConfig) (sessionKey : Option String)
        (envSealing : Option String) (store : List (String × SessionEntry))
        (params : VaultSealParams) (uuid nowIso : String) (fs : FS)
        (src ssid strig : String),
      trimStr workspaceDir ≠ "" →
      params.source_file = some src →
      params.source_session_id = some ssid →
      params.source_trigger = some strig →
      resolveSaniVaultSealingEnabled config envSealing = false →
      vaultSealExecute workspaceDir config sessionKey envSealing store params uuid nowIso fs =
        ((logVaultSealDenied workspaceDir src (orUndefined params.title) params.append
            (orUndefined params.target_file) ssid strig uuid nowIso fs).1,
         .error (.sealingDisabled vaultSealDisabledMsg))) ∧
    strContains vaultSealDisabledMsg "SANI_VAULT_SEALING_ENABLED" = true ∧
    strContains vaultSealDisabledMsg "agents.defaults.sani.vaultSealingEnabled" = true ∧
    (∀ (workspaceDir src : String) (title : Option String) (append : Option Bool)
        (targetPath : Option String) (ssid strig uuid nowIso : String) (fs fs' : FS)
        (r : MemoryWriteResult),
      logVaultSealDenied workspaceDir src title append targetPath ssid strig uuid nowIso fs =
        (fs', .ok r) →
      fs'.files = (r.path, threadbornEntryContent
          (createMetadata uuid nowIso ssid strig "ThreadBorn" false {} {})
          "Vault Seal Denied" ["vault:denied", "admin-denied"]
          (vaultSealDeniedBody src title append targetPath ssid strig nowIso) nowIso)
        :: fs.files ∧
      fs.lookupFile r.path = none ∧
      r.path = joinPath (threadbornDir workspaceDir (some "admin-denied")) r.filename) := by
  refine ⟨?_, by decide, by decide, fun _ _ _ _ _ _ _ _ _ _ _ _ h => logVaultSealDenied_ok h⟩
  intro workspaceDir config sessionKey envSealing store params uuid nowIso fs src ssid strig
    hws hsrc hssid hstrig hdis
  unfold vaultSealExecute
  rw [if_neg hws]
  rw [hsrc]
  dsimp only [readStringParamRequired]
  rw [hssid]
  dsimp only [readStringParamRequired]
  rw [hstrig]
  dsimp only [readStringParamRequired]
  rw [hdis]
  rfl

set_option maxRecDepth 40000 in
/-- Witness for C4 at concrete inputs: a denial with no configuration and
no runtime toggle, and the audit entry it writes. -/
theorem vaultSealExecute_disabled_spec_witness :
    vaultSealExecute "/w" none none none []
      ⟨some "memory/ThreadBorn/a.md", none, some "s", some "t", none, none⟩ "u" "T"
      (⟨[], []⟩ : FS) =
      ((logVaultSealDenied "/w" "memory/ThreadBorn/a.md" none none none "s" "t" "u" "T"
          (⟨[], []⟩ : FS)).1,
       .error (.sealingDisabled vaultSealDisabledMsg)) ∧
    (∃ fs' r, logVaultSealDenied "/w" "memory/ThreadBorn/a.md" none none none "s" "t" "u" "T"
        (⟨[], []⟩ : FS) = (fs', .ok r) ∧
      fs'.files = [(r.path, threadbornEntryContent
        (createMetadata "u" "T" "s" "t" "ThreadBorn" false {} {})
        "Vault Seal Denied" ["vault:denied", "admin-denied"]
        (vaultSealDeniedBody "memory/ThreadBorn/a.md" none none none "s" "t" "T") "T")] ∧
      r.path = joinPath (threadbornDir "/w" (some "admin-denied")) r.filename) := by
  obtain ⟨h1, _, _, h4⟩ := vaultSealExecute_disabled_spec
  refine ⟨h1 "/w" none none none []
    ⟨some "memory/ThreadBorn/a.md", none, some "s", some "t", none, none⟩ "u" "T"
    (⟨[], []⟩ : FS) "memory/ThreadBorn/a.md" "s" "t" (by decide) rfl rfl rfl rfl, ?_⟩
  have heq : logVaultSealDenied "/w" "memory/ThreadBorn/a.md" none none none "s" "t" "u" "T"
      (⟨[], []⟩ : FS) =
      ((logVaultSealDenied "/w" "memory/ThreadBorn/a.md" none none none "s" "t" "u" "T"
          (⟨[], []⟩ : FS)).1,
       .ok ⟨"/w/memory/ThreadBorn/admin-denied/T-vault-seal-denied.md",
            "T-vault-seal-denied.md"⟩) := by decide
  obtain ⟨hfiles, _, hpath⟩ := h4 "/w" "memory/ThreadBorn/a.md" none none none "s" "t" "u" "T"
    _ _ _ heq
  exact ⟨_, _, heq, hfiles, hpath⟩

/-! ## Path model lemmas -/

theorem splitCharList_ne_nil (sep : Char) : ∀ l : List Char, splitCharList sep l ≠ [] := by
  intro l
  induction l with
  | nil => simp [splitCharList]
  | cons c rest ih =>
    unfold splitCharList
    by_cases h : c = sep
    · simp [h]
    · rw [if_neg h]
      rcases hs : splitCharList sep rest with _ | ⟨p, m⟩
      · exact absurd hs ih
      · simp

theorem splitCharList_cons_sep (sep : Char) (rest : List Char) :
    splitCharList sep (sep :: rest) = [] :: splitCharList sep rest := by
  conv_lhs => unfold splitCharList
  rw [if_pos rfl]

theorem splitCharList_cons_ne {sep c : Char} (h : c ≠ sep) (rest : List Char) {p : List Char}
    {m : List (List Char)} (hs : splitCharList sep rest = p :: m) :
    splitCharList sep (c :: rest) = (c :: p) :: m := by
  unfold splitCharList
  rw [if_neg h, hs]

theorem splitCharList_append_sep (sep : Char) :
    ∀ (xs ys : List Char),
      splitCharList sep (xs ++ sep :: ys) = splitCharList sep xs ++ splitCharList sep ys := by
  intro xs
  induction xs with
  | nil =>
    intro ys
    rw [List.nil_append, splitCharList_cons_sep]
    rfl
  | cons c rest ih =>
    intro ys
    rcases hs : splitCharList sep rest with _ | ⟨p, m⟩
    · exact absurd hs (splitCharList_ne_nil sep rest)
    · by_cases h : c = sep
      · subst h
        rw [List.cons_append, splitCharList_cons_sep, splitCharList_cons_sep, ih]
        rfl
      · have hs2 : splitCharList sep (rest ++ sep :: ys) = p :: (m ++ splitCharList sep ys) := by
          rw [ih, hs]
          rfl
        rw [List.cons_append, splitCharList_cons_ne h _ hs2, splitCharList_cons_ne h _ hs]
        rfl

theorem splitCharList_no_sep (sep : Char) :
    ∀ l : List Char, sep ∉ l → splitCharList sep l = [l] := by
  intro l
  induction l with
  | nil => intro _; rfl
  | cons c rest ih =>
    intro h
    have hc : c ≠ sep := by
      intro hc
      exact h (hc ▸ List.mem_cons_self c rest)
    have hr := ih (fun hm => h (List.mem_cons_of_mem c hm))
    rw [splitCharList_cons_ne hc rest hr]

theorem splitCharList_mem_no_sep (sep : Char) :
    ∀ (l : List Char) (p : List Char), p ∈ splitCharList sep l → sep ∉ p := by
  intro l
  induction l with
  | nil =>
    intro p hp
    simp [splitCharList] at hp
    simp [hp]
  | cons c rest ih =>
    intro p hp
    by_cases h : c = sep
    · subst h
      rw [splitCharList_cons_sep] at hp
      rcases List.mem_cons.mp hp with h1 | h1
      · simp [h1]
      · exact ih p h1
    · rcases hs : splitCharList sep rest with _ | ⟨q, m⟩
      · exact absurd hs (splitCharList_ne_nil sep rest)
      · rw [splitCharList_cons_ne h rest hs] at hp
        rcases List.mem_cons.mp hp with h1 | h1
        · subst h1
          intro hmem
          rcases List.mem_cons.mp hmem with h2 | h2
          · exact h h2.symm
          · exact ih q (hs ▸ List.mem_cons_self q m) h2
        · exact ih p (hs ▸ List.mem_cons_of_mem q h1)

theorem strMk_data (s : String) : String.mk s.data = s := by
  cases s
  rfl

theorem strEmpty_append (s : String) : "" ++ s = s := by
  apply strEq_iff_data.mpr
  rw [strData_append]
  rfl

theorem splitSlash_append_sep (a b : String) :
    splitSlash (a ++ "/" ++ b) = splitSlash a ++ splitSlash b := by
  unfold splitSlash
  have hdata : (a ++ "/" ++ b).data = a.data ++ '/' :: b.data := by
    rw [strData_append, strData_append]
    simp
  rw [hdata, splitCharList_append_sep, List.map_append]

theorem splitSlash_no_slash {s : String} (h : '/' ∉ s.data) : splitSlash s = [s] := by
  unfold splitSlash
  rw [splitCharList_no_sep '/' s.data h]
  simp [strMk_data]

theorem splitSlash_mem_no_slash {s x : String} (h : x ∈ splitSlash s) : '/' ∉ x.data := by
  unfold splitSlash at h
  obtain ⟨p, hp, hpx⟩ := List.mem_map.mp h
  have := splitCharList_mem_no_sep '/' s.data p hp
  rw [← hpx]
  exact this

theorem joinComps_splitSlash :
    ∀ l : List String, l ≠ [] → (∀ x ∈ l, '/' ∉ x.data) → splitSlash (joinComps l) = l := by
  intro l
  induction l with
  | nil => intro h _; exact absurd rfl h
  | cons x rest ih =>
    intro _ hclean
    cases rest with
    | nil => exact splitSlash_no_slash (hclean x (List.mem_cons_self x []))
    | cons y ys =>
      show splitSlash (x ++ "/" ++ joinComps (y :: ys)) = _
      rw [splitSlash_append_sep]
      rw [splitSlash_no_slash (hclean x (List.mem_cons_self x (y :: ys)))]
      rw [ih (by simp) (fun z hz => hclean z (List.mem_cons_of_mem x hz))]
      rfl

theorem splitSlash_absString {l : List String} (hne : l ≠ [])
    (hclean : ∀ x ∈ l, '/' ∉ x.data) : splitSlash (absString l) = "" :: l := by
  unfold absString
  have : ("/" : String) ++ joinComps l = "" ++ "/" ++ joinComps l := by
    rw [strEmpty_append]
  rw [this, splitSlash_append_sep]
  rw [joinComps_splitSlash l hne hclean]
  rfl

theorem normAbsGo_clean :
    ∀ (l : List String) (acc : List String),
      (∀ c ∈ l, c ≠ "" ∧ c ≠ "." ∧ c ≠ "..") → normAbsGo acc l = acc.reverse ++ l := by
  intro l
  induction l with
  | nil => intro acc _; simp [normAbsGo]
  | cons c rest ih =>
    intro acc h
    obtain ⟨h1, h2, h3⟩ := h c (List.mem_cons_self c rest)
    unfold normAbsGo
    rw [if_neg (by simp [h1, h2])]
    rw [if_neg h3]
    rw [ih (c :: acc) (fun x hx => h x (List.mem_cons_of_mem c hx))]
    simp

theorem normAbsGo_mem :
    ∀ (l acc : List String) (x : String), x ∈ normAbsGo acc l →
      x ∈ acc ∨ (x ∈ l ∧ x ≠ "" ∧ x ≠ "." ∧ x ≠ "..") := by
  intro l
  induction l with
  | nil =>
    intro acc x hx
    simp only [normAbsGo] at hx
    exact Or.inl (List.mem_reverse.mp hx)
  | cons c rest ih =>
    intro acc x hx
    unfold normAbsGo at hx
    by_cases h1 : c = "" ∨ c = "."
    · rw [if_pos (by rcases h1 with h | h <;> simp [h])] at hx
      rcases ih acc x hx with h | h
      · exact Or.inl h
      · exact Or.inr ⟨List.mem_cons_of_mem c h.1, h.2⟩
    · rw [if_neg (by push_neg at h1; simp [h1.1, h1.2])] at hx
      by_cases h2 : c = ".."
      · rw [if_pos h2] at hx
        cases acc with
        | nil =>
          rcases ih [] x hx with h | h
          · exact absurd h (List.not_mem_nil x)
          · exact Or.inr ⟨List.mem_cons_of_mem c h.1, h.2⟩
        | cons a as =>
          rcases ih as x hx with h | h
          · exact Or.inl (List.mem_cons_of_mem a h)
          · exact Or.inr ⟨List.mem_cons_of_mem c h.1, h.2⟩
      · rw [if_neg h2] at hx
        rcases ih (c :: acc) x hx with h | h
        · rcases List.mem_cons.mp h with h | h
          · push_neg at h1
            exact Or.inr ⟨h ▸ List.mem_cons_self c rest, h ▸ h1.1, h ▸ h1.2, h ▸ h2⟩
          · exact Or.inl h
        · exact Or.inr ⟨List.mem_cons_of_mem c h.1, h.2⟩

theorem normAbsComps_mem {l : List String} {x : String} (hx : x ∈ normAbsComps l) :
    x ∈ l ∧ x ≠ "" ∧ x ≠ "." ∧ x ≠ ".." := by
  rcases normAbsGo_mem l [] x hx with h | h
  · exact absurd h (List.not_mem_nil x)
  · exact h

theorem pathCompsOf_clean {s x : String} (hx : x ∈ pathCompsOf s) : cleanComp x := by
  obtain ⟨hmem, h1, h2, h3⟩ := normAbsComps_mem hx
  exact ⟨h1, h2, h3, splitSlash_mem_no_slash hmem⟩

theorem pathCompsOf_absString {l : List String} (hclean : ∀ x ∈ l, cleanComp x) :
    pathCompsOf (absString l) = l := by
  cases l with
  | nil => decide
  | cons c rest =>
    unfold pathCompsOf
    rw [splitSlash_absString (by simp) (fun x hx => (hclean x hx).2.2.2)]
    unfold normAbsComps
    show normAbsGo [] ("" :: c :: rest) = c :: rest
    unfold normAbsGo
    rw [if_pos (by simp)]
    exact normAbsGo_clean (c :: rest) []
      (fun x hx => ⟨(hclean x hx).1, (hclean x hx).2.1, (hclean x hx).2.2.1⟩)

/-! ## Common prefix lemmas -/

theorem commonPrefixLen_le_left : ∀ (a b : List String), commonPrefixLen a b ≤ a.length := by
  intro a
  induction a with
  | nil => intro b; cases b <;> simp [commonPrefixLen]
  | cons x xs ih =>
    intro b
    cases b with
    | nil => simp [commonPrefixLen]
    | cons y ys =>
      unfold commonPrefixLen
      by_cases h : x = y
      · rw [if_pos h]
        have := ih ys
        simp only [List.length_cons]
        omega
      · rw [if_neg h]
        simp

theorem commonPrefixLen_full :
    ∀ (a b : List String), commonPrefixLen a b = a.length → ∃ s, b = a ++ s := by
  intro a
  induction a with
  | nil => intro b _; exact ⟨b, rfl⟩
  | cons x xs ih =>
    intro b h
    cases b with
    | nil => simp [commonPrefixLen] at h
    | cons y ys =>
      unfold commonPrefixLen at h
      by_cases hxy : x = y
      · rw [if_pos hxy] at h
        simp only [List.length_cons] at h
        have hxs : commonPrefixLen xs ys = xs.length := by omega
        obtain ⟨s, hs⟩ := ih ys hxs
        exact ⟨s, by rw [hs, hxy]; rfl⟩
      · rw [if_neg hxy] at h
        simp at h

theorem commonPrefixLen_cons_eq (x : String) (xs ys : List String) :
    commonPrefixLen (x :: xs) (x :: ys) = commonPrefixLen xs ys + 1 := by
  conv_lhs => unfold commonPrefixLen
  rw [if_pos rfl]

theorem commonPrefixLen_append :
    ∀ (a b c : List String),
      commonPrefixLen (a ++ b) (a ++ c) = a.length + commonPrefixLen b c := by
  intro a
  induction a with
  | nil => intro b c; simp
  | cons x xs ih =>
    intro b c
    rw [List.cons_append, List.cons_append, commonPrefixLen_cons_eq, ih]
    simp only [List.length_cons]
    omega

theorem joinComps_dotdot_head (xs : List String) :
    strStartsWith (joinComps (".." :: xs)) ".." = true := by
  cases xs with
  | nil => decide
  | cons y ys =>
    show strStartsWith (".." ++ "/" ++ joinComps (y :: ys)) ".." = true
    unfold strStartsWith
    rw [strData_append, strData_append]
    simp [List.isPrefixOf]

/-! ## Core sandbox escape lemmas -/

theorem relativePath_nonescape_strict {f t : String}
    (h1 : relativePath f t ≠ "") (h2 : strStartsWith (relativePath f t) ".." = false) :
    strictlyInside f t := by
  unfold relativePath at h1 h2
  dsimp only at h1 h2
  by_cases hk : (pathCompsOf f).length - commonPrefixLen (pathCompsOf f) (pathCompsOf t) = 0
  · rw [hk] at h1 h2
    have hle := commonPrefixLen_le_left (pathCompsOf f) (pathCompsOf t)
    have hceq : commonPrefixLen (pathCompsOf f) (pathCompsOf t) = (pathCompsOf f).length := by
      omega
    obtain ⟨s, hs⟩ := commonPrefixLen_full _ _ hceq
    refine ⟨s, ?_, hs⟩
    intro hsnil
    apply h1
    rw [hceq, hs, hsnil]
    simp [joinComps]
  · have hpos : 0 < (pathCompsOf f).length - commonPrefixLen (pathCompsOf f) (pathCompsOf t) := by
      omega
    obtain ⟨k, hkeq⟩ : ∃ k, (pathCompsOf f).length -
        commonPrefixLen (pathCompsOf f) (pathCompsOf t) = k + 1 :=
      ⟨(pathCompsOf f).length - commonPrefixLen (pathCompsOf f) (pathCompsOf t) - 1, by omega⟩
    rw [hkeq] at h2
    rw [List.replicate_succ, List.cons_append] at h2
    rw [joinComps_dotdot_head] at h2
    exact absurd h2 (by simp)

theorem resolveWorkspacePath_escape {root rel : String}
    (h : ¬ strictlyInside root (resolvePath root rel)) :
    resolveWorkspacePath root rel = .error (.pathEscape rel) := by
  unfold resolveWorkspacePath
  by_cases hcond : (relativePath root (resolvePath root rel) = "" ||
      strStartsWith (relativePath root (resolvePath root rel)) ".." ||
      isAbsolutePath (relativePath root (resolvePath root rel))) = true
  · rw [if_pos hcond]
  · exfalso
    simp only [Bool.or_eq_true, decide_eq_true_eq] at hcond
    push_neg at hcond
    obtain ⟨hne, hstart⟩ := hcond
    exact h (relativePath_nonescape_strict hne.1 (Bool.eq_false_iff.mpr hne.2))

theorem isPathWithin_strict {parent p : String} (h : isPathWithin parent p = true) :
    strictlyInside parent p := by
  unfold isPathWithin at h
  simp only [Bool.and_eq_true, Bool.not_eq_true', decide_eq_true_eq] at h
  exact relativePath_nonescape_strict h.1.1 h.1.2

/-- C2: whenever resolving a relative path against the workspace root does
not land strictly inside that root (landing on the root itself included),
resolveWorkspacePath fails with PathEscape carrying that relative path; the
writers that resolve it as their source (writeBridgeThreadEntry,
writeVaultEntry) then return exactly that error with the filesystem
untouched, and a vault append naming such a path as its target also returns
an error with the filesystem untouched. -/
theorem resolveWorkspacePath_pathEscape_spec (workspaceDir rel : String)
    (h : ¬ strictlyInside workspaceDir (resolvePath workspaceDir rel)) :
    resolveWorkspacePath workspaceDir rel = .error (.pathEscape rel) ∧
    (∀ title sourceSessionId sourceTrigger uuid nowIso fs,
      writeBridgeThreadEntry workspaceDir rel title sourceSessionId sourceTrigger uuid nowIso fs =
        (fs, .error (.pathEscape rel))) ∧
    (∀ title sourceSessionId sourceTrigger append targetPath uuid nowIso fs,
      writeVaultEntry workspaceDir rel title sourceSessionId sourceTrigger append targetPath
        uuid nowIso fs = (fs, .error (.pathEscape rel))) ∧
    (∀ src title sourceSessionId sourceTrigger uuid nowIso fs, ∃ e,
      writeVaultEntry workspaceDir src title sourceSessionId sourceTrigger (some true) (some rel)
        uuid nowIso fs = (fs, .error e)) := by
  have hres := resolveWorkspacePath_escape h
  have hallowed : resolveAllowedMemorySourcePath workspaceDir rel = .error (.pathEscape rel) := by
    unfold resolveAllowedMemorySourcePath
    rw [hres]
  refine ⟨hres, ?_, ?_, ?_⟩
  · intro title sid st uuid now fs
    unfold writeBridgeThreadEntry
    rw [hallowed]
  · intro title sid st append target uuid now fs
    unfold writeVaultEntry
    rw [hallowed]
  · intro src title sid st uuid now fs
    unfold writeVaultEntry
    cases hsrc : resolveAllowedMemorySourcePath workspaceDir src with
    | error e => exact ⟨e, rfl⟩
    | ok resolvedSource =>
      dsimp only
      cases hread : fs.readFileFs resolvedSource with
      | error e => exact ⟨e, rfl⟩
      | ok sourceContent =>
        dsimp only
        rw [if_pos rfl]
        cases hob : optStringTruthy (some rel) with
        | false =>
          exact ⟨.appendRequiresTarget, rfl⟩
        | true =>
          simp only [Option.getD]
          rw [hres]
          exact ⟨.pathEscape rel, rfl⟩

theorem resolveWorkspacePath_pathEscape_spec_witness :
    (¬ strictlyInside "/ws" (resolvePath "/ws" "../evil")) ∧
    resolveWorkspacePath "/ws" "../evil" = .error (.pathEscape "../evil") ∧
    writeBridgeThreadEntry "/ws" "../evil" none "sid" "trig" "u1"
        "2025-01-01T00:00:00.000Z" ⟨[], []⟩ = (⟨[], []⟩, .error (.pathEscape "../evil")) ∧
    writeVaultEntry "/ws" "../evil" none "sid" "trig" none none "u1"
        "2025-01-01T00:00:00.000Z" ⟨[], []⟩ = (⟨[], []⟩, .error (.pathEscape "../evil")) := by
  have h := resolveWorkspacePath_pathEscape_spec "/ws" "../evil" (by decide)
  exact ⟨by decide, h.1,
    h.2.1 none "sid" "trig" "u1" "2025-01-01T00:00:00.000Z" ⟨[], []⟩,
    h.2.2.1 none "sid" "trig" none none "u1" "2025-01-01T00:00:00.000Z" ⟨[], []⟩⟩

/-! ## The memory directory layout -/

theorem normAbsGo_append_clean :
    ∀ (xs acc ys : List String), (∀ c ∈ ys, c ≠ "" ∧ c ≠ "." ∧ c ≠ "..") →
      normAbsGo acc (xs ++ ys) = normAbsGo acc xs ++ ys := by
  intro xs
  induction xs with
  | nil =>
    intro acc ys h
    rw [List.nil_append, normAbsGo_clean ys acc h]
    simp [normAbsGo]
  | cons c rest ih =>
    intro acc ys h
    rw [List.cons_append]
    unfold normAbsGo
    by_cases h1 : (c = "" || c = ".") = true
    · rw [if_pos h1, if_pos h1]
      exact ih acc ys h
    · rw [if_neg h1, if_neg h1]
      by_cases h2 : c = ".."
      · rw [if_pos h2, if_pos h2]
        cases acc with
        | nil => exact ih [] ys h
        | cons a as => exact ih as ys h
      · rw [if_neg h2, if_neg h2]
        exact ih (c :: acc) ys h

theorem pathCompsOf_resolveMemoryDir (W d : String) (hd : '/' ∉ d.data)
    (h1 : d ≠ "") (h2 : d ≠ ".") (h3 : d ≠ "..") :
    pathCompsOf (resolveMemoryDir W d) = pathCompsOf W ++ ["memory", d] := by
  unfold resolveMemoryDir joinPath pathCompsOf
  rw [splitSlash_append_sep, splitSlash_append_sep, splitSlash_no_slash hd]
  have hm : splitSlash "memory" = ["memory"] := rfl
  rw [hm]
  unfold normAbsComps
  rw [List.append_assoc]
  rw [normAbsGo_append_clean (splitSlash W) [] (["memory"] ++ [d]) ?_]
  · rfl
  · intro c hc
    rcases List.mem_append.mp hc with h | h
    · simp only [List.mem_singleton] at h
      subst h
      refine ⟨by decide, by decide, by decide⟩
    · simp only [List.mem_singleton] at h
      subst h
      exact ⟨h1, h2, h3⟩

theorem isPathWithin_memDir_of_inVault {W cand d : String} (hd : '/' ∉ d.data)
    (h1 : d ≠ "") (h2 : d ≠ ".") (h3 : d ≠ "..") (hne : d ≠ "Vault")
    (hV : strictlyInside (resolveVaultDir W) cand) :
    isPathWithin (resolveMemoryDir W d) cand = false := by
  cases hb : isPathWithin (resolveMemoryDir W d) cand with
  | false => rfl
  | true =>
    exfalso
    obtain ⟨s, _, hs⟩ := isPathWithin_strict hb
    obtain ⟨t, _, ht⟩ := hV
    rw [pathCompsOf_resolveMemoryDir W d hd h1 h2 h3] at hs
    rw [show resolveVaultDir W = resolveMemoryDir W "Vault" from rfl,
      pathCompsOf_resolveMemoryDir W "Vault" (by decide) (by decide) (by decide) (by decide)] at ht
    rw [hs, List.append_assoc, List.append_assoc] at ht
    have := List.append_cancel_left ht
    simp only [List.cons_append, List.cons.injEq] at this
    exact hne this.2.1

theorem resolveAllowedMemorySourcePath_vault_rejected {W src : String}
    (hV : strictlyInside (resolveVaultDir W) (resolvePath W src)) :
    resolveAllowedMemorySourcePath W src = .error (.pathEscape src) ∨
    resolveAllowedMemorySourcePath W src = .error .disallowedSource := by
  unfold resolveAllowedMemorySourcePath
  cases hr : resolveWorkspacePath W src with
  | error e =>
    left
    unfold resolveWorkspacePath at hr
    dsimp only at hr
    split at hr
    · cases hr; rfl
    · cases hr
  | ok resolved =>
    right
    have hres : resolved = resolvePath W src := by
      unfold resolveWorkspacePath at hr
      dsimp only at hr
      split at hr
      · cases hr
      · cases hr; rfl
    subst hres
    have hTB := isPathWithin_memDir_of_inVault (W := W) (d := "ThreadBorn")
      (by decide) (by decide) (by decide) (by decide) (by decide) hV
    have hBT := isPathWithin_memDir_of_inVault (W := W) (d := "BridgeThread")
      (by decide) (by decide) (by decide) (by decide) (by decide) hV
    have hLB := isPathWithin_memDir_of_inVault (W := W) (d := "Labyrinth")
      (by decide) (by decide) (by decide) (by decide) (by decide) hV
    dsimp only
    rw [if_neg (by simp [MEMORY_SOURCE_DIRS, hTB, hBT, hLB])]

/-- C3: writeVaultEntry enforces its two mutually exclusive modes. In
append mode a missing target path fails with the filesystem untouched, and
an append can only succeed when a target path was supplied, it resolved
strictly inside the Vault directory and already existed as a file, in which
case the sole mutation is appending the vault append block to that file.
Outside append mode a supplied target path fails with the filesystem
untouched (exactly the parameter-misuse error once the source resolved and
was read), otherwise the write seals a brand-new Vault entry whose metadata
has sealed true and a sealed_from_id provenance link copied from the
decoded source metadata; a source strictly inside the Vault is always
rejected (by the sandbox or the allowed-source check) with the filesystem
untouched. -/
theorem writeVaultEntry_modes_spec (workspaceDir sourcePath : String) (title : Option String)
    (sid st : String) (append : Option Bool) (targetPath : Option String)
    (uuid nowIso : String) (fs : FS) :
    (append = some true → optStringTruthy targetPath = false →
      ∃ e, writeVaultEntry workspaceDir sourcePath title sid st append targetPath uuid nowIso fs =
        (fs, .error e)) ∧
    (∀ fs' r, append = some true →
      writeVaultEntry workspaceDir sourcePath title sid st append targetPath uuid nowIso fs =
        (fs', .ok r) →
      optStringTruthy targetPath = true ∧
      resolveWorkspacePath workspaceDir (targetPath.getD "") = .ok r.path ∧
      strictlyInside (resolveVaultDir workspaceDir) r.path ∧
      r.filename = basenamePath r.path ∧
      ∃ resolvedSource sourceContent old,
        resolveAllowedMemorySourcePath workspaceDir sourcePath = .ok resolvedSource ∧
        fs.readFileFs resolvedSource = .ok sourceContent ∧
        fs.lookupFile r.path = some old ∧
        fs'.files = updateFileList fs.files r.path (old ++
          vaultAppendBlock workspaceDir resolvedSource nowIso
            (parseFrontMatter sourceContent).body) ∧
        fs'.dirs = fs.dirs) ∧
    (append ≠ some true → optStringTruthy targetPath = true →
      (∃ e, writeVaultEntry workspaceDir sourcePath title sid st append targetPath uuid nowIso
        fs = (fs, .error e)) ∧
      (∀ resolvedSource sourceContent,
        resolveAllowedMemorySourcePath workspaceDir sourcePath = .ok resolvedSource →
        fs.readFileFs resolvedSource = .ok sourceContent →
        writeVaultEntry workspaceDir sourcePath title sid st append targetPath uuid nowIso fs =
          (fs, .error .targetOnlyWithAppend))) ∧
    (append ≠ some true → optStringTruthy targetPath = false →
      ∀ resolvedSource sourceContent,
        resolveAllowedMemorySourcePath workspaceDir sourcePath = .ok resolvedSource →
        fs.readFileFs resolvedSource = .ok sourceContent →
        writeVaultEntry workspaceDir sourcePath title sid st append targetPath uuid nowIso fs =
          writeUniqueFile (resolveMemoryDir workspaceDir "Vault")
            (timestampSlug nowIso ++ "-" ++
              toSafeSlug (orElseStr title (basenamePath resolvedSource)))
            (vaultSealContent workspaceDir resolvedSource
              (orElseStr title (basenamePath resolvedSource)) nowIso
              (createMetadata uuid nowIso sid st "Vault" true {}
                (parseFrontMatter sourceContent).metadata)
              (parseFrontMatter sourceContent).body)
            true fs ∧
        (createMetadata uuid nowIso sid st "Vault" true {}
            (parseFrontMatter sourceContent).metadata).sealed = true ∧
        (createMetadata uuid nowIso sid st "Vault" true {}
            (parseFrontMatter sourceContent).metadata).sealed_from_id =
          mValueString (parseFrontMatter sourceContent).metadata.id ∧
        (∀ fs' r, writeVaultEntry workspaceDir sourcePath title sid st append targetPath
            uuid nowIso fs = (fs', .ok r) →
          fs.lookupFile r.path = none ∧
          r.path = joinPath (resolveMemoryDir workspaceDir "Vault") r.filename ∧
          fs'.files = (r.path, vaultSealContent workspaceDir resolvedSource
            (orElseStr title (basenamePath resolvedSource)) nowIso
            (createMetadata uuid nowIso sid st "Vault" true {}
              (parseFrontMatter sourceContent).metadata)
            (parseFrontMatter sourceContent).body) :: fs.files)) ∧
    (strictlyInside (resolveVaultDir workspaceDir) (resolvePath workspaceDir sourcePath) →
      ∃ e, writeVaultEntry workspaceDir sourcePath title sid st append targetPath uuid nowIso
        fs = (fs, .error e) ∧ (e = .pathEscape sourcePath ∨ e = .disallowedSource)) := by
  refine ⟨?_, ?_, ?_, ?_, ?_⟩
  · intro happ hob
    subst happ
    unfold writeVaultEntry
    cases hsrc : resolveAllowedMemorySourcePath workspaceDir sourcePath with
    | error e => exact ⟨e, rfl⟩
    | ok resolvedSource =>
      dsimp only
      cases hread : fs.readFileFs resolvedSource with
      | error e => exact ⟨e, rfl⟩
      | ok sourceContent =>
        dsimp only
        rw [if_pos rfl, hob]
        exact ⟨.appendRequiresTarget, rfl⟩
  · intro fs' r happ heq
    subst happ
    unfold writeVaultEntry at heq
    cases hsrc : resolveAllowedMemorySourcePath workspaceDir sourcePath with
    | error e =>
      rw [hsrc] at heq
      have heq2 : (fs, (Except.error e : Except MemErr MemoryWriteResult)) = (fs', .ok r) := heq
      exact absurd heq2 (by simp)
    | ok resolvedSource =>
      rw [hsrc] at heq
      dsimp only at heq
      cases hread : fs.readFileFs resolvedSource with
      | error e =>
        rw [hread] at heq
        have heq2 : (fs, (Except.error e : Except MemErr MemoryWriteResult)) = (fs', .ok r) := heq
        exact absurd heq2 (by simp)
      | ok sourceContent =>
        rw [hread] at heq
        dsimp only at heq
        rw [if_pos rfl] at heq
        cases hob : optStringTruthy targetPath with
        | false =>
          rw [hob] at heq
          have heq2 : (fs, (Except.error MemErr.appendRequiresTarget :
              Except MemErr MemoryWriteResult)) = (fs', .ok r) := heq
          exact absurd heq2 (by simp)
        | true =>
          rw [hob] at heq
          cases hrt : resolveWorkspacePath workspaceDir (targetPath.getD "") with
          | error e =>
            rw [hrt] at heq
            have heq2 : (fs, (Except.error e : Except MemErr MemoryWriteResult)) =
              (fs', .ok r) := heq
            exact absurd heq2 (by simp)
          | ok resolvedTarget =>
            rw [hrt] at heq
            dsimp only at heq
            cases hwithin : isPathWithin (resolveMemoryDir workspaceDir "Vault")
                resolvedTarget with
            | false =>
              rw [hwithin] at heq
              have heq2 : (fs, (Except.error MemErr.appendTargetOutsideVault :
                  Except MemErr MemoryWriteResult)) = (fs', .ok r) := heq
              exact absurd heq2 (by simp)
            | true =>
              rw [hwithin] at heq
              cases hacc : fs.accessFs resolvedTarget with
              | error e =>
                rw [hacc] at heq
                have heq2 : (fs, (Except.error MemErr.appendTargetMissing :
                    Except MemErr MemoryWriteResult)) = (fs', .ok r) := heq
                exact absurd heq2 (by simp)
              | ok u =>
                cases u
                rw [hacc] at heq
                dsimp only at heq
                unfold FS.appendFileFs at heq
                cases hdir : fs.isDir resolvedTarget with
                | true =>
                  rw [hdir] at heq
                  have heq2 : (fs, (Except.error (MemErr.ioError "EISDIR") :
                      Except MemErr MemoryWriteResult)) = (fs', .ok r) := heq
                  exact absurd heq2 (by simp)
                | false =>
                  rw [hdir] at heq
                  cases hlk : fs.lookupFile resolvedTarget with
                  | none =>
                    exfalso
                    unfold FS.accessFs FS.existsPath at hacc
                    rw [hlk, hdir] at hacc
                    simp at hacc
                  | some old =>
                    rw [hlk] at heq
                    have heq2 : ((FS.mk (updateFileList fs.files resolvedTarget
                          (old ++ vaultAppendBlock workspaceDir resolvedSource nowIso
                            (parseFrontMatter sourceContent).body)) fs.dirs),
                        (Except.ok (MemoryWriteResult.mk resolvedTarget
                          (basenamePath resolvedTarget)) :
                          Except MemErr MemoryWriteResult)) = (fs', .ok r) := heq
                    have hfs : (FS.mk (updateFileList fs.files resolvedTarget
                        (old ++ vaultAppendBlock workspaceDir resolvedSource nowIso
                          (parseFrontMatter sourceContent).body)) fs.dirs) = fs' :=
                      congrArg Prod.fst heq2
                    have hr2 : (Except.ok (MemoryWriteResult.mk resolvedTarget
                        (basenamePath resolvedTarget)) :
                        Except MemErr MemoryWriteResult) = .ok r := congrArg Prod.snd heq2
                    injection hr2 with hr3
                    subst hr3
                    refine ⟨rfl, rfl, isPathWithin_strict hwithin, rfl,
                      resolvedSource, sourceContent, old, rfl, hread, hlk, ?_, ?_⟩
                    · rw [← hfs]
                    · rw [← hfs]
  · intro happ hob
    constructor
    · unfold writeVaultEntry
      cases hsrc : resolveAllowedMemorySourcePath workspaceDir sourcePath with
      | error e => exact ⟨e, rfl⟩
      | ok resolvedSource =>
        dsimp only
        cases hread : fs.readFileFs resolvedSource with
        | error e => exact ⟨e, rfl⟩
        | ok sourceContent =>
          dsimp only
          rw [if_neg happ, hob]
          exact ⟨.targetOnlyWithAppend, rfl⟩
    · intro resolvedSource sourceContent hsrc hread
      unfold writeVaultEntry
      rw [hsrc]
      dsimp only
      rw [hread]
      dsimp only
      rw [if_neg happ, hob]
      rfl
  · intro happ hob resolvedSource sourceContent hsrc hread
    have hwf : writeVaultEntry workspaceDir sourcePath title sid st append targetPath uuid
        nowIso fs =
        writeUniqueFile (resolveMemoryDir workspaceDir "Vault")
          (timestampSlug nowIso ++ "-" ++
            toSafeSlug (orElseStr title (basenamePath resolvedSource)))
          (vaultSealContent workspaceDir resolvedSource
            (orElseStr title (basenamePath resolvedSource)) nowIso
            (createMetadata uuid nowIso sid st "Vault" true {}
              (parseFrontMatter sourceContent).metadata)
            (parseFrontMatter sourceContent).body)
          true fs := by
      unfold writeVaultEntry
      rw [hsrc]
      dsimp only
      rw [hread]
      dsimp only
      rw [if_neg happ, hob]
      rfl
    refine ⟨hwf, rfl, rfl, ?_⟩
    intro fs' r heq
    rw [hwf] at heq
    obtain ⟨hfiles, hnone, hpath⟩ := writeUniqueFile_ok heq
    exact ⟨hnone, hpath, hfiles⟩
  · intro hV
    rcases resolveAllowedMemorySourcePath_vault_rejected hV with h | h
    · refine ⟨.pathEscape sourcePath, ?_, Or.inl rfl⟩
      unfold writeVaultEntry
      rw [h]
    · refine ⟨.disallowedSource, ?_, Or.inr rfl⟩
      unfold writeVaultEntry
      rw [h]

theorem writeVaultEntry_modes_spec_witness :
    (∃ e, writeVaultEntry "/ws" "memory/ThreadBorn/note.md" none "sid" "trig" (some true) none
      "u1" "2025-01-01T00:00:00.000Z" ⟨[("/ws/memory/ThreadBorn/note.md", "hello")], []⟩ =
      (⟨[("/ws/memory/ThreadBorn/note.md", "hello")], []⟩, .error e)) ∧
    (∃ e, writeVaultEntry "/ws" "memory/ThreadBorn/note.md" none "sid" "trig" none
      (some "memory/Vault/entry.md") "u1" "2025-01-01T00:00:00.000Z"
      ⟨[("/ws/memory/ThreadBorn/note.md", "hello")], []⟩ =
      (⟨[("/ws/memory/ThreadBorn/note.md", "hello")], []⟩, .error e)) ∧
    (∃ e, writeVaultEntry "/ws" "memory/Vault/secret.md" none "sid" "trig" none none
      "u1" "2025-01-01T00:00:00.000Z" ⟨[], []⟩ = (⟨[], []⟩, .error e) ∧
      (e = .pathEscape "memory/Vault/secret.md" ∨ e = .disallowedSource)) := by
  refine ⟨?_, ?_, ?_⟩
  · exact (writeVaultEntry_modes_spec "/ws" "memory/ThreadBorn/note.md" none "sid" "trig"
      (some true) none "u1" "2025-01-01T00:00:00.000Z"
      ⟨[("/ws/memory/ThreadBorn/note.md", "hello")], []⟩).1 rfl (by decide)
  · exact ((writeVaultEntry_modes_spec "/ws" "memory/ThreadBorn/note.md" none "sid" "trig"
      none (some "memory/Vault/entry.md") "u1" "2025-01-01T00:00:00.000Z"
      ⟨[("/ws/memory/ThreadBorn/note.md", "hello")], []⟩).2.2.1 (by decide) (by decide)).1
  · exact (writeVaultEntry_modes_spec "/ws" "memory/Vault/secret.md" none "sid" "trig"
      none none "u1" "2025-01-01T00:00:00.000Z" ⟨[], []⟩).2.2.2.2 (by decide)

/-! ## JSON string codec round trip -/

theorem hexCharVal_hexDigitChar {n : Nat} (h : n < 16) :
    hexCharVal (hexDigitChar n) = some n := by
  interval_cases n <;> decide

theorem ju_esc_quote (rest : List Char) :
    jsonUnescapeChars ('\\' :: '"' :: rest) = (jsonUnescapeChars rest).map ('"' :: ·) := by
  conv_lhs => unfold jsonUnescapeChars
  rfl

theorem ju_esc_backslash (rest : List Char) :
    jsonUnescapeChars ('\\' :: '\\' :: rest) = (jsonUnescapeChars rest).map ('\\' :: ·) := by
  conv_lhs => unfold jsonUnescapeChars
  rfl

theorem ju_esc_b (rest : List Char) :
    jsonUnescapeChars ('\\' :: 'b' :: rest) = (jsonUnescapeChars rest).map ('\x08' :: ·) := by
  conv_lhs => unfold jsonUnescapeChars
  rfl

theorem ju_esc_t (rest : List Char) :
    jsonUnescapeChars ('\\' :: 't' :: rest) = (jsonUnescapeChars rest).map ('\x09' :: ·) := by
  conv_lhs => unfold jsonUnescapeChars
  rfl

theorem ju_esc_n (rest : List Char) :
    jsonUnescapeChars ('\\' :: 'n' :: rest) = (jsonUnescapeChars rest).map ('\x0a' :: ·) := by
  conv_lhs => unfold jsonUnescapeChars
  rfl

theorem ju_esc_f (rest : List Char) :
    jsonUnescapeChars ('\\' :: 'f' :: rest) = (jsonUnescapeChars rest).map ('\x0c' :: ·) := by
  conv_lhs => unfold jsonUnescapeChars
  rfl

theorem ju_esc_r (rest : List Char) :
    jsonUnescapeChars ('\\' :: 'r' :: rest) = (jsonUnescapeChars rest).map ('\x0d' :: ·) := by
  conv_lhs => unfold jsonUnescapeChars
  rfl

theorem ju_other {c : Char} (h1 : c ≠ '"') (h2 : c ≠ '\\') (h3 : ¬ c.toNat < 32)
    (rest : List Char) :
    jsonUnescapeChars (c :: rest) = (jsonUnescapeChars rest).map (c :: ·) := by
  conv_lhs => unfold jsonUnescapeChars
  rw [if_neg h1, if_neg h2, if_neg h3]

theorem ju_u00 (h3 h4 : Char) (a b : Nat) (rest : List Char)
    (e3 : hexCharVal h3 = some a) (e4 : hexCharVal h4 = some b) :
    jsonUnescapeChars ('\\' :: 'u' :: '0' :: '0' :: h3 :: h4 :: rest) =
      (jsonUnescapeChars rest).map
        ((Char.ofNat (((0 * 16 + 0) * 16 + a) * 16 + b)) :: ·) := by
  show (match hexCharVal '0', hexCharVal '0', hexCharVal h3, hexCharVal h4 with
    | some a, some b, some v3, some v4 =>
      (jsonUnescapeChars rest).map
        ((Char.ofNat (((a * 16 + b) * 16 + v3) * 16 + v4)) :: ·)
    | _, _, _, _ => none) = _
  rw [e3, e4]
  rfl

theorem jsonUnescape_escape :
    ∀ cs : List Char,
      jsonUnescapeChars ((cs.map jsonEscapeChar).flatten ++ ['"']) = some cs := by
  intro cs
  induction cs with
  | nil => rfl
  | cons c cs ih =>
    rw [List.map_cons, List.flatten_cons, List.append_assoc]
    by_cases h1 : c = '"'
    · subst h1
      rw [show jsonEscapeChar '"' = ['\\', '"'] from rfl]
      simp only [List.cons_append, List.nil_append]
      rw [ju_esc_quote, ih]
      rfl
    · by_cases h2 : c = '\\'
      · subst h2
        rw [show jsonEscapeChar '\\' = ['\\', '\\'] from rfl]
        simp only [List.cons_append, List.nil_append]
        rw [ju_esc_backslash, ih]
        rfl
      · by_cases h3 : c = '\x08'
        · subst h3
          rw [show jsonEscapeChar '\x08' = ['\\', 'b'] from rfl]
          simp only [List.cons_append, List.nil_append]
          rw [ju_esc_b, ih]
          rfl
        · by_cases h4 : c = '\x09'
          · subst h4
            rw [show jsonEscapeChar '\x09' = ['\\', 't'] from rfl]
            simp only [List.cons_append, List.nil_append]
            rw [ju_esc_t, ih]
            rfl
          · by_cases h5 : c = '\x0a'
            · subst h5
              rw [show jsonEscapeChar '\x0a' = ['\\', 'n'] from rfl]
              simp only [List.cons_append, List.nil_append]
              rw [ju_esc_n, ih]
              rfl
            · by_cases h6 : c = '\x0c'
              · subst h6
                rw [show jsonEscapeChar '\x0c' = ['\\', 'f'] from rfl]
                simp only [List.cons_append, List.nil_append]
                rw [ju_esc_f, ih]
                rfl
              · by_cases h7 : c = '\x0d'
                · subst h7
                  rw [show jsonEscapeChar '\x0d' = ['\\', 'r'] from rfl]
                  simp only [List.cons_append, List.nil_append]
                  rw [ju_esc_r, ih]
                  rfl
                · by_cases h8 : c.toNat < 32
                  · have hesc : jsonEscapeChar c = ['\\', 'u', '0', '0',
                        hexDigitChar (c.toNat / 16), hexDigitChar (c.toNat % 16)] := by
                      unfold jsonEscapeChar
                      rw [if_neg h1, if_neg h2, if_neg h3, if_neg h4, if_neg h5, if_neg h6,
                        if_neg h7, if_pos h8]
                    rw [hesc]
                    simp only [List.cons_append, List.nil_append]
                    rw [ju_u00 _ _ _ _ _
                      (hexCharVal_hexDigitChar (by omega))
                      (hexCharVal_hexDigitChar (Nat.mod_lt _ (by norm_num))), ih]
                    have harith :
                        ((0 * 16 + 0) * 16 + c.toNat / 16) * 16 + c.toNat % 16 = c.toNat := by
                      omega
                    rw [harith, Char.ofNat_toNat]
                    rfl
                  · have hesc : jsonEscapeChar c = [c] := by
                      unfold jsonEscapeChar
                      rw [if_neg h1, if_neg h2, if_neg h3, if_neg h4, if_neg h5, if_neg h6,
                        if_neg h7, if_neg h8]
                    rw [hesc]
                    simp only [List.cons_append, List.nil_append]
                    rw [ju_other h1 h2 h8, ih]
                    rfl

theorem jsonParse_stringify (s : String) :
    jsonParseString (jsonStringify s) = some s := by
  unfold jsonParseString jsonStringify
  show (jsonUnescapeChars ((s.data.map jsonEscapeChar).flatten ++ ['"'])).map String.mk =
    some s
  rw [jsonUnescape_escape]
  simp [strMk_data]

/-! ## Header line parsing over encoder output -/

theorem wordChar_not_ws {c : Char} (h : wordChar c = true) : jsWhitespaceChar c = false := by
  cases hws : jsWhitespaceChar c with
  | false => rfl
  | true =>
    exfalso
    simp only [jsWhitespaceChar, Bool.or_eq_true, decide_eq_true_eq] at hws
    rcases hws with ((((((h1 | h1) | h1) | h1) | h1) | h1) | h1) | h1 <;>
      (subst h1; exact absurd h (by decide))

theorem trimEnd_ne_nil {c : Char} {l : List Char} (h : jsWhitespaceChar c = false) :
    trimEndList (c :: l) ≠ [] := by
  unfold trimEndList
  intro heq
  have h2 : (c :: l).reverse.dropWhile jsWhitespaceChar = [] := by
    have := congrArg List.reverse heq
    simpa using this
  have h3 := List.dropWhile_eq_nil_iff.mp h2 c (by simp)
  simp [h] at h3

theorem trimEnd_front (l : List Char) : trimEndList l <+: l := by
  unfold trimEndList
  have := List.reverse_prefix.mpr (List.dropWhile_suffix (l := l.reverse) jsWhitespaceChar)
  simpa using this

theorem trimList_cons {c : Char} {l : List Char} (h : jsWhitespaceChar c = false) :
    ∃ xs, trimList (c :: l) = c :: xs := by
  unfold trimList trimStartList
  rw [List.dropWhile_cons_of_neg (by simp [h])]
  obtain ⟨t, ht⟩ := trimEnd_front (c :: l)
  cases hx : trimEndList (c :: l) with
  | nil => exact absurd hx (trimEnd_ne_nil h)
  | cons x xs =>
    rw [hx, List.cons_append] at ht
    injection ht with h1 _
    exact ⟨xs, by rw [h1]⟩

theorem trimStr_word_line {key V : String} (hk1 : key.data ≠ [])
    (hk2 : ∀ x ∈ key.data, wordChar x = true) :
    trimStr (key ++ ": " ++ V) ≠ "" ∧ trimStr (key ++ ": " ++ V) ≠ "---" := by
  have hdata : (key ++ ": " ++ V).data = key.data ++ ':' :: ' ' :: V.data := by
    rw [strData_append, strData_append]
    simp
  cases hkd : key.data with
  | nil => exact absurd hkd hk1
  | cons k0 ks =>
    have hws : jsWhitespaceChar k0 = false :=
      wordChar_not_ws (hk2 k0 (by rw [hkd]; exact List.mem_cons_self k0 ks))
    rw [hkd, List.cons_append] at hdata
    unfold trimStr
    rw [hdata]
    obtain ⟨xs, hxs⟩ := trimList_cons (l := ks ++ ':' :: ' ' :: V.data) hws
    rw [hxs]
    constructor
    · intro h
      have := congrArg String.data h
      simp at this
    · intro h
      have hd : k0 :: xs = "---".data := congrArg String.data h
      rw [show ("---" : String).data = ['-', '-', '-'] from rfl] at hd
      injection hd with hd0 _
      have hw := hk2 k0 (by rw [hkd]; exact List.mem_cons_self k0 ks)
      rw [hd0] at hw
      exact absurd hw (by decide)

theorem takeWhile_append_word :
    ∀ (l1 : List Char) (c : Char) (l2 : List Char),
      (∀ x ∈ l1, wordChar x = true) → wordChar c = false →
      (l1 ++ c :: l2).takeWhile wordChar = l1 ∧
        (l1 ++ c :: l2).dropWhile wordChar = c :: l2 := by
  intro l1
  induction l1 with
  | nil =>
    intro c l2 _ hc
    rw [List.nil_append]
    exact ⟨by rw [List.takeWhile_cons_of_neg (by simp [hc])],
      by rw [List.dropWhile_cons_of_neg (by simp [hc])]⟩
  | cons a l1 ih =>
    intro c l2 h hc
    have ha := h a (List.mem_cons_self a l1)
    obtain ⟨iht, ihd⟩ := ih c l2 (fun x hx => h x (List.mem_cons_of_mem a hx)) hc
    rw [List.cons_append]
    constructor
    · rw [List.takeWhile_cons_of_pos (by simp [ha]), iht]
    · rw [List.dropWhile_cons_of_pos (by simp [ha]), ihd]

theorem matchKeyValue_build {key V : String} (hk1 : key.data ≠ [])
    (hk2 : ∀ x ∈ key.data, wordChar x = true)
    (hv : V.data.dropWhile jsWhitespaceChar = V.data) :
    matchKeyValue (key ++ ": " ++ V) = some (key, V) := by
  unfold matchKeyValue
  dsimp only
  have hdata : (key ++ ": " ++ V).data = key.data ++ ':' :: ' ' :: V.data := by
    rw [strData_append, strData_append]
    simp
  rw [hdata]
  obtain ⟨ht, hd⟩ := takeWhile_append_word key.data ':' (' ' :: V.data) hk2 (by decide)
  rw [ht, hd]
  rw [if_neg (by simp [List.isEmpty_iff, hk1])]
  show some (String.mk key.data,
    String.mk ((' ' :: V.data).dropWhile jsWhitespaceChar)) = some (key, V)
  rw [List.dropWhile_cons_of_pos (by decide), hv, strMk_data, strMk_data]

theorem applyHeaderLine_build (pm : ParsedMeta) {key V : String} (hk1 : key.data ≠ [])
    (hk2 : ∀ x ∈ key.data, wordChar x = true)
    (hv : V.data.dropWhile jsWhitespaceChar = V.data) :
    applyHeaderLine pm (key ++ ": " ++ V) =
      if allowedMetadataKeys.contains key then setMetaField pm key (parseYamlValue V)
      else pm := by
  unfold applyHeaderLine
  rw [if_neg (trimStr_word_line hk1 hk2).1, matchKeyValue_build hk1 hk2 hv]

theorem trimStr_quoted (mid : List Char) :
    trimStr (String.mk ('"' :: (mid ++ ['"']))) = String.mk ('"' :: (mid ++ ['"'])) := by
  unfold trimStr
  congr 1
  show trimList ('"' :: (mid ++ ['"'])) = '"' :: (mid ++ ['"'])
  unfold trimList trimStartList trimEndList
  rw [List.dropWhile_cons_of_neg (by decide)]
  have hrev : ('"' :: (mid ++ ['"'])).reverse = '"' :: ('"' :: mid).reverse := by
    simp
  rw [hrev, List.dropWhile_cons_of_neg (by decide), ← hrev, List.reverse_reverse]

theorem trimStr_jsonStringify (v : String) :
    trimStr (jsonStringify v) = jsonStringify v :=
  trimStr_quoted ((v.data.map jsonEscapeChar).flatten)

theorem parseYaml_stringify (v : String) :
    parseYamlValue (jsonStringify v) = .s v := by
  unfold parseYamlValue
  dsimp only
  rw [trimStr_jsonStringify]
  rw [if_neg (fun h => by
    have hd := congrArg String.data h
    rw [show ("true" : String).data = ['t', 'r', 'u', 'e'] from rfl] at hd
    injection hd with hd0 _
    exact absurd hd0 (by decide))]
  rw [if_neg (fun h => by
    have hd := congrArg String.data h
    rw [show ("false" : String).data = ['f', 'a', 'l', 's', 'e'] from rfl] at hd
    injection hd with hd0 _
    exact absurd hd0 (by decide))]
  have hstart : strStartsWith (jsonStringify v) "\"" = true := by
    unfold strStartsWith
    show List.isPrefixOf ['"'] ('"' :: _) = true
    simp [List.isPrefixOf]
  have hlast : (jsonStringify v).data.reverse.head? = some '"' := by
    show ('"' :: ((v.data.map jsonEscapeChar).flatten ++ ['"'])).reverse.head? = some '"'
    simp
  rw [if_pos (by simp [hstart, hlast])]
  rw [jsonParse_stringify]

theorem parseYaml_bool (b : Bool) :
    parseYamlValue (formatYamlValueBool b) = .b b := by
  cases b <;> rfl

/-! ## Line splitting and joining -/

theorem sl_nl (rest : List Char) :
    splitLinesList ('\n' :: rest) = [] :: splitLinesList rest := by
  cases rest with
  | nil => rfl
  | cons d r2 =>
    conv_lhs => unfold splitLinesList
    rw [if_pos rfl]

theorem sl_crlf (rest : List Char) :
    splitLinesList ('\r' :: '\n' :: rest) = [] :: splitLinesList rest := by
  conv_lhs => unfold splitLinesList
  rfl

theorem sl_other {c d : Char} (h1 : c ≠ '\n') (h2 : ¬(c = '\r' ∧ d = '\n'))
    (rest : List Char) :
    splitLinesList (c :: d :: rest) =
      match splitLinesList (d :: rest) with
      | [] => [[c]]
      | piece :: more => (c :: piece) :: more := by
  conv_lhs => unfold splitLinesList
  rw [if_neg h1, if_neg (by
    intro hb
    simp only [Bool.and_eq_true, decide_eq_true_eq] at hb
    exact h2 hb)]

theorem splitLinesList_ne_nil : ∀ cs : List Char, splitLinesList cs ≠ [] := by
  intro cs
  match cs with
  | [] => simp [splitLinesList]
  | [c] =>
    unfold splitLinesList
    split <;> simp
  | c :: d :: rest =>
    unfold splitLinesList
    split
    · simp
    · split
      · simp
      · split <;> simp

theorem splitLinesList_cons_exists (cs : List Char) :
    ∃ p m, splitLinesList cs = p :: m := by
  cases hx : splitLinesList cs with
  | nil => exact absurd hx (splitLinesList_ne_nil cs)
  | cons p m => exact ⟨p, m, rfl⟩

theorem splitLinesList_line (l : List Char) (tail : List Char)
    (hclean : ∀ x ∈ l, x ≠ '\n' ∧ x ≠ '\r') :
    splitLinesList (l ++ '\n' :: tail) = l :: splitLinesList tail := by
  induction l with
  | nil =>
    rw [List.nil_append, sl_nl]
  | cons c l ih =>
    have hc := hclean c (List.mem_cons_self c l)
    rw [List.cons_append]
    cases hM : l ++ '\n' :: tail with
    | nil => exact absurd hM (by simp)
    | cons d M =>
      rw [sl_other hc.1 (fun h => hc.2 h.1), ← hM,
        ih (fun x hx => hclean x (List.mem_cons_of_mem c hx))]

theorem containsRun_tail_false {nd : List Char} {x : Char} {xs : List Char}
    (h : listContainsRun nd (x :: xs) = false) : listContainsRun nd xs = false := by
  unfold listContainsRun at h
  exact (Bool.or_eq_false_iff.mp h).2

theorem joinLines_cons_head (c : Char) (p : List Char) (m : List (List Char)) :
    joinLinesChars ((c :: p) :: m) = c :: joinLinesChars (p :: m) := by
  cases m <;> rfl

theorem joinLines_splitLines_go :
    ∀ (n : Nat) (cs : List Char), cs.length ≤ n →
      listContainsRun ['\r', '\n'] cs = false →
      joinLinesChars (splitLinesList cs) = cs := by
  intro n
  induction n with
  | zero =>
    intro cs hlen _
    cases cs with
    | nil => rfl
    | cons c l => simp at hlen
  | succ n ih =>
    intro cs hlen hcr
    match cs with
    | [] => rfl
    | [c] =>
      unfold splitLinesList
      by_cases hc : c = '\n'
      · rw [if_pos hc, hc]
        rfl
      · rw [if_neg hc]
        rfl
    | c :: d :: rest =>
      have hcrrest : listContainsRun ['\r', '\n'] (d :: rest) = false :=
        containsRun_tail_false hcr
      have hlenrest : (d :: rest).length ≤ n := by
        simp only [List.length_cons] at hlen ⊢
        omega
      by_cases hc : c = '\n'
      · subst hc
        rw [sl_nl]
        obtain ⟨p, m, hpm⟩ := splitLinesList_cons_exists (d :: rest)
        rw [hpm]
        show [] ++ '\n' :: joinLinesChars (p :: m) = '\n' :: d :: rest
        rw [← hpm, ih (d :: rest) hlenrest hcrrest]
        rfl
      · by_cases hrd : c = '\r' ∧ d = '\n'
        · exfalso
          obtain ⟨hc1, hd1⟩ := hrd
          subst hc1
          subst hd1
          have : listContainsRun ['\r', '\n'] ('\r' :: '\n' :: rest) = true := by
            unfold listContainsRun
            simp [List.isPrefixOf]
          rw [this] at hcr
          cases hcr
        · rw [sl_other hc hrd]
          obtain ⟨p, m, hpm⟩ := splitLinesList_cons_exists (d :: rest)
          rw [hpm]
          show joinLinesChars ((c :: p) :: m) = c :: d :: rest
          rw [joinLines_cons_head, ← hpm, ih (d :: rest) hlenrest hcrrest]

theorem joinLines_splitLines (cs : List Char)
    (h : listContainsRun ['\r', '\n'] cs = false) :
    joinLinesChars (splitLinesList cs) = cs :=
  joinLines_splitLines_go cs.length cs le_rfl h

theorem joinWith_map_mk :
    ∀ ps : List (List Char), joinWith "\n" (ps.map String.mk) = String.mk (joinLinesChars ps) := by
  intro ps
  induction ps with
  | nil => rfl
  | cons p ps ih =>
    cases ps with
    | nil => rfl
    | cons q rs =>
      show String.mk p ++ "\n" ++ joinWith "\n" ((q :: rs).map String.mk) = _
      rw [ih]
      apply strEq_iff_data.mpr
      rw [strData_append, strData_append]
      show p ++ ['\n'] ++ joinLinesChars (q :: rs) = p ++ '\n' :: joinLinesChars (q :: rs)
      simp

theorem joinWith_splitLines (s : String)
    (h : listContainsRun ['\r', '\n'] s.data = false) :
    joinWith "\n" (splitLines s) = s := by
  unfold splitLines
  rw [joinWith_map_mk, joinLines_splitLines s.data h, strMk_data]

theorem joinWith_append_last (ls : List String) (x : String) (h : ls ≠ []) :
    joinWith "\n" (ls ++ [x]) = joinWith "\n" ls ++ "\n" ++ x := by
  induction ls with
  | nil => exact absurd rfl h
  | cons a ls ih =>
    cases ls with
    | nil => rfl
    | cons b ls2 =>
      show a ++ "\n" ++ joinWith "\n" ((b :: ls2) ++ [x]) =
        a ++ "\n" ++ joinWith "\n" (b :: ls2) ++ "\n" ++ x
      rw [ih (by simp)]
      simp [String.append_assoc]

theorem splitLines_header :
    ∀ (li : List (List Char)) (t : List Char), li ≠ [] →
      (∀ l ∈ li, ∀ x ∈ l, x ≠ '\n' ∧ x ≠ '\r') →
      splitLinesList (joinLinesChars li ++ '\n' :: t) = li ++ splitLinesList t := by
  intro li
  induction li with
  | nil => intro t h _; exact absurd rfl h
  | cons l li ih =>
    intro t _ hclean
    cases li with
    | nil =>
      show splitLinesList (l ++ '\n' :: t) = [l] ++ splitLinesList t
      rw [splitLinesList_line l t (hclean l (List.mem_cons_self l []))]
      rfl
    | cons l2 ls =>
      show splitLinesList ((l ++ '\n' :: joinLinesChars (l2 :: ls)) ++ '\n' :: t) = _
      rw [List.append_assoc, List.cons_append]
      rw [splitLinesList_line l _ (hclean l (List.mem_cons_self l (l2 :: ls)))]
      rw [ih t (by simp) (fun x hx => hclean x (List.mem_cons_of_mem l hx))]
      rfl

/-! ## The encoded header decomposes into its lines -/

theorem hexDigitChar_ge32 {n : Nat} (h : n < 16) : 32 ≤ (hexDigitChar n).toNat := by
  interval_cases n <;> decide

theorem jsonEscapeChar_ge32 (c : Char) : ∀ x ∈ jsonEscapeChar c, 32 ≤ x.toNat := by
  intro x hx
  unfold jsonEscapeChar at hx
  by_cases h1 : c = '"'
  · rw [if_pos h1] at hx
    simp only [List.mem_cons, List.not_mem_nil, or_false] at hx
    rcases hx with rfl | rfl <;> decide
  · rw [if_neg h1] at hx
    by_cases h2 : c = '\\'
    · rw [if_pos h2] at hx
      simp only [List.mem_cons, List.not_mem_nil, or_false] at hx
      rcases hx with rfl | rfl <;> decide
    · rw [if_neg h2] at hx
      by_cases h3 : c = '\x08'
      · rw [if_pos h3] at hx
        simp only [List.mem_cons, List.not_mem_nil, or_false] at hx
        rcases hx with rfl | rfl <;> decide
      · rw [if_neg h3] at hx
        by_cases h4 : c = '\x09'
        · rw [if_pos h4] at hx
          simp only [List.mem_cons, List.not_mem_nil, or_false] at hx
          rcases hx with rfl | rfl <;> decide
        · rw [if_neg h4] at hx
          by_cases h5 : c = '\x0a'
          · rw [if_pos h5] at hx
            simp only [List.mem_cons, List.not_mem_nil, or_false] at hx
            rcases hx with rfl | rfl <;> decide
          · rw [if_neg h5] at hx
            by_cases h6 : c = '\x0c'
            · rw [if_pos h6] at hx
              simp only [List.mem_cons, List.not_mem_nil, or_false] at hx
              rcases hx with rfl | rfl <;> decide
            · rw [if_neg h6] at hx
              by_cases h7 : c = '\x0d'
              · rw [if_pos h7] at hx
                simp only [List.mem_cons, List.not_mem_nil, or_false] at hx
                rcases hx with rfl | rfl <;> decide
              · rw [if_neg h7] at hx
                by_cases h8 : c.toNat < 32
                · rw [if_pos h8] at hx
                  simp only [List.mem_cons, List.not_mem_nil, or_false] at hx
                  rcases hx with rfl | rfl | rfl | rfl | rfl | rfl
                  · decide
                  · decide
                  · decide
                  · decide
                  · exact hexDigitChar_ge32 (by omega)
                  · exact hexDigitChar_ge32 (Nat.mod_lt _ (by norm_num))
                · rw [if_neg h8] at hx
                  simp only [List.mem_cons, List.not_mem_nil, or_false] at hx
                  subst hx
                  omega

theorem jsonStringify_clean (v : String) :
    ∀ x ∈ (jsonStringify v).data, x ≠ '\n' ∧ x ≠ '\r' := by
  intro x hx
  show _ ∧ _
  have hx2 : x ∈ '"' :: ((v.data.map jsonEscapeChar).flatten ++ ['"']) := hx
  rcases List.mem_cons.mp hx2 with rfl | hx3
  · exact ⟨by decide, by decide⟩
  rcases List.mem_append.mp hx3 with h | h
  · obtain ⟨es, hes, hxe⟩ := List.mem_flatten.mp h
    obtain ⟨c, _, rfl⟩ := List.mem_map.mp hes
    have hge := jsonEscapeChar_ge32 c x hxe
    constructor
    · intro he
      rw [he] at hge
      exact absurd hge (by decide)
    · intro he
      rw [he] at hge
      exact absurd hge (by decide)
  · simp only [List.mem_singleton] at h
    subst h
    exact ⟨by decide, by decide⟩

theorem findCloseDelim_skip :
    ∀ (ks : List String) (rest : List String) (i : Nat),
      (∀ k ∈ ks, trimStr k ≠ FRONT_MATTER_DELIMITER) →
      findCloseDelim (ks ++ "---" :: rest) i = some (i + ks.length) := by
  intro ks
  induction ks with
  | nil =>
    intro rest i _
    show findCloseDelim ("---" :: rest) i = some (i + 0)
    unfold findCloseDelim
    rw [if_pos (by decide)]
    simp
  | cons k ks ih =>
    intro rest i h
    rw [List.cons_append]
    unfold findCloseDelim
    rw [if_neg (h k (List.mem_cons_self k ks))]
    rw [ih rest (i + 1) (fun x hx => h x (List.mem_cons_of_mem k hx))]
    congr 1
    simp only [List.length_cons]
    omega

theorem parseFrontMatter_header (kv : List String) (body : String)
    (hclean : ∀ l ∈ kv, ∀ x ∈ l.data, x ≠ '\n' ∧ x ≠ '\r')
    (hnd : ∀ l ∈ kv, trimStr l ≠ FRONT_MATTER_DELIMITER) :
    parseFrontMatter
      (joinWith "\n" ([FRONT_MATTER_DELIMITER] ++ kv ++ [FRONT_MATTER_DELIMITER, ""]) ++ body) =
      { metadata := kv.foldl applyHeaderLine emptyParsedMeta,
        body := joinWith "\n" (splitLines body) } := by
  have hLeq : [FRONT_MATTER_DELIMITER] ++ kv ++ [FRONT_MATTER_DELIMITER, ""] =
      (("---" :: kv) ++ ["---"]) ++ [""] := by
    simp [FRONT_MATTER_DELIMITER]
  rw [hLeq, joinWith_append_last _ "" (by simp), strAppend_empty]
  have hmapmk : ((("---" :: kv) ++ ["---"]).map String.data).map String.mk =
      ("---" :: kv) ++ ["---"] := by
    rw [List.map_map]
    have heach : ∀ s : String, (String.mk ∘ String.data) s = s := fun s => strMk_data s
    calc ((("---" :: kv) ++ ["---"]).map (String.mk ∘ String.data)) =
        (("---" :: kv) ++ ["---"]).map id := List.map_congr_left (fun s _ => heach s)
      _ = ("---" :: kv) ++ ["---"] := List.map_id _
  have hcleanL : ∀ l ∈ (("---" :: kv) ++ ["---"]).map String.data,
      ∀ x ∈ l, x ≠ '\n' ∧ x ≠ '\r' := by
    intro l hl
    obtain ⟨s, hs, rfl⟩ := List.mem_map.mp hl
    rcases List.mem_append.mp hs with hs1 | hs1
    · rcases List.mem_cons.mp hs1 with rfl | hs2
      · intro x hx
        simp only [show ("---" : String).data = ['-', '-', '-'] from rfl] at hx
        rcases List.mem_cons.mp hx with rfl | hx2
        · exact ⟨by decide, by decide⟩
        rcases List.mem_cons.mp hx2 with rfl | hx3
        · exact ⟨by decide, by decide⟩
        simp only [List.mem_singleton] at hx3
        subst hx3
        exact ⟨by decide, by decide⟩
      · exact hclean s hs2
    · simp only [List.mem_singleton] at hs1
      subst hs1
      intro x hx
      simp only [show ("---" : String).data = ['-', '-', '-'] from rfl] at hx
      rcases List.mem_cons.mp hx with rfl | hx2
      · exact ⟨by decide, by decide⟩
      rcases List.mem_cons.mp hx2 with rfl | hx3
      · exact ⟨by decide, by decide⟩
      simp only [List.mem_singleton] at hx3
      subst hx3
      exact ⟨by decide, by decide⟩
  have hsplit : splitLines (joinWith "\n" (("---" :: kv) ++ ["---"]) ++ "\n" ++ body) =
      (("---" :: kv) ++ ["---"]) ++ splitLines body := by
    unfold splitLines
    have hJ : joinWith "\n" (("---" :: kv) ++ ["---"]) =
        String.mk (joinLinesChars ((("---" :: kv) ++ ["---"]).map String.data)) := by
      rw [← joinWith_map_mk, hmapmk]
    have hdata : (joinWith "\n" (("---" :: kv) ++ ["---"]) ++ "\n" ++ body).data =
        joinLinesChars ((("---" :: kv) ++ ["---"]).map String.data) ++ '\n' :: body.data := by
      rw [strData_append, strData_append, hJ]
      simp
    rw [hdata, splitLines_header _ body.data (by simp) hcleanL, List.map_append, hmapmk]
  unfold parseFrontMatter
  dsimp only
  rw [hsplit]
  have hlist : (("---" :: kv) ++ ["---"]) ++ splitLines body =
      "---" :: (kv ++ "---" :: splitLines body) := by
    simp
  rw [hlist]
  dsimp only
  rw [if_neg (by simp [FRONT_MATTER_DELIMITER])]
  rw [findCloseDelim_skip kv (splitLines body) 1 hnd]
  dsimp only
  have htake : (kv ++ "---" :: splitLines body).take (1 + kv.length - 1) = kv := by
    rw [show 1 + kv.length - 1 = kv.length from by omega]
    exact List.take_left kv _
  have hdrop : ("---" :: (kv ++ "---" :: splitLines body)).drop (1 + kv.length + 1) =
      splitLines body := by
    have hre : "---" :: (kv ++ "---" :: splitLines body) =
        (("---" :: kv) ++ ["---"]) ++ splitLines body := by
      simp
    rw [hre, show 1 + kv.length + 1 = (("---" :: kv) ++ ["---"]).length from by
      simp [List.length_append]; omega]
    exact List.drop_left _ _
  rw [show List.drop 1 ("---" :: (kv ++ "---" :: splitLines body)) =
    kv ++ "---" :: splitLines body from rfl]
  rw [htake, hdrop]

/-! ## Decoding each encoded header line -/

theorem parseYaml_format (v : String) :
    parseYamlValue (formatYamlValueStr v) = .s v :=
  parseYaml_stringify v

theorem dropWhile_format (v : String) :
    (formatYamlValueStr v).data.dropWhile jsWhitespaceChar = (formatYamlValueStr v).data := by
  show ('"' :: ((v.data.map jsonEscapeChar).flatten ++ ['"'])).dropWhile jsWhitespaceChar =
    ('"' :: ((v.data.map jsonEscapeChar).flatten ++ ['"']))
  rw [List.dropWhile_cons_of_neg (by decide)]

theorem dropWhile_formatBool (b : Bool) :
    (formatYamlValueBool b).data.dropWhile jsWhitespaceChar = (formatYamlValueBool b).data := by
  cases b <;> decide

theorem ah_id (pm : ParsedMeta) (v : String) :
    applyHeaderLine pm ("id: " ++ formatYamlValueStr v) = setMetaField pm "id" (.s v) := by
  rw [show ("id: " : String) = "id" ++ ": " from rfl]
  rw [applyHeaderLine_build pm (by decide) (by decide) (dropWhile_format v)]
  rw [if_pos (by decide), parseYaml_format]

theorem ah_created_at (pm : ParsedMeta) (v : String) :
    applyHeaderLine pm ("created_at: " ++ formatYamlValueStr v) =
      setMetaField pm "created_at" (.s v) := by
  rw [show ("created_at: " : String) = "created_at" ++ ": " from rfl]
  rw [applyHeaderLine_build pm (by decide) (by decide) (dropWhile_format v)]
  rw [if_pos (by decide), parseYaml_format]

theorem ah_ssid (pm : ParsedMeta) (v : String) :
    applyHeaderLine pm ("source_session_id: " ++ formatYamlValueStr v) =
      setMetaField pm "source_session_id" (.s v) := by
  rw [show ("source_session_id: " : String) = "source_session_id" ++ ": " from rfl]
  rw [applyHeaderLine_build pm (by decide) (by decide) (dropWhile_format v)]
  rw [if_pos (by decide), parseYaml_format]

theorem ah_strig (pm : ParsedMeta) (v : String) :
    applyHeaderLine pm ("source_trigger: " ++ formatYamlValueStr v) =
      setMetaField pm "source_trigger" (.s v) := by
  rw [show ("source_trigger: " : String) = "source_trigger" ++ ": " from rfl]
  rw [applyHeaderLine_build pm (by decide) (by decide) (dropWhile_format v)]
  rw [if_pos (by decide), parseYaml_format]

theorem ah_mtype (pm : ParsedMeta) (v : String) :
    applyHeaderLine pm ("memory_type: " ++ formatYamlValueStr v) =
      setMetaField pm "memory_type" (.s v) := by
  rw [show ("memory_type: " : String) = "memory_type" ++ ": " from rfl]
  rw [applyHeaderLine_build pm (by decide) (by decide) (dropWhile_format v)]
  rw [if_pos (by decide), parseYaml_format]

theorem ah_sealed (pm : ParsedMeta) (b : Bool) :
    applyHeaderLine pm ("sealed: " ++ formatYamlValueBool b) =
      setMetaField pm "sealed" (.b b) := by
  rw [show ("sealed: " : String) = "sealed" ++ ": " from rfl]
  rw [applyHeaderLine_build pm (by decide) (by decide) (dropWhile_formatBool b)]
  rw [if_pos (by decide), parseYaml_bool]

theorem optfold_promoted_from_id (pm : ParsedMeta) (o : Option String) (h : o ≠ some "")
    (hf : pm.promoted_from_id = none) :
    (optionalLine "promoted_from_id" o).foldl applyHeaderLine pm =
      { pm with promoted_from_id := o.map MValue.s } := by
  cases o with
  | none =>
    show pm = { pm with promoted_from_id := Option.map MValue.s none }
    rw [show Option.map MValue.s none = (none : Option MValue) from rfl, ← hf]
  | some v =>
    have hv : v ≠ "" := fun he => h (by rw [he])
    unfold optionalLine
    dsimp only
    rw [if_pos hv]
    show applyHeaderLine pm ("promoted_from_id" ++ ": " ++ formatYamlValueStr v) = _
    rw [applyHeaderLine_build pm (by decide) (by decide) (dropWhile_format v)]
    rw [if_pos (by decide)]
    rw [parseYaml_format]
    rfl

theorem optfold_promoted_from_source_session_id (pm : ParsedMeta) (o : Option String) (h : o ≠ some "")
    (hf : pm.promoted_from_source_session_id = none) :
    (optionalLine "promoted_from_source_session_id" o).foldl applyHeaderLine pm =
      { pm with promoted_from_source_session_id := o.map MValue.s } := by
  cases o with
  | none =>
    show pm = { pm with promoted_from_source_session_id := Option.map MValue.s none }
    rw [show Option.map MValue.s none = (none : Option MValue) from rfl, ← hf]
  | some v =>
    have hv : v ≠ "" := fun he => h (by rw [he])
    unfold optionalLine
    dsimp only
    rw [if_pos hv]
    show applyHeaderLine pm ("promoted_from_source_session_id" ++ ": " ++ formatYamlValueStr v) = _
    rw [applyHeaderLine_build pm (by decide) (by decide) (dropWhile_format v)]
    rw [if_pos (by decide)]
    rw [parseYaml_format]
    rfl

theorem optfold_promoted_from_source_trigger (pm : ParsedMeta) (o : Option String) (h : o ≠ some "")
    (hf : pm.promoted_from_source_trigger = none) :
    (optionalLine "promoted_from_source_trigger" o).foldl applyHeaderLine pm =
      { pm with promoted_from_source_trigger := o.map MValue.s } := by
  cases o with
  | none =>
    show pm = { pm with promoted_from_source_trigger := Option.map MValue.s none }
    rw [show Option.map MValue.s none = (none : Option MValue) from rfl, ← hf]
  | some v =>
    have hv : v ≠ "" := fun he => h (by rw [he])
    unfold optionalLine
    dsimp only
    rw [if_pos hv]
    show applyHeaderLine pm ("promoted_from_source_trigger" ++ ": " ++ formatYamlValueStr v) = _
    rw [applyHeaderLine_build pm (by decide) (by decide) (dropWhile_format v)]
    rw [if_pos (by decide)]
    rw [parseYaml_format]
    rfl

theorem optfold_promoted_from_memory_type (pm : ParsedMeta) (o : Option String) (h : o ≠ some "")
    (hf : pm.promoted_from_memory_type = none) :
    (optionalLine "promoted_from_memory_type" o).foldl applyHeaderLine pm =
      { pm with promoted_from_memory_type := o.map MValue.s } := by
  cases o with
  | none =>
    show pm = { pm with promoted_from_memory_type := Option.map MValue.s none }
    rw [show Option.map MValue.s none = (none : Option MValue) from rfl, ← hf]
  | some v =>
    have hv : v ≠ "" := fun he => h (by rw [he])
    unfold optionalLine
    dsimp only
    rw [if_pos hv]
    show applyHeaderLine pm ("promoted_from_memory_type" ++ ": " ++ formatYamlValueStr v) = _
    rw [applyHeaderLine_build pm (by decide) (by decide) (dropWhile_format v)]
    rw [if_pos (by decide)]
    rw [parseYaml_format]
    rfl

theorem optfold_sealed_from_id (pm : ParsedMeta) (o : Option String) (h : o ≠ some "")
    (hf : pm.sealed_from_id = none) :
    (optionalLine "sealed_from_id" o).foldl applyHeaderLine pm =
      { pm with sealed_from_id := o.map MValue.s } := by
  cases o with
  | none =>
    show pm = { pm with sealed_from_id := Option.map MValue.s none }
    rw [show Option.map MValue.s none = (none : Option MValue) from rfl, ← hf]
  | some v =>
    have hv : v ≠ "" := fun he => h (by rw [he])
    unfold optionalLine
    dsimp only
    rw [if_pos hv]
    show applyHeaderLine pm ("sealed_from_id" ++ ": " ++ formatYamlValueStr v) = _
    rw [applyHeaderLine_build pm (by decide) (by decide) (dropWhile_format v)]
    rw [if_pos (by decide)]
    rw [parseYaml_format]
    rfl

theorem optfold_sealed_from_source_session_id (pm : ParsedMeta) (o : Option String) (h : o ≠ some "")
    (hf : pm.sealed_from_source_session_id = none) :
    (optionalLine "sealed_from_source_session_id" o).foldl applyHeaderLine pm =
      { pm with sealed_from_source_session_id := o.map MValue.s } := by
  cases o with
  | none =>
    show pm = { pm with sealed_from_source_session_id := Option.map MValue.s none }
    rw [show Option.map MValue.s none = (none : Option MValue) from rfl, ← hf]
  | some v =>
    have hv : v ≠ "" := fun he => h (by rw [he])
    unfold optionalLine
    dsimp only
    rw [if_pos hv]
    show applyHeaderLine pm ("sealed_from_source_session_id" ++ ": " ++ formatYamlValueStr v) = _
    rw [applyHeaderLine_build pm (by decide) (by decide) (dropWhile_format v)]
    rw [if_pos (by decide)]
    rw [parseYaml_format]
    rfl

theorem optfold_sealed_from_source_trigger (pm : ParsedMeta) (o : Option String) (h : o ≠ some "")
    (hf : pm.sealed_from_source_trigger = none) :
    (optionalLine "sealed_from_source_trigger" o).foldl applyHeaderLine pm =
      { pm with sealed_from_source_trigger := o.map MValue.s } := by
  cases o with
  | none =>
    show pm = { pm with sealed_from_source_trigger := Option.map MValue.s none }
    rw [show Option.map MValue.s none = (none : Option MValue) from rfl, ← hf]
  | some v =>
    have hv : v ≠ "" := fun he => h (by rw [he])
    unfold optionalLine
    dsimp only
    rw [if_pos hv]
    show applyHeaderLine pm ("sealed_from_source_trigger" ++ ": " ++ formatYamlValueStr v) = _
    rw [applyHeaderLine_build pm (by decide) (by decide) (dropWhile_format v)]
    rw [if_pos (by decide)]
    rw [parseYaml_format]
    rfl

theorem optfold_sealed_from_memory_type (pm : ParsedMeta) (o : Option String) (h : o ≠ some "")
    (hf : pm.sealed_from_memory_type = none) :
    (optionalLine "sealed_from_memory_type" o).foldl applyHeaderLine pm =
      { pm with sealed_from_memory_type := o.map MValue.s } := by
  cases o with
  | none =>
    show pm = { pm with sealed_from_memory_type := Option.map MValue.s none }
    rw [show Option.map MValue.s none = (none : Option MValue) from rfl, ← hf]
  | some v =>
    have hv : v ≠ "" := fun he => h (by rw [he])
    unfold optionalLine
    dsimp only
    rw [if_pos hv]
    show applyHeaderLine pm ("sealed_from_memory_type" ++ ": " ++ formatYamlValueStr v) = _
    rw [applyHeaderLine_build pm (by decide) (by decide) (dropWhile_format v)]
    rw [if_pos (by decide)]
    rw [parseYaml_format]
    rfl

theorem kvline_clean {a V : String} (ha : ∀ x ∈ a.data, x ≠ '\n' ∧ x ≠ '\r')
    (hV : ∀ x ∈ V.data, x ≠ '\n' ∧ x ≠ '\r') :
    ∀ x ∈ (a ++ V).data, x ≠ '\n' ∧ x ≠ '\r' := by
  intro x hx
  rw [strData_append] at hx
  rcases List.mem_append.mp hx with h | h
  exacts [ha x h, hV x h]

theorem format_clean (v : String) :
    ∀ x ∈ (formatYamlValueStr v).data, x ≠ '\n' ∧ x ≠ '\r' :=
  jsonStringify_clean v

theorem formatBool_clean (b : Bool) :
    ∀ x ∈ (formatYamlValueBool b).data, x ≠ '\n' ∧ x ≠ '\r' := by
  cases b <;> decide

theorem kvline_not_delim {key V : String} (hk1 : key.data ≠ [])
    (hk2 : ∀ x ∈ key.data, wordChar x = true) :
    trimStr (key ++ ": " ++ V) ≠ FRONT_MATTER_DELIMITER :=
  (trimStr_word_line hk1 hk2).2

theorem mem_optionalLine {l key : String} {o : Option String} (h : l ∈ optionalLine key o) :
    ∃ v, o = some v ∧ v ≠ "" ∧ l = key ++ ": " ++ formatYamlValueStr v := by
  cases o with
  | none => simp [optionalLine] at h
  | some v =>
    unfold optionalLine at h
    dsimp only at h
    by_cases hv : v ≠ ""
    · rw [if_pos hv] at h
      simp only [List.mem_singleton] at h
      exact ⟨v, rfl, hv, h⟩
    · rw [if_neg hv] at h
      exact absurd h (List.not_mem_nil l)


/-- C10 (corrected round trip): decoding the concatenation of the encoded
front matter and a body that contains no CR-LF sequence recovers exactly the
original metadata - every required string field as written, the sealed
boolean, and each present non-empty optional provenance field, with absent
fields decoded as absent - and the original body verbatim. The encoder joins
lines with LF while the decoder splits on an optional CR followed by LF, so
a CR-LF inside the body would be normalized to a bare LF; the no-CR-LF
hypothesis is what the original claim is missing. -/
theorem buildFrontMatter_roundtrip (m : MemoryMetadata) (body : String)
    (h1 : m.promoted_from_id ≠ some "")
    (h2 : m.promoted_from_source_session_id ≠ some "")
    (h3 : m.promoted_from_source_trigger ≠ some "")
    (h4 : m.promoted_from_memory_type ≠ some "")
    (h5 : m.sealed_from_id ≠ some "")
    (h6 : m.sealed_from_source_session_id ≠ some "")
    (h7 : m.sealed_from_source_trigger ≠ some "")
    (h8 : m.sealed_from_memory_type ≠ some "")
    (hbody : listContainsRun ['\r', '\n'] body.data = false) :
    parseFrontMatter (buildFrontMatter m ++ body) =
      { metadata := expectedParsedMeta m, body := body } := by
  have hbuild : buildFrontMatter m = joinWith "\n"
      ([FRONT_MATTER_DELIMITER] ++
        (["id: " ++ formatYamlValueStr m.id,
        "created_at: " ++ formatYamlValueStr m.created_at,
        "source_session_id: " ++ formatYamlValueStr m.source_session_id,
        "source_trigger: " ++ formatYamlValueStr m.source_trigger,
        "memory_type: " ++ formatYamlValueStr m.memory_type,
        "sealed: " ++ formatYamlValueBool m.sealed] ++
        optionalLine "promoted_from_id" m.promoted_from_id ++
        optionalLine "promoted_from_source_session_id" m.promoted_from_source_session_id ++
        optionalLine "promoted_from_source_trigger" m.promoted_from_source_trigger ++
        optionalLine "promoted_from_memory_type" m.promoted_from_memory_type ++
        optionalLine "sealed_from_id" m.sealed_from_id ++
        optionalLine "sealed_from_source_session_id" m.sealed_from_source_session_id ++
        optionalLine "sealed_from_source_trigger" m.sealed_from_source_trigger ++
        optionalLine "sealed_from_memory_type" m.sealed_from_memory_type) ++
        [FRONT_MATTER_DELIMITER, ""]) := by
    unfold buildFrontMatter
    simp [List.append_assoc]
  have hcleanKV : ∀ l ∈ (["id: " ++ formatYamlValueStr m.id,
        "created_at: " ++ formatYamlValueStr m.created_at,
        "source_session_id: " ++ formatYamlValueStr m.source_session_id,
        "source_trigger: " ++ formatYamlValueStr m.source_trigger,
        "memory_type: " ++ formatYamlValueStr m.memory_type,
        "sealed: " ++ formatYamlValueBool m.sealed] ++
        optionalLine "promoted_from_id" m.promoted_from_id ++
        optionalLine "promoted_from_source_session_id" m.promoted_from_source_session_id ++
        optionalLine "promoted_from_source_trigger" m.promoted_from_source_trigger ++
        optionalLine "promoted_from_memory_type" m.promoted_from_memory_type ++
        optionalLine "sealed_from_id" m.sealed_from_id ++
        optionalLine "sealed_from_source_session_id" m.sealed_from_source_session_id ++
        optionalLine "sealed_from_source_trigger" m.sealed_from_source_trigger ++
        optionalLine "sealed_from_memory_type" m.sealed_from_memory_type), ∀ x ∈ l.data, x ≠ '\n' ∧ x ≠ '\r' := by
    intro l hl
    simp only [List.mem_append] at hl
    rcases hl with ((((((((hreq | ho1) | ho2) | ho3) | ho4) | ho5) | ho6) | ho7) | ho8)
    · simp only [List.mem_cons, List.not_mem_nil, or_false] at hreq
      rcases hreq with rfl | rfl | rfl | rfl | rfl | rfl
      · exact kvline_clean (by decide) (format_clean m.id)
      · exact kvline_clean (by decide) (format_clean m.created_at)
      · exact kvline_clean (by decide) (format_clean m.source_session_id)
      · exact kvline_clean (by decide) (format_clean m.source_trigger)
      · exact kvline_clean (by decide) (format_clean m.memory_type)
      · exact kvline_clean (by decide) (formatBool_clean m.sealed)
    · obtain ⟨v, _, _, rfl⟩ := mem_optionalLine ho1
      exact kvline_clean (by decide) (format_clean v)
    · obtain ⟨v, _, _, rfl⟩ := mem_optionalLine ho2
      exact kvline_clean (by decide) (format_clean v)
    · obtain ⟨v, _, _, rfl⟩ := mem_optionalLine ho3
      exact kvline_clean (by decide) (format_clean v)
    · obtain ⟨v, _, _, rfl⟩ := mem_optionalLine ho4
      exact kvline_clean (by decide) (format_clean v)
    · obtain ⟨v, _, _, rfl⟩ := mem_optionalLine ho5
      exact kvline_clean (by decide) (format_clean v)
    · obtain ⟨v, _, _, rfl⟩ := mem_optionalLine ho6
      exact kvline_clean (by decide) (format_clean v)
    · obtain ⟨v, _, _, rfl⟩ := mem_optionalLine ho7
      exact kvline_clean (by decide) (format_clean v)
    · obtain ⟨v, _, _, rfl⟩ := mem_optionalLine ho8
      exact kvline_clean (by decide) (format_clean v)
  have hndKV : ∀ l ∈ (["id: " ++ formatYamlValueStr m.id,
        "created_at: " ++ formatYamlValueStr m.created_at,
        "source_session_id: " ++ formatYamlValueStr m.source_session_id,
        "source_trigger: " ++ formatYamlValueStr m.source_trigger,
        "memory_type: " ++ formatYamlValueStr m.memory_type,
        "sealed: " ++ formatYamlValueBool m.sealed] ++
        optionalLine "promoted_from_id" m.promoted_from_id ++
        optionalLine "promoted_from_source_session_id" m.promoted_from_source_session_id ++
        optionalLine "promoted_from_source_trigger" m.promoted_from_source_trigger ++
        optionalLine "promoted_from_memory_type" m.promoted_from_memory_type ++
        optionalLine "sealed_from_id" m.sealed_from_id ++
        optionalLine "sealed_from_source_session_id" m.sealed_from_source_session_id ++
        optionalLine "sealed_from_source_trigger" m.sealed_from_source_trigger ++
        optionalLine "sealed_from_memory_type" m.sealed_from_memory_type), trimStr l ≠ FRONT_MATTER_DELIMITER := by
    intro l hl
    simp only [List.mem_append] at hl
    rcases hl with ((((((((hreq | ho1) | ho2) | ho3) | ho4) | ho5) | ho6) | ho7) | ho8)
    · simp only [List.mem_cons, List.not_mem_nil, or_false] at hreq
      rcases hreq with rfl | rfl | rfl | rfl | rfl | rfl
      · rw [show ("id: " : String) = "id" ++ ": " from rfl]
        exact kvline_not_delim (by decide) (by decide)
      · rw [show ("created_at: " : String) = "created_at" ++ ": " from rfl]
        exact kvline_not_delim (by decide) (by decide)
      · rw [show ("source_session_id: " : String) = "source_session_id" ++ ": " from rfl]
        exact kvline_not_delim (by decide) (by decide)
      · rw [show ("source_trigger: " : String) = "source_trigger" ++ ": " from rfl]
        exact kvline_not_delim (by decide) (by decide)
      · rw [show ("memory_type: " : String) = "memory_type" ++ ": " from rfl]
        exact kvline_not_delim (by decide) (by decide)
      · rw [show ("sealed: " : String) = "sealed" ++ ": " from rfl]
        exact kvline_not_delim (by decide) (by decide)
    · obtain ⟨v, _, _, rfl⟩ := mem_optionalLine ho1
      exact kvline_not_delim (by decide) (by decide)
    · obtain ⟨v, _, _, rfl⟩ := mem_optionalLine ho2
      exact kvline_not_delim (by decide) (by decide)
    · obtain ⟨v, _, _, rfl⟩ := mem_optionalLine ho3
      exact kvline_not_delim (by decide) (by decide)
    · obtain ⟨v, _, _, rfl⟩ := mem_optionalLine ho4
      exact kvline_not_delim (by decide) (by decide)
    · obtain ⟨v, _, _, rfl⟩ := mem_optionalLine ho5
      exact kvline_not_delim (by decide) (by decide)
    · obtain ⟨v, _, _, rfl⟩ := mem_optionalLine ho6
      exact kvline_not_delim (by decide) (by decide)
    · obtain ⟨v, _, _, rfl⟩ := mem_optionalLine ho7
      exact kvline_not_delim (by decide) (by decide)
    · obtain ⟨v, _, _, rfl⟩ := mem_optionalLine ho8
      exact kvline_not_delim (by decide) (by decide)
  have hmeta : (["id: " ++ formatYamlValueStr m.id,
        "created_at: " ++ formatYamlValueStr m.created_at,
        "source_session_id: " ++ formatYamlValueStr m.source_session_id,
        "source_trigger: " ++ formatYamlValueStr m.source_trigger,
        "memory_type: " ++ formatYamlValueStr m.memory_type,
        "sealed: " ++ formatYamlValueBool m.sealed] ++
        optionalLine "promoted_from_id" m.promoted_from_id ++
        optionalLine "promoted_from_source_session_id" m.promoted_from_source_session_id ++
        optionalLine "promoted_from_source_trigger" m.promoted_from_source_trigger ++
        optionalLine "promoted_from_memory_type" m.promoted_from_memory_type ++
        optionalLine "sealed_from_id" m.sealed_from_id ++
        optionalLine "sealed_from_source_session_id" m.sealed_from_source_session_id ++
        optionalLine "sealed_from_source_trigger" m.sealed_from_source_trigger ++
        optionalLine "sealed_from_memory_type" m.sealed_from_memory_type).foldl applyHeaderLine emptyParsedMeta = expectedParsedMeta m := by
    simp only [List.foldl_append]
    simp only [List.foldl_cons, List.foldl_nil]
    rw [ah_id, ah_created_at, ah_ssid, ah_strig, ah_mtype, ah_sealed]
    rw [optfold_promoted_from_id _ _ h1 rfl]
    rw [optfold_promoted_from_source_session_id _ _ h2 rfl]
    rw [optfold_promoted_from_source_trigger _ _ h3 rfl]
    rw [optfold_promoted_from_memory_type _ _ h4 rfl]
    rw [optfold_sealed_from_id _ _ h5 rfl]
    rw [optfold_sealed_from_source_session_id _ _ h6 rfl]
    rw [optfold_sealed_from_source_trigger _ _ h7 rfl]
    rw [optfold_sealed_from_memory_type _ _ h8 rfl]
    rfl
  rw [hbuild, parseFrontMatter_header _ body hcleanKV hndKV, hmeta,
    joinWith_splitLines body hbody]

set_option maxRecDepth 40000 in
/-- C10 counterexample to the unamended round trip: with the body
a CR LF b, which does not begin with the delimiter line, decoding the
encoder output concatenated with it yields the body with the CR-LF
normalized to a bare LF, not the original body. -/
theorem buildFrontMatter_roundtrip_counterexample :
    (parseFrontMatter (buildFrontMatter
        ⟨"u1", "2025-01-01T00:00:00.000Z", "s1", "t1", "ThreadBorn", false,
          none, none, none, none, none, none, none, none⟩ ++ "a\r\nb")).body = "a\nb" ∧
    ¬ (parseFrontMatter (buildFrontMatter
        ⟨"u1", "2025-01-01T00:00:00.000Z", "s1", "t1", "ThreadBorn", false,
          none, none, none, none, none, none, none, none⟩ ++ "a\r\nb")).body = "a\r\nb" := by
  constructor <;> decide

theorem buildFrontMatter_roundtrip_witness :
    ((some "p1" : Option String) ≠ some "") ∧
    listContainsRun ['\r', '\n'] ("hello\nworld" : String).data = false ∧
    parseFrontMatter (buildFrontMatter
        ⟨"u1", "2025-01-01T00:00:00.000Z", "s1", "t1", "Vault", true,
          some "p1", none, none, none, some "sf1", none, none, none⟩ ++ "hello\nworld") =
      { metadata := expectedParsedMeta
          ⟨"u1", "2025-01-01T00:00:00.000Z", "s1", "t1", "Vault", true,
            some "p1", none, none, none, some "sf1", none, none, none⟩,
        body := "hello\nworld" } := by
  refine ⟨by decide, by decide, ?_⟩
  exact buildFrontMatter_roundtrip _ "hello\nworld" (by decide) (by decide) (by decide)
    (by decide) (by decide) (by decide) (by decide) (by decide) (by decide)

end OpenClaw
